import Mathlib

/-!
# Kamkast

A shallow embedding of the parts of the kamkast streaming gateway that its specification makes
claims about: the HTTP server's connection table (`httpserver.cpp`), the caster's clock and life
cycle (`caster.cpp`), the event loop (`noguieventloop.cpp`) and the request dispatch and event
handling of the application object (`kamkast.cpp`).

Conventions: `unordered_map` tables are association lists, threads are interleavings of atomic
steps, clock readings are integers, and what an external library decides (codec results, whether
a device opens) is an input of the step that asks for it.
-/

namespace KamkastModel

/-! ## DataBuffer -/

/-- Modelled from the spec: the byte FIFO `DataBuffer` of `databuffer.hpp`, a header that is not
among the sources. Only the stored bytes and the hard maximum are kept. -/
structure DataBuffer where
  hardMax : Nat
  data : List Nat
deriving DecidableEq, Repr

namespace DataBuffer

/-- Modelled from the spec: `pushExactForce` of the missing `databuffer.hpp` stores all of `src`
and, once `hardMax` would be exceeded, evicts the oldest bytes. -/
def pushExactForce (b : DataBuffer) (src : List Nat) : DataBuffer :=
  { b with data := (b.data ++ src).drop ((b.data ++ src).length - b.hardMax) }

/-- Modelled from the spec: `pull(dst, max)` of the missing `databuffer.hpp` hands out
`min(max, size)` bytes in FIFO order and removes them. -/
def pull (b : DataBuffer) (max : Nat) : List Nat × DataBuffer :=
  (b.data.take max, { b with data := b.data.drop max })

/-- Modelled from the spec: `empty()` of the missing `databuffer.hpp`. -/
def empty (b : DataBuffer) : Bool := b.data.isEmpty

/-- Modelled from the spec: `size()` of the missing `databuffer.hpp`, the number of bytes
stored. -/
def size (b : DataBuffer) : Nat := b.data.length

/-- Modelled from the spec: `hasEnoughData(n)` of the missing `databuffer.hpp`, the scalar
predicate that at least `n` bytes are stored. -/
def hasEnoughData (b : DataBuffer) (n : Nat) : Bool := decide (n ≤ b.size)

/-- Modelled from the spec: `pushNullExactForce(n)` of the missing `databuffer.hpp` is
`pushExactForce` with `n` zeroed bytes. -/
def pushNullExactForce (b : DataBuffer) (n : Nat) : DataBuffer :=
  b.pushExactForce (List.replicate n 0)

/-- Modelled from the spec: `discardExact(n)` of the missing `databuffer.hpp` removes the `n`
oldest bytes without copying; its precondition is `n ≤ size`. -/
def discardExact (b : DataBuffer) (n : Nat) : DataBuffer := { b with data := b.data.drop n }

end DataBuffer

/-! ## HttpServer (httpserver.hpp, httpserver.cpp) -/

/-- The `HttpServer::connectionBufSize` constant. -/
def connectionBufSize : Nat := 0x1000000

/-- The `HttpServer::maxSuspendTime` constant, in milliseconds. -/
def maxSuspendTime : Int := 5000

/-- The `HttpServer::ConnectionCtx` record. Time points are nanoseconds of the steady clock.
`mhdSuspended` is not a field of the C++ struct: it is the suspension state that the HTTP
framework keeps for `mhdConn`, changed by `MHD_suspend_connection` and
`MHD_resume_connection`. -/
structure ConnectionCtx where
  id : Nat
  mhdConn : Nat
  buf : DataBuffer := { hardMax := connectionBufSize * 10, data := [] }
  removed : Bool := false
  suspended : Bool := false
  suspendTime : Int := 0
  mhdSuspended : Bool := false
deriving DecidableEq, Repr

/-- The members of `HttpServer` that the connection operations read and write. -/
structure HttpServer where
  nextConnectionId : Nat := 1
  connections : List ConnectionCtx := []
  shutdownRequested : Bool := false
deriving DecidableEq, Repr

namespace HttpServer

/-- The `HttpServer::connectionCtx` lookup: `m_connections.find(id)`. -/
def connectionCtx (srv : HttpServer) (id : Nat) : Option ConnectionCtx :=
  srv.connections.find? (fun c => c.id == id)

/-- Writing through the reference that `connectionCtx` returns. -/
def setCtx (srv : HttpServer) (id : Nat) (ctx : ConnectionCtx) : HttpServer :=
  { srv with connections := srv.connections.map (fun c => if c.id == id then ctx else c) }

/-- The `HttpServer::suspendConnection` operation. -/
def suspendConnection (ctx : ConnectionCtx) (now : Int) : ConnectionCtx :=
  if ctx.suspended then ctx
  else { ctx with mhdSuspended := true, suspended := true, suspendTime := now }

/-- The `HttpServer::resumeConnection` operation. -/
def resumeConnection (ctx : ConnectionCtx) : ConnectionCtx :=
  if !ctx.suspended then ctx
  else { ctx with mhdSuspended := false, suspended := false }

/-- The `HttpServer::mhdContentReaderCallback` function on the context it is registered for.
`shutdownRequested` is `ctx->server->m_shutdownRequested`, `lockAcquired` the outcome of the
`try_to_lock`, `now` the clock reading taken when the connection is suspended. The result is the
returned `ssize_t` and the context afterwards. -/
def mhdContentReaderCallback (shutdownRequested : Bool) (ctx : ConnectionCtx) (max : Nat)
    (lockAcquired : Bool) (now : Int) : Int × ConnectionCtx :=
  if shutdownRequested || ctx.removed then (-1, ctx)
  else if !lockAcquired then (0, ctx)
  else if ctx.buf.empty then (0, suspendConnection ctx now)
  else
    let r := ctx.buf.pull max
    ((r.1.length : Int), { ctx with buf := r.2 })

/-- The `HttpServer::addMhdConnection` operation; the thrown "overlaping connection id" leaves
the table as it was. `ConnectionId` is `unsigned int`. -/
def addMhdConnection (srv : HttpServer) (connection : Nat) : HttpServer :=
  if srv.connections.any (fun c => c.mhdConn == connection) then srv
  else if (srv.connectionCtx srv.nextConnectionId).isSome then srv
  else
    { srv with
      connections := srv.connections ++ [{ id := srv.nextConnectionId, mhdConn := connection }]
      nextConnectionId := (srv.nextConnectionId + 1) % 2 ^ 32 }

/-- The `HttpServer::removeConnection` operation. -/
def removeConnection (srv : HttpServer) (id : Nat) : HttpServer :=
  match srv.connectionCtx id with
  | none => srv
  | some _ => { srv with connections := srv.connections.filter (fun c => !(c.id == id)) }

/-- The `HttpServer::dropConnection` operation. -/
def dropConnection (srv : HttpServer) (id : Nat) : HttpServer :=
  match srv.connectionCtx id with
  | none => srv
  | some ctx =>
    srv.setCtx id
      { ctx with removed := true, mhdSuspended := if ctx.suspended then false else ctx.mhdSuspended }

/-- The `HttpServer::connectionIdFromMhd` lookup. -/
def connectionIdFromMhd (srv : HttpServer) (connection : Nat) : Option Nat :=
  (srv.connections.find? (fun c => c.mhdConn == connection)).map (fun c => c.id)

/-- The `HttpServer::pushDataInternal` function. -/
def pushDataInternal (ctx : ConnectionCtx) (data : List Nat) : Option Nat × ConnectionCtx :=
  if ctx.removed then (none, ctx)
  else (some data.length, resumeConnection { ctx with buf := ctx.buf.pushExactForce data })

/-- The `HttpServer::pushData` operation (both overloads have this body). -/
def pushData (srv : HttpServer) (id : Nat) (data : List Nat) : Option Nat × HttpServer :=
  if srv.shutdownRequested then (none, srv)
  else
    match srv.connectionCtx id with
    | none => (none, srv)
    | some ctx =>
      let r := pushDataInternal ctx data
      (r.1, srv.setCtx id r.2)

/-- The body of the loop of `HttpServer::removeGhostConnections` for one context. The duration is
the `duration_cast` to milliseconds, which truncates. -/
def removeGhost (now : Int) (ctx : ConnectionCtx) : ConnectionCtx :=
  if !ctx.removed && ctx.suspended then
    if Int.tdiv (now - ctx.suspendTime) 1000000 ≥ maxSuspendTime then
      resumeConnection { ctx with removed := true }
    else ctx
  else ctx

/-- The `HttpServer::removeGhostConnections` operation. -/
def removeGhostConnections (srv : HttpServer) (now : Int) : HttpServer :=
  { srv with connections := srv.connections.map (removeGhost now) }

/-- The `HttpServer::~HttpServer` destructor, as far as the connection table goes. -/
def shutdown (srv : HttpServer) : HttpServer :=
  { srv with shutdownRequested := true, connections := srv.connections.map resumeConnection }

/-- The `MHD_CONNECTION_NOTIFY_CLOSED` branch of `HttpServer::mhdNotifyConnectionCallback`, the
removed handler left out (it does not touch the table). -/
def notifyClosed (srv : HttpServer) (connection : Nat) : HttpServer :=
  match srv.connectionIdFromMhd connection with
  | none => srv
  | some id => srv.removeConnection id

/-- The `MHD_CONNECTION_NOTIFY_STARTED` branch of `HttpServer::mhdNotifyConnectionCallback`. -/
def notifyStarted (srv : HttpServer) (connection : Nat) : HttpServer :=
  match srv.connectionIdFromMhd connection with
  | some _ => srv
  | none => srv.addMhdConnection connection

end HttpServer

/-- One call into the server from any of its threads. -/
inductive ServerOp where
  | pushData (id : Nat) (data : List Nat)
  | contentReader (id : Nat) (max : Nat) (lockAcquired : Bool) (now : Int)
  | dropConnection (id : Nat)
  | removeGhostConnections (now : Int)
  | notifyStarted (connection : Nat)
  | notifyClosed (connection : Nat)
  | shutdown
deriving DecidableEq, Repr

namespace HttpServer

/-- The effect of one call on the server. A content-reader call is made on the context of a
connection of the table. -/
def step (srv : HttpServer) : ServerOp → HttpServer
  | .pushData id data => (srv.pushData id data).2
  | .contentReader id max lockAcquired now =>
    match srv.connectionCtx id with
    | none => srv
    | some ctx =>
      srv.setCtx id (mhdContentReaderCallback srv.shutdownRequested ctx max lockAcquired now).2
  | .dropConnection id => srv.dropConnection id
  | .removeGhostConnections now => srv.removeGhostConnections now
  | .notifyStarted connection => srv.notifyStarted connection
  | .notifyClosed connection => srv.notifyClosed connection
  | .shutdown => srv.shutdown

/-- The server after a sequence of calls. -/
def run (srv : HttpServer) (ops : List ServerOp) : HttpServer :=
  ops.foldl step srv

end HttpServer

/-! ## Caster: life cycle (caster.cpp) -/

namespace Caster

/-- The `Caster::State` enumeration. -/
inductive State where
  | Initing
  | Inited
  | Starting
  | Started
  | Terminating
deriving DecidableEq, Repr

end Caster

/-- The members of `Caster` that its life cycle reads and writes: `m_state` and whether
`m_stateChangedHandler` holds a callable. A caster begins in `Initing`, the first value of the
enumeration (the member initialisers are in caster.hpp, which is not among the sources). -/
structure Caster where
  state : Caster.State := .Initing
  hasStateChangedHandler : Bool := true
deriving DecidableEq, Repr

namespace Caster

/-- The `Caster::setState` operation. The second component lists the arguments of the calls it
makes to `m_stateChangedHandler`, in order. -/
def setState (c : Caster) (newState : State) : Caster × List State :=
  if c.state ≠ newState then
    ({ c with state := newState }, if c.hasStateChangedHandler then [newState] else [])
  else (c, [])

/-- The `Caster::terminating` test. -/
def terminating (c : Caster) : Bool := c.state == .Terminating

/-- The `Caster::reportError` operation (the condition variable is not modelled). -/
def reportError (c : Caster) : Caster × List State := c.setState .Terminating

/-- The constructor `Caster::Caster` when nothing throws: its one state change is the
`setState(State::Inited)` that ends `initAv`. -/
def construct (hasStateChangedHandler : Bool) : Caster × List State :=
  ({ hasStateChangedHandler := hasStateChangedHandler } : Caster).setState .Inited

/-- The `Caster::start` operation run without interruption; `ok` tells whether everything between
the two `setState` calls went through without a `runtime_error`. -/
def start (c : Caster) (ok : Bool) : Caster × List State :=
  if c.state ≠ .Inited then (c, [])
  else
    let r1 := c.setState .Starting
    let r2 := if ok then r1.1.setState .Started else r1.1.reportError
    (r2.1, r1.2 ++ r2.2)

/-- The destructor `Caster::~Caster`, as far as the state goes. -/
def destroy (c : Caster) : Caster × List State := c.setState .Terminating

/-- Where the thread that runs `Caster::start` stands. -/
inductive StartPc where
  | idle
  | entered
  | spawned
deriving DecidableEq, Repr

/-- A caster together with the control state of its threads: the position of the thread inside
`start()`, whether worker threads exist, and whether the destructor has run. -/
structure Life where
  caster : Caster := {}
  constructed : Bool := false
  pc : StartPc := .idle
  workers : Bool := false
  destroyed : Bool := false
deriving DecidableEq, Repr

/-- The atomic steps of a caster's threads that call `setState`, with the creation of the
worker threads between them. -/
inductive LifeStep where
  | initAv
  | startEnter
  | startSpawn
  | startFinish
  | startCatch
  | workerError
  | destructor
deriving DecidableEq, Repr

/-- One step; `none` when the step cannot happen in this control state.
`initAv`: the `setState(State::Inited)` of the constructor.
`startEnter`: the test `m_state != State::Inited` of `start()` and, when it passes,
`setState(State::Starting)`.
`startSpawn`: `startMuxing()` creates the worker threads.
`startFinish`: `setState(State::Started)`, the last statement of the `try` block.
`startCatch`: the `reportError()` of the `catch` in `start()`.
`workerError`: the `reportError()` in the `catch` of a worker thread.
`destructor`: the `setState(State::Terminating)` of `~Caster`, which then joins the workers. -/
def lifeStep (l : Life) : LifeStep → Option Life
  | .initAv =>
    if l.constructed || l.destroyed then none
    else some { l with caster := (l.caster.setState .Inited).1, constructed := true }
  | .startEnter =>
    if !l.constructed || l.destroyed || l.pc != .idle then none
    else if l.caster.state ≠ .Inited then some l
    else some { l with caster := (l.caster.setState .Starting).1, pc := .entered }
  | .startSpawn =>
    if l.pc == .entered then some { l with pc := .spawned, workers := true } else none
  | .startFinish =>
    if l.pc == .spawned then
      some { l with caster := (l.caster.setState .Started).1, pc := .idle }
    else none
  | .startCatch =>
    if l.pc == .entered || l.pc == .spawned then
      some { l with caster := l.caster.reportError.1, pc := .idle }
    else none
  | .workerError =>
    if l.workers then some { l with caster := l.caster.reportError.1 } else none
  | .destructor =>
    if !l.constructed || l.destroyed || l.pc != .idle then none
    else some { l with caster := l.caster.destroy.1, destroyed := true, workers := false }

/-- The states a caster goes through along a sequence of steps, the first one included; `none`
when a step of the sequence cannot happen. -/
def lifeTrace (l : Life) : List LifeStep → Option (List State)
  | [] => some [l.caster.state]
  | st :: rest =>
    match lifeStep l st with
    | none => none
    | some l' => (lifeTrace l' rest).map (fun t => l.caster.state :: t)

end Caster

/-! ## Caster: time stamps of the muxed packets (caster.cpp) -/

/-- The FFmpeg `AVRational` record. -/
structure AVRational where
  num : Int
  den : Int
deriving DecidableEq, Repr

/-- The value `INT64_MIN`, which FFmpeg's rescaling returns for arguments it rejects. -/
def INT64_MIN : Int := -(2 ^ 63)

/-- The FFmpeg function `av_rescale_rnd(a, b, c, AV_ROUND_NEAR_INF)`: `a * b / c` rounded to the
nearest integer, halves away from zero, and `INT64_MIN` when `c <= 0` or `b < 0`. Results are
not reduced to 64 bits. -/
def av_rescale (a b c : Int) : Int :=
  if c ≤ 0 ∨ b < 0 then INT64_MIN
  else if a < 0 then -((-a * b + c / 2) / c)
  else (a * b + c / 2) / c

/-- The FFmpeg function `av_rescale_q(a, bq, cq)`. -/
def av_rescale_q (a : Int) (bq cq : AVRational) : Int :=
  av_rescale a (bq.num * cq.den) (cq.num * bq.den)

/-- The `rescaleToUsec` helper. -/
def rescaleToUsec (time : Int) (srcTimeBase : AVRational) : Int :=
  av_rescale_q time srcTimeBase ⟨1, 1000000⟩

/-- The `rescaleFromUsec` helper. -/
def rescaleFromUsec (time : Int) (destTimeBase : AVRational) : Int :=
  av_rescale_q time ⟨1, 1000000⟩ destTimeBase

/-- The fields of an `AVPacket` that the muxing functions assign. -/
structure Packet where
  streamIndex : Nat
  pts : Int
  dts : Int
  duration : Int
deriving DecidableEq, Repr

/-- A packet handed to `av_write_frame`, with the clock reading `now` of the call or loop pass
that wrote it. -/
structure Written where
  now : Int
  pkt : Packet
deriving DecidableEq, Repr

/-- The members of `Caster` that the muxing thread uses to stamp packets. -/
structure AvState where
  outVideoTimeBase : AVRational := ⟨1, 1⟩
  outAudioTimeBase : AVRational := ⟨1, 1⟩
  videoRealFrameDuration : Int := 0
  videoFrameDuration : Int := 0
  videoTimeLastFrame : Int := 0
  nextVideoPts : Int := 0
  hasKeyVideoPkt : Bool := false
  audioFrameDuration : Int := 0
  audioPktDuration : Int := 0
  audioTimeLastFrame : Int := 0
  nextAudioPts : Int := 0
deriving DecidableEq, Repr

/-- What reading and encoding one video frame gave in a `muxVideo` call. -/
inductive VideoRead where
  | noFrame
  | failed
  | packet (corrupt discard key : Bool)
deriving DecidableEq, Repr

/-- The inputs of one `muxVideo` call: the clock reading `av_gettime()`, the value of
`m_restartRequested || m_restarting`, the outcome of the library calls that produce the packet
(`failed`: one of them made the function throw), and whether `av_write_frame` returns an error
for the stamped packet. -/
structure VideoCall where
  now : Int
  restart : Bool := false
  read : VideoRead := .packet false false false
  writeFails : Bool := false
deriving DecidableEq, Repr

/-- What one pass of the loop of `muxAudio` gave: `readRawAudioPkt` returned false, a library
call made the function throw, the encoder had no packet yet, or a packet came out. -/
inductive AudioOutcome where
  | noRawPkt
  | failed
  | notReady
  | packet
deriving DecidableEq, Repr

/-- The inputs of one pass of the loop of `muxAudio`: the clock reading, the outcome of the
calls that produce the packet, and whether `av_write_frame` returns an error for the stamped
packet. -/
structure AudioIter where
  now : Int
  outcome : AudioOutcome := .packet
  writeFails : Bool := false
deriving DecidableEq, Repr

/-- What a call of `muxVideo` or `muxAudio` did: the state afterwards, the packets it handed to
`av_write_frame`, in order, and whether it threw (the last packet handed over is then the one
whose write failed, if the write is what failed). -/
structure MuxResult where
  state : AvState
  written : List Written := []
  threw : Bool := false
deriving DecidableEq, Repr

namespace Caster

/-- The stream index of the video stream (`m_outVideoStream->index`). -/
def videoStreamIndex : Nat := 0

/-- The stream index of the audio stream (`m_outAudioStream->index`). -/
def audioStreamIndex : Nat := 1

/-- The video durations as `initAv` sets them from `m_videoFramerate`. -/
def initAvVideoDurations (s : AvState) (videoFramerate : Int) : AvState :=
  let d := rescaleToUsec 1 ⟨1, videoFramerate⟩
  { s with videoRealFrameDuration := d, videoFrameDuration := Int.tdiv d 2 }

/-- The `Caster::initAvAudioDurations` operation; `frameSize` is `m_outAudioCtx->frame_size`
and `inTimeBase` is `m_inAudioCtx->time_base`. -/
def initAvAudioDurations (s : AvState) (frameSize : Int) (inTimeBase : AVRational) : AvState :=
  let d := rescaleToUsec frameSize inTimeBase
  { s with audioFrameDuration := d, audioPktDuration := rescaleFromUsec d s.outAudioTimeBase }

/-- The time stamping state when the muxing thread starts and no video sample has been counted
before: durations from `initAv` and `initAvAudioDurations`, both next time stamps zero as the
thread sets them, and both last-frame times zero, the value that `videoDelay` and `audioDelay`
read as "no frame yet" (the member initialisers are in caster.hpp, which is not among the
sources). This is the start of every caster whose video source is not a DroidCam; for a
DroidCam see `muxingStartDroidCam`. `videoTimeBase` and `audioTimeBase` are the time bases of
the output streams after `avformat_write_header`; `startAv` assigns
`AVRational{1, m_videoFramerate}` to the video stream before that call. -/
def muxingStart (videoFramerate : Int) (videoTimeBase : AVRational) (frameSize : Int)
    (inTimeBase audioTimeBase : AVRational) : AvState :=
  initAvAudioDurations
    (initAvVideoDurations
      { outVideoTimeBase := videoTimeBase, outAudioTimeBase := audioTimeBase } videoFramerate)
    frameSize inTimeBase

/-- The `Caster::videoDelay` function. -/
def videoDelay (s : AvState) (now : Int) : Int :=
  if s.videoTimeLastFrame = 0 then s.videoRealFrameDuration
  else now - (s.videoTimeLastFrame + s.videoRealFrameDuration)

/-- The `Caster::updateVideoSampleStats` operation. -/
def updateVideoSampleStats (s : AvState) (now : Int) : AvState :=
  let s1 :=
    if s.videoTimeLastFrame > 0 then
      let lastDur := now - s.videoTimeLastFrame
      if lastDur ≥ Int.tdiv s.videoRealFrameDuration 4 then
        { s with videoRealFrameDuration := lastDur }
      else s
    else s
  { s1 with videoTimeLastFrame := now }

/-- The time stamping state when the muxing thread of a caster with a DroidCam source starts.
`start` calls `startGst` before `startAv` and `startMuxing`, and as long as the muxing thread
is not joinable `gstNewSampleCallback` calls `updateVideoSampleStats(av_gettime())` for every
sample; `samples` are the clock readings of these calls, in order. The thread then starts with
the last of them as last-frame time and with the last gap that was accepted as real frame
duration. -/
def muxingStartDroidCam (videoFramerate : Int) (videoTimeBase : AVRational) (frameSize : Int)
    (inTimeBase audioTimeBase : AVRational) (samples : List Int) : AvState :=
  samples.foldl updateVideoSampleStats
    (muxingStart videoFramerate videoTimeBase frameSize inTimeBase audioTimeBase)

/-- The tail of `Caster::muxVideo`, from `updateVideoSampleStats(now)` on: stamps the packet and
advances `m_nextVideoPts`. -/
def stampVideo (s : AvState) (now : Int) : AvState × Packet :=
  let s1 := updateVideoSampleStats s now
  let duration := rescaleFromUsec s1.videoRealFrameDuration s1.outVideoTimeBase
  ({ s1 with nextVideoPts := s1.nextVideoPts + duration },
   { streamIndex := videoStreamIndex, pts := s1.nextVideoPts, dts := s1.nextVideoPts,
     duration := duration })

/-- The end of `Caster::muxVideo`: the packet is stamped and handed to `av_write_frame`. -/
def writeVideo (s : AvState) (c : VideoCall) : MuxResult :=
  let r := stampVideo s c.now
  { state := r.1, written := [⟨c.now, r.2⟩], threw := c.writeFails }

/-- The `Caster::muxVideo` operation. The call returns true exactly when it does not throw and
hands over a packet. In the restart branch no frame is read, and `read = failed` stands for a
failing `av_packet_ref` of the cached key packet. -/
def muxVideo (s : AvState) (c : VideoCall) : MuxResult :=
  if c.restart then
    if !s.hasKeyVideoPkt || videoDelay s c.now < 0 then { state := s }
    else
      match c.read with
      | .failed => { state := s, threw := true }
      | _ => writeVideo s c
  else
    match c.read with
    | .noFrame => { state := s }
    | .failed => { state := s, threw := true }
    | .packet corrupt discard key =>
      if corrupt then { state := s }
      else if discard then { state := s }
      else writeVideo (if key && !s.hasKeyVideoPkt then { s with hasKeyVideoPkt := true } else s) c

/-- The part of one pass of the loop of `Caster::muxAudio` that stamps the packet. -/
def stampAudio (s : AvState) (now : Int) : AvState × Packet :=
  let pkt : Packet :=
    { streamIndex := audioStreamIndex, pts := s.nextAudioPts, dts := s.nextAudioPts,
      duration := s.audioPktDuration }
  ({ s with
      nextAudioPts := s.nextAudioPts + pkt.duration
      audioTimeLastFrame :=
        if pkt.pts = 0 then now else s.audioTimeLastFrame + s.audioFrameDuration },
   pkt)

/-- The `Caster::muxAudio` operation on the passes of its loop; the list ends where
`terminating()` was seen. -/
def muxAudio (s : AvState) : List AudioIter → MuxResult
  | [] => { state := s }
  | it :: rest =>
    match it.outcome with
    | .noRawPkt => { state := s }
    | .notReady => { state := s }
    | .failed => { state := s, threw := true }
    | .packet =>
      let r := stampAudio s it.now
      if it.writeFails then { state := r.1, written := [⟨it.now, r.2⟩], threw := true }
      else
        let q := muxAudio r.1 rest
        { q with written := ⟨it.now, r.2⟩ :: q.written }

/-- One round of the loop of the muxing thread: the `muxVideo` call when video is enabled, then
the `muxAudio` call when audio is enabled (`startVideoAudioMuxing`, `startVideoOnlyMuxing`,
`startAudioOnlyMuxing`). -/
structure MuxRound where
  video : Option VideoCall := none
  audio : Option (List AudioIter) := none
deriving DecidableEq, Repr

/-- The video half of a round: nothing when video is disabled. -/
def roundVideo (s : AvState) : Option VideoCall → MuxResult
  | none => { state := s }
  | some c => muxVideo s c

/-- The audio half of a round: nothing when audio is disabled. -/
def roundAudio (s : AvState) : Option (List AudioIter) → MuxResult
  | none => { state := s }
  | some its => muxAudio s its

/-- The packets handed to `av_write_frame` by the muxing thread over the given rounds, in
order; a throwing call ends the thread. -/
def muxingThread (s : AvState) : List MuxRound → List Written
  | [] => []
  | r :: rest =>
    if (roundVideo s r.video).threw then (roundVideo s r.video).written
    else if (roundAudio (roundVideo s r.video).state r.audio).threw then
      (roundVideo s r.video).written ++ (roundAudio (roundVideo s r.video).state r.audio).written
    else
      (roundVideo s r.video).written ++
        (roundAudio (roundVideo s r.video).state r.audio).written ++
        muxingThread (roundAudio (roundVideo s r.video).state r.audio).state rest

/-- The packets of one stream among those written, in the order written. -/
def ofStream (trace : List Written) (streamIndex : Nat) : List Written :=
  trace.filter (fun w => w.pkt.streamIndex == streamIndex)

end Caster

/-! ## Caster: reading raw audio (caster.cpp) -/

/-- The members of `Caster` that `readRawAudioPkt` reads besides the time stamping state:
`m_audioBuf`, `m_audioFrameSize`, whether `m_paStream` is not null, and the values of
`videoEnabled()`, `audioMuted()` (the configured volume is 0 to within one step of `float`)
and `audioBoosted()`. -/
structure AudioSide where
  buf : DataBuffer
  frameSize : Nat
  paStream : Bool := true
  videoEnabled : Bool := true
  audioMuted : Bool := false
  audioBoosted : Bool := false
deriving DecidableEq, Repr

/-- What a call of `readRawAudioPkt` did: the bytes put into the packet when it returns true
(before `changeAudioVolume` scales them, when the volume is boosted), the audio buffer
afterwards, whether it threw, and the size of the buffer at its call of `discardExact`, if it
made one. -/
structure RawAudioResult where
  pkt : Option (List Nat) := none
  buf : DataBuffer
  threw : Bool := false
  discardedAt : Option Nat := none
deriving DecidableEq, Repr

namespace Caster

/-- The `Caster::videoAudioDelay` function. -/
def videoAudioDelay (s : AvState) : Int :=
  rescaleToUsec s.nextVideoPts s.outVideoTimeBase - rescaleToUsec s.nextAudioPts s.outAudioTimeBase

/-- The `Caster::audioDelay` function. -/
def audioDelay (s : AvState) (now : Int) : Int :=
  if s.audioTimeLastFrame = 0 then s.audioFrameDuration
  else now - (s.audioTimeLastFrame + s.audioFrameDuration)

/-- The delay that `readRawAudioPkt` computes. -/
def rawAudioDelay (s : AvState) (a : AudioSide) (now : Int) : Int :=
  if a.videoEnabled then videoAudioDelay s else audioDelay s now

/-- The `Caster::readRawAudioPkt` function; `newPacketOk` tells whether `av_new_packet`
succeeds. -/
def readRawAudioPkt (s : AvState) (a : AudioSide) (now : Int) (newPacketOk : Bool) :
    RawAudioResult :=
  let maxAudioDelay := 2 * s.audioFrameDuration
  let delay := rawAudioDelay s a now
  if delay < -maxAudioDelay then
    { buf := a.buf.discardExact a.frameSize, discardedAt := some a.buf.size }
  else if delay < s.audioFrameDuration then { buf := a.buf }
  else
    let fill (buf : DataBuffer) : RawAudioResult :=
      if !newPacketOk then { buf := buf, threw := true }
      else { pkt := some (buf.pull a.frameSize).1, buf := (buf.pull a.frameSize).2 }
    if !a.buf.hasEnoughData a.frameSize then
      let pushNull := !a.paStream || decide (delay > maxAudioDelay) || a.audioMuted
      if pushNull then fill (a.buf.pushNullExactForce (a.frameSize - a.buf.size))
      else { buf := a.buf }
    else fill a.buf

end Caster

/-- What the decoder, resampler and encoder calls of one pass of the loop of `muxAudio` gave
after `readRawAudioPkt` returned true: a call made the function throw, the encoder had no
packet yet, or a packet came out. -/
inductive EncodeOutcome where
  | failed
  | notReady
  | packet
deriving DecidableEq, Repr

/-- The inputs of one pass of the loop of `muxAudio`: the clock reading `av_gettime()`, whether
`av_new_packet` succeeds, what the encoding gave, and whether `av_write_frame` returns an error
for the stamped packet. -/
structure AudioPass where
  now : Int
  newPacketOk : Bool := true
  encode : EncodeOutcome := .packet
  writeFails : Bool := false
deriving DecidableEq, Repr

/-- One step of the threads that touch the audio buffer and the time stamps: the PulseAudio
thread pushes captured bytes, the muxing thread makes a `muxVideo` call, or the muxing thread
makes one pass of the loop of `muxAudio`. -/
inductive AudioStep where
  | paPush (data : List Nat)
  | video (c : VideoCall)
  | audio (p : AudioPass)
deriving DecidableEq, Repr

/-- The time stamping state and the audio side of a caster while it runs; `discards` is the
history of the calls of `discardExact`: the size of the audio buffer at the call and the
number of bytes to discard. `ended` is set once the muxing thread has thrown. -/
structure AudioRun where
  av : AvState
  side : AudioSide
  discards : List (Nat × Nat) := []
  ended : Bool := false
deriving DecidableEq, Repr

namespace Caster

/-- The effect of one step. A throwing call ends the muxing thread; the PulseAudio thread
goes on pushing. -/
def audioStep (st : AudioRun) : AudioStep → AudioRun
  | .paPush data => { st with side := { st.side with buf := st.side.buf.pushExactForce data } }
  | .video c =>
    if st.ended then st
    else { st with av := (muxVideo st.av c).state, ended := (muxVideo st.av c).threw }
  | .audio p =>
    if st.ended then st
    else
      let r := readRawAudioPkt st.av st.side p.now p.newPacketOk
      let st1 : AudioRun :=
        { st with
          side := { st.side with buf := r.buf }
          discards :=
            match r.discardedAt with
            | some size => st.discards ++ [(size, st.side.frameSize)]
            | none => st.discards }
      if r.threw then { st1 with ended := true }
      else
        match r.pkt with
        | none => st1
        | some _ =>
          match p.encode with
          | .failed => { st1 with ended := true }
          | .notReady => st1
          | .packet => { st1 with av := (stampAudio st.av p.now).1, ended := p.writeFails }

/-- The run of a caster over a sequence of steps. -/
def audioRun (st : AudioRun) (steps : List AudioStep) : AudioRun := steps.foldl audioStep st

/-- The clock readings of the passes of `muxAudio` are not negative and never go back, from
the reading `t` on. -/
def clockMonotone : Int → List AudioStep → Bool
  | _, [] => true
  | t, .audio p :: rest => decide (t ≤ p.now) && clockMonotone p.now rest
  | t, _ :: rest => clockMonotone t rest

/-- What holds of a running caster after every step, `t` being the latest clock reading of a
pass of `muxAudio`: no call of `discardExact` has been made, the time bases are positive, the
durations are not negative, the audio packet duration is the rescaled frame duration, the next
time stamps are not negative, with video the delay `videoPts - audioPts` is at least
`-2 * frameDur`, and without video the last-frame time is at most `t + frameDur`. -/
def runInvariant (st : AudioRun) (t : Int) : Prop :=
  st.discards = [] ∧
    (0 < st.av.outVideoTimeBase.num ∧ 0 < st.av.outVideoTimeBase.den) ∧
    (0 < st.av.outAudioTimeBase.num ∧ 0 < st.av.outAudioTimeBase.den) ∧
    0 ≤ st.av.videoRealFrameDuration ∧ 0 ≤ st.av.audioFrameDuration ∧
    st.av.audioPktDuration = rescaleFromUsec st.av.audioFrameDuration st.av.outAudioTimeBase ∧
    0 ≤ st.av.nextVideoPts ∧ 0 ≤ st.av.nextAudioPts ∧
    (st.side.videoEnabled = true → -(2 * st.av.audioFrameDuration) ≤ videoAudioDelay st.av) ∧
    (st.side.videoEnabled = false →
      st.av.audioTimeLastFrame ≤ t + st.av.audioFrameDuration) ∧
    0 ≤ t

end Caster

/-! ## Strings (utils.hpp and the `std::string` searches used by kamkast.cpp) -/

/-- The C function `isspace` in the "C" locale. -/
def isspace (ch : Char) : Bool :=
  ch == ' ' || ch == '\t' || ch == '\n' || ch == '\x0b' || ch == '\x0c' || ch == '\r'

/-- The `ltrim` helper: erases up to the first character that is neither blank nor `ach`. -/
def ltrim (s : List Char) (ach : Char) : List Char :=
  s.dropWhile (fun ch => !(!isspace ch && ch != ach))

/-- The `rtrim` helper: erases from the end down to the last character that is neither blank
nor `ach`. -/
def rtrim (s : List Char) (ach : Char) : List Char :=
  (s.reverse.dropWhile (fun ch => !(!isspace ch && ch != ach))).reverse

/-- The `trim` helper. -/
def trim (s : List Char) (ach : Char) : List Char := rtrim (ltrim s ach) ach

/-- The `trimmed` helper. -/
def trimmed (s : List Char) (ach : Char) : List Char := trim s ach

/-- The search `s.find(pat)` of `std::string`: the first position where `pat` occurs, `none` for
`npos`. -/
def find (s pat : List Char) : Option Nat :=
  (List.range (s.length + 1)).find? (fun i => pat.isPrefixOf (s.drop i))

/-- The search `s.rfind(pat, pos)` of `std::string`: the last position not after `pos` where
`pat` occurs, `none` for `npos`. -/
def rfind (s pat : List Char) (pos : Nat) : Option Nat :=
  (List.range (min pos s.length + 1)).reverse.find? (fun i => pat.isPrefixOf (s.drop i))

/-! ## Settings and events (settings.hpp, event.hpp) -/

namespace Settings

/-- The `Settings::StreamFormat` enumeration. -/
inductive StreamFormat where
  | Mp4
  | MpegTs
  | Mp3
deriving DecidableEq, Repr

/-- The `Settings::VideoOrientation` enumeration. -/
inductive VideoOrientation where
  | Auto
  | Portrait
  | InvertedPortrait
  | Landscape
  | InvertedLandscape
deriving DecidableEq, Repr

/-- The `Settings::VideoEncoder` enumeration. -/
inductive VideoEncoder where
  | Auto
  | X264
  | Nvenc
  | V4l2
deriving DecidableEq, Repr

/-- The option name `Settings::urlPathOpt`. -/
def urlPathOpt : List Char := "url-path".toList

/-- The option name `Settings::portOpt`. -/
def portOpt : List Char := "port".toList

/-- The option name `Settings::videoEncoderOpt`. -/
def videoEncoderOpt : List Char := "video-encoder".toList

/-- The option name `Settings::streamFormatOpt`. -/
def streamFormatOpt : List Char := "stream-format".toList

/-- The option name `Settings::videoSourceNameOpt`. -/
def videoSourceNameOpt : List Char := "video-source".toList

/-- The option name `Settings::audioSourceNameOpt`. -/
def audioSourceNameOpt : List Char := "audio-source".toList

/-- The option name `Settings::audioVolumeOpt`. -/
def audioVolumeOpt : List Char := "audio-volume".toList

/-- The option name `Settings::videoOrientationOpt`. -/
def videoOrientationOpt : List Char := "video-orientation".toList

/-- The option name `Settings::audioSourceMutedOpt`. -/
def audioSourceMutedOpt : List Char := "audio-source-muted".toList

/-- The `DEFAULT_OPT` helper of settings.hpp. -/
def DEFAULT_OPT (key : List Char) : List Char := "default-".toList ++ key

/-- The array `Settings::urlOpts`: the names that `Kamkast::updateSettingsFromUrlParams` looks
up in the URL and hands to `updateFromStr`. -/
def urlOpts : List (List Char) :=
  [streamFormatOpt, videoSourceNameOpt, audioSourceNameOpt, audioVolumeOpt, audioSourceMutedOpt,
    videoOrientationOpt]

/-- The array `Settings::offValues`. -/
def offValues : List (List Char) :=
  ["false".toList, "no".toList, "off".toList, "0".toList, "disable".toList, "disabled".toList]

/-- The array `Settings::onValues`. -/
def onValues : List (List Char) :=
  ["true".toList, "yes".toList, "on".toList, "1".toList, "enable".toList, "enabled".toList]

/-- The conversion of a `float` to an `int`: the fraction is dropped. -/
def floatToInt (f : ℚ) : Int := Int.tdiv f.num f.den

end Settings

/-- The members of `Settings`. The member `audioVolume` is declared `int`. -/
structure Settings where
  debug : Bool := false
  debugFile : List Char := []
  gui : Bool := false
  ignoreUrlParams : Bool := false
  disableWebUi : Bool := false
  disableCtrlApi : Bool := false
  logRequests : Bool := false
  audioSourceMuted : Bool := false
  port : Int := 0
  audioVolume : Int := 0
  urlPath : List Char := []
  ifname : List Char := []
  address : List Char := []
  logFile : List Char := []
  configFile : List Char := []
  videoSourceName : List Char := []
  audioSourceName : List Char := []
  streamFormat : Option Settings.StreamFormat := none
  videoOrientation : Option Settings.VideoOrientation := none
  videoEncoder : Option Settings.VideoEncoder := none
deriving DecidableEq, Repr

namespace Settings

/-- The `Settings::streamFormatToStr` function. -/
def streamFormatToStr (s : Settings) : List Char :=
  match s.streamFormat with
  | some .Mp4 => "mp4".toList
  | some .MpegTs => "mpegts".toList
  | some .Mp3 => "mp3".toList
  | none => "mp4".toList

/-- The `Settings::streamFormatFromStr` function. -/
def streamFormatFromStr (str : List Char) : Option StreamFormat :=
  if str = "mp4".toList then some .Mp4
  else if str = "mpegts".toList then some .MpegTs
  else if str = "mp3".toList then some .Mp3
  else none

/-- The `Settings::videoOrientationToStr` function. -/
def videoOrientationToStr (s : Settings) : List Char :=
  match s.videoOrientation with
  | some .Auto => "auto".toList
  | some .Landscape => "landscape".toList
  | some .InvertedLandscape => "inverted-landscape".toList
  | some .Portrait => "portrait".toList
  | some .InvertedPortrait => "inverted-portrait".toList
  | none => "auto".toList

/-- The `Settings::videoOrientationFromStr` function. -/
def videoOrientationFromStr (str : List Char) : Option VideoOrientation :=
  if str = "auto".toList then some .Auto
  else if str = "landscape".toList then some .Landscape
  else if str = "inverted-landscape".toList then some .InvertedLandscape
  else if str = "portrait".toList then some .Portrait
  else if str = "inverted-portrait".toList then some .InvertedPortrait
  else none

/-- The `Settings::videoEncoderToStr` function. -/
def videoEncoderToStr (s : Settings) : List Char :=
  match s.videoEncoder with
  | some .Auto => "auto".toList
  | some .Nvenc => "nvenc".toList
  | some .V4l2 => "v4l2".toList
  | some .X264 => "x264".toList
  | none => "auto".toList

/-- The `Settings::videoEncoderFromStr` function. -/
def videoEncoderFromStr (str : List Char) : Option VideoEncoder :=
  if str = "auto".toList then some .Auto
  else if str = "nvenc".toList then some .Nvenc
  else if str = "v4l2".toList then some .V4l2
  else if str = "x264".toList then some .X264
  else none

/-- The `Settings::check` operation: the settings after the trims, or the text of the
`invalid option` exception. The function `fileWrittable` tells whether a file can be opened
for writing. -/
def check (fileWrittable : List Char → Bool) (s : Settings) : Except (List Char) Settings :=
  let invalidOption (opt : List Char) : Except (List Char) Settings :=
    .error ("invalid option: ".toList ++ opt)
  let s := { s with configFile := trim s.configFile '\x00' }
  let s := { s with urlPath := trim s.urlPath '/' }
  if s.urlPath.isEmpty then invalidOption urlPathOpt
  else
    let s := { s with address := trim s.address '\x00' }
    let s := { s with ifname := trim s.ifname '\x00' }
    if s.port < 0 || s.port > 65535 then invalidOption portOpt
    else if s.videoEncoder.isNone then invalidOption videoEncoderOpt
    else if s.streamFormat.isNone then invalidOption (DEFAULT_OPT streamFormatOpt)
    else
      let s := { s with videoSourceName := trim s.videoSourceName '\x00' }
      let s := if s.videoSourceName ∈ offValues then { s with videoSourceName := [] } else s
      let s := { s with audioSourceName := trim s.audioSourceName '\x00' }
      let s := if s.audioSourceName ∈ offValues then { s with audioSourceName := [] } else s
      if s.audioVolume < 0 || s.audioVolume > 100 then invalidOption (DEFAULT_OPT audioVolumeOpt)
      else if s.videoOrientation.isNone then invalidOption (DEFAULT_OPT videoOrientationOpt)
      else
        let s := { s with logFile := trim s.logFile '\x00' }
        if !s.logFile.isEmpty && !fileWrittable s.logFile then .ok { s with logFile := [] }
        else .ok s

/-- The `Settings::updateFromStr` operation; `fvalue` is what `strToFloat(value)` returns,
the number that the stream extraction reads from `value`, if any. -/
def updateFromStr (s : Settings) (opt value : List Char) (fvalue : Option ℚ) : Settings :=
  if opt = audioSourceNameOpt then
    if value ∈ offValues then { s with audioSourceName := [] }
    else { s with audioSourceName := value }
  else if opt = audioVolumeOpt then
    match fvalue with
    | some f => if f ≥ 0 && f ≤ 100 then { s with audioVolume := floatToInt f } else s
    | none => s
  else if opt = videoSourceNameOpt then
    if value ∈ offValues then { s with videoSourceName := [] }
    else { s with videoSourceName := value }
  else if opt = streamFormatOpt then
    match streamFormatFromStr value with
    | some v => { s with streamFormat := some v }
    | none => s
  else if opt = videoOrientationOpt then
    match videoOrientationFromStr value with
    | some v => { s with videoOrientation := some v }
    | none => s
  else s

/-- The option name `Settings::configFileOpt`. -/
def configFileOpt : List Char := "config-file".toList

/-- The option name `Settings::debugOpt`. -/
def debugOpt : List Char := "debug".toList

/-- The option name `Settings::debugFileOpt`. -/
def debugFileOpt : List Char := "debug-file".toList

/-- The option name `Settings::guiOpt`. -/
def guiOpt : List Char := "gui".toList

/-- The option name `Settings::addressOpt`. -/
def addressOpt : List Char := "address".toList

/-- The option name `Settings::ifnameOpt`. -/
def ifnameOpt : List Char := "ifname".toList

/-- The option name `Settings::ignoreUrlParamsOpt`. -/
def ignoreUrlParamsOpt : List Char := "ignore-url-params".toList

/-- The option name `Settings::disableWebUiOpt`. -/
def disableWebUiOpt : List Char := "disable-web-ui".toList

/-- The option name `Settings::disableCtrlApiOpt`. -/
def disableCtrlApiOpt : List Char := "disable-ctrl-api".toList

/-- The option name `Settings::logRequestsOpt`. -/
def logRequestsOpt : List Char := "log-requests".toList

/-- The option name `Settings::logFileOpt`. -/
def logFileOpt : List Char := "log-file".toList

/-- The section name `Settings::sectionName`. -/
def sectionName : List Char := "General".toList

/-- The library function `std::to_string` on an integer: its decimal digits, after a minus
sign when it is negative. -/
def to_string (n : Int) : List Char :=
  if n < 0 then '-' :: Nat.toDigits 10 n.natAbs else Nat.toDigits 10 n.natAbs

/-- The call `std::to_string(b)` on a `bool`, which is promoted to `int`. -/
def boolToString (b : Bool) : List Char := to_string (if b then 1 else 0)

/-- The library function `std::stoi`: blanks are skipped, then an optional sign and decimal
digits are read, the rest of the string is ignored. The result is `none` where `stoi` throws:
no digit to read, or a value outside the range of `int`. -/
def stoi (str : List Char) : Option Int :=
  let s := str.dropWhile isspace
  let signed : Bool × List Char :=
    match s with
    | '-' :: t => (true, t)
    | '+' :: t => (false, t)
    | _ => (false, s)
  let digits := signed.2.takeWhile Char.isDigit
  if digits.isEmpty then none
  else
    let v : Nat := digits.foldl (fun acc c => acc * 10 + (c.toNat - '0'.toNat)) 0
    let r : Int := if signed.1 then -(v : Int) else v
    if r < -(2 ^ 31) ∨ r > 2 ^ 31 - 1 then none else some r

/-- A section of an INI file as the mINI library holds it: keys with their values. -/
abbrev IniSection := List (List Char × List Char)

/-- The content of an INI file: sections by name. -/
abbrev IniStructure := List (List Char × IniSection)

/-- The keys and values that `Settings::saveToFile` puts into the section `General`. -/
def generalSection (s : Settings) : IniSection :=
    [(urlPathOpt, s.urlPath),
     (addressOpt, s.address),
     (ifnameOpt, s.ifname),
     (portOpt, to_string s.port),
     (videoEncoderOpt, videoEncoderToStr s),
     (DEFAULT_OPT streamFormatOpt, streamFormatToStr s),
     (DEFAULT_OPT videoSourceNameOpt, s.videoSourceName),
     (DEFAULT_OPT audioSourceNameOpt, s.audioSourceName),
     (DEFAULT_OPT audioVolumeOpt, to_string s.audioVolume),
     (DEFAULT_OPT videoOrientationOpt, videoOrientationToStr s),
     (ignoreUrlParamsOpt, boolToString s.ignoreUrlParams),
     (disableWebUiOpt, boolToString s.disableWebUi),
     (disableCtrlApiOpt, boolToString s.disableCtrlApi),
     (logRequestsOpt, boolToString s.logRequests),
     (logFileOpt, s.logFile)]

/-- The `Settings::saveToFile` operation: the content that it hands to the INI writer. -/
def saveToFile (s : Settings) : IniStructure := [(sectionName, generalSection s)]

/-- The helper `to_bool` of `loadFromFile`. -/
def to_bool (str : List Char) : Bool := str == "1".toList || str == "true".toList

/-- The helper `to_int` of `loadFromFile`. -/
def to_int (str : List Char) : Int := (stoi str).getD 0

/-- The helper `to_float` of `loadFromFile`; `stof` is the library function `std::stof`, `none`
where it throws. -/
def to_float (stof : List Char → Option ℚ) (str : List Char) : ℚ := (stof str).getD 1

/-- The values of the command-line options as `cxxopts::ParseResult` gives them to
`loadFromOpts`; the defaults are the `default_value`s of options.cpp. -/
structure ParseResult where
  configFile : List Char := []
  urlPath : List Char := []
  debug : Bool := false
  debugFile : List Char := []
  gui : Bool := false
  address : List Char := "0.0.0.0".toList
  ifname : List Char := []
  port : Int := 0
  videoEncoder : List Char := "auto".toList
  streamFormat : List Char := "mp4".toList
  videoSourceName : List Char := []
  audioSourceName : List Char := []
  audioVolume : ℚ := 1
  videoOrientation : List Char := "auto".toList
  ignoreUrlParams : Bool := false
  disableWebUi : Bool := false
  disableCtrlApi : Bool := false
  logRequests : Bool := false
  logFile : List Char := []
deriving DecidableEq, Repr

/-- The `Settings::loadFromOpts` operation on a fresh `Settings`; `randStr` is what `randStr()`
returns. -/
def loadFromOpts (options : ParseResult) (randStr : List Char) : Settings :=
  { configFile := options.configFile
    urlPath := if options.urlPath.isEmpty then randStr else options.urlPath
    debug := options.debug
    debugFile := options.debugFile
    gui := options.gui
    address := options.address
    ifname := options.ifname
    port := options.port
    videoEncoder := videoEncoderFromStr (trimmed options.videoEncoder '\x00')
    streamFormat := streamFormatFromStr (trimmed options.streamFormat '\x00')
    videoSourceName := options.videoSourceName
    audioSourceName := options.audioSourceName
    audioVolume := floatToInt options.audioVolume
    videoOrientation := videoOrientationFromStr (trimmed options.videoOrientation '\x00')
    ignoreUrlParams := options.ignoreUrlParams
    disableWebUi := options.disableWebUi
    disableCtrlApi := options.disableCtrlApi
    logRequests := options.logRequests
    logFile := options.logFile }

/-- The assignment `if (sec.has(key)) member = f(sec[key])` of `loadFromFile`. -/
def fromSection {α : Type} (sec : IniSection) (key : List Char) (f : List Char → α)
    (member : α) : α :=
  match List.lookup key sec with
  | some value => f value
  | none => member

/-- The `Settings::loadFromFile` operation; `ini` is what the INI reader gives for the config
file, `none` when the file cannot be read, `randStr` is what `randStr()` returns and `stof` is
the library function `std::stof`. -/
def loadFromFile (s : Settings) (ini : Option IniStructure) (randStr : List Char)
    (stof : List Char → Option ℚ) : Settings :=
  match ini with
  | none => s
  | some ini =>
    match List.lookup sectionName ini with
    | none => s
    | some sec =>
      let urlPath := fromSection sec urlPathOpt id s.urlPath
      { s with
        urlPath := if urlPath.isEmpty then randStr else urlPath
        debug := fromSection sec debugOpt to_bool s.debug
        debugFile := fromSection sec debugFileOpt id s.debugFile
        gui := fromSection sec guiOpt to_bool s.gui
        address := fromSection sec addressOpt id s.address
        ifname := fromSection sec ifnameOpt id s.ifname
        port := fromSection sec portOpt to_int s.port
        videoEncoder := fromSection sec videoEncoderOpt videoEncoderFromStr s.videoEncoder
        streamFormat :=
          fromSection sec (DEFAULT_OPT streamFormatOpt) streamFormatFromStr s.streamFormat
        videoSourceName := fromSection sec (DEFAULT_OPT videoSourceNameOpt) id s.videoSourceName
        audioSourceName := fromSection sec (DEFAULT_OPT audioSourceNameOpt) id s.audioSourceName
        audioVolume :=
          fromSection sec (DEFAULT_OPT audioVolumeOpt)
            (fun str => floatToInt (to_float stof str)) s.audioVolume
        videoOrientation :=
          fromSection sec (DEFAULT_OPT videoOrientationOpt) videoOrientationFromStr
            s.videoOrientation
        ignoreUrlParams := fromSection sec ignoreUrlParamsOpt to_bool s.ignoreUrlParams
        disableWebUi := fromSection sec disableWebUiOpt to_bool s.disableWebUi
        disableCtrlApi := fromSection sec disableCtrlApiOpt to_bool s.disableCtrlApi
        logRequests := fromSection sec logRequestsOpt to_bool s.logRequests
        logFile := fromSection sec logFileOpt id s.logFile }

/-- The constructor `Settings::Settings`: the settings it leaves, or the text of the exception
of `check`. `ini` is the content of the config file, `randStr` and `randStr2` are what the
calls of `randStr()` in `loadFromOpts` and in `loadFromFile` return, `fileReadable` tells
whether the config file can be opened for reading; the second component is the content
written to the config file, if it is written. -/
def construct (options : ParseResult) (ini : Option IniStructure) (randStr randStr2 : List Char)
    (stof : List Char → Option ℚ) (fileWrittable : List Char → Bool)
    (fileReadable : List Char → Bool) : Except (List Char) (Settings × Option IniStructure) :=
  let s := loadFromOpts options randStr
  let s := if !s.configFile.isEmpty then loadFromFile s ini randStr2 stof else s
  match check fileWrittable s with
  | .error e => .error e
  | .ok s =>
    if !s.configFile.isEmpty && !fileReadable s.configFile then .ok (s, some (saveToFile s))
    else .ok (s, none)

end Settings

/-- The `Event::Type` enumeration. -/
inductive EventType where
  | StartServer
  | StopServer
  | StartCaster
  | StopCaster
  | CasterStarted
  | CasterEnded
deriving DecidableEq, Repr

namespace Event

/-- The `Event::Pack` record. -/
structure Pack where
  type : EventType
  connId : Option Nat := none
  settings : Option Settings := none
deriving DecidableEq, Repr

end Event

/-! ## NoGuiEventLoop (noguieventloop.hpp, noguieventloop.cpp) -/

/-- The members `m_shuttingDown` and `m_queue` of `NoGuiEventLoop`. -/
structure NoGuiEventLoop where
  shuttingDown : Bool := false
  queue : List Event.Pack := []
deriving DecidableEq, Repr

namespace NoGuiEventLoop

/-- The `NoGuiEventLoop::shutdown` operation. -/
def shutdown (l : NoGuiEventLoop) : NoGuiEventLoop := { l with shuttingDown := true }

/-- The `NoGuiEventLoop::enqueue` operation. -/
def enqueue (l : NoGuiEventLoop) (event : Event.Pack) : NoGuiEventLoop :=
  if l.shuttingDown then l else { l with queue := l.queue ++ [event] }

/-- Where the thread that runs `NoGuiEventLoop::loop` stands: at the test of the outer `while`,
in the wait on the condition variable, at the test of the inner `while`, between that test and
the handler call that it guards, or past the loop. -/
inductive Pc where
  | outer
  | wait
  | inner
  | call
  | ended
deriving DecidableEq, Repr

/-- The loop object together with the frame of `loop()` (its position and its local `queue`),
the arguments of the `enqueue` calls that have passed the test of `m_shuttingDown` and have
not pushed yet, and two histories: the arguments of the calls of `m_eventHandler` and the
events pushed into `m_queue`, both in order. -/
structure Run where
  loop : NoGuiEventLoop := {}
  pc : Pc := .outer
  queue : List Event.Pack := []
  pending : List Event.Pack := []
  handled : List Event.Pack := []
  accepted : List Event.Pack := []
deriving DecidableEq, Repr

/-- The atomic steps of the threads around the loop. No lock covers `m_shuttingDown`, so an
`enqueue` call is two steps, its test of `m_shuttingDown` and its push under the mutex, and
any step of another thread or of the signal handler can come between them; `enqueue` is such
a call without a step in between. A `shutdown` call is one step, and `loop` is the next step
of `loop()`. The handler runs on the loop thread; what it does to the loop are steps of these
kinds. -/
inductive Step where
  | enqueue (event : Event.Pack)
  | enqueueTest (event : Event.Pack)
  | enqueuePush (i : Nat)
  | shutdown
  | loop
deriving DecidableEq, Repr

/-- The next step of `NoGuiEventLoop::loop`: the test of the outer `while`; the wait, which
returns once `m_shuttingDown || !m_queue.empty()` and then swaps the two queues; the test of
the inner `while`; the handler call with the `pop` that follows it. A wait whose condition is
false stays where it is. -/
def loopStep (r : Run) : Run :=
  match r.pc with
  | .outer => if r.loop.shuttingDown then { r with pc := .ended } else { r with pc := .wait }
  | .wait =>
    if r.loop.shuttingDown || !r.loop.queue.isEmpty then
      { r with loop := { r.loop with queue := r.queue }, queue := r.loop.queue, pc := .inner }
    else r
  | .inner =>
    if r.loop.shuttingDown then { r with pc := .outer }
    else
      match r.queue with
      | [] => { r with pc := .outer }
      | _ :: _ => { r with pc := .call }
  | .call =>
    match r.queue with
    | [] => { r with pc := .inner }
    | event :: rest => { r with handled := r.handled ++ [event], queue := rest, pc := .inner }
  | .ended => r

/-- One atomic step. The push of the `i`-th waiting `enqueue` call does not look at
`m_shuttingDown` again. -/
def step (r : Run) : Step → Run
  | .enqueue event =>
    { r with
      loop := r.loop.enqueue event
      accepted := if r.loop.shuttingDown then r.accepted else r.accepted ++ [event] }
  | .enqueueTest event =>
    if r.loop.shuttingDown then r else { r with pending := r.pending ++ [event] }
  | .enqueuePush i =>
    match r.pending.get? i with
    | none => r
    | some event =>
      { r with
        loop := { r.loop with queue := r.loop.queue ++ [event] }
        pending := r.pending.eraseIdx i
        accepted := r.accepted ++ [event] }
  | .shutdown => { r with loop := r.loop.shutdown }
  | .loop => loopStep r

/-- The run after a sequence of steps. -/
def run (r : Run) (steps : List Step) : Run := steps.foldl step r

/-- The number of steps of `loop()` after which a loop that is not shut down and gets no
further event has handed over every event pushed and waits. -/
def stepsToIdle (r : Run) : Nat :=
  let fromWait := if r.loop.queue.length = 0 then 0 else 2 * r.loop.queue.length + 3
  match r.pc with
  | .wait => fromWait
  | .outer => 1 + fromWait
  | .inner => 2 * r.queue.length + 2 + fromWait
  | .call => 2 * r.queue.length + 1 + fromWait
  | .ended => 0

/-- What holds of the loop after every step: the events handed over, followed by those in the
local queue and those in `m_queue`, are the events pushed, in order; the local queue is empty
in the wait and, unless the loop is shut down, at the outer test; between the inner test and
the handler call the local queue is not empty; and the loop has ended only after a shutdown. -/
def loopInvariant (r : Run) : Prop :=
  r.handled ++ r.queue ++ r.loop.queue = r.accepted ∧
    (r.pc = .wait → r.queue = []) ∧
    (r.pc = .outer → r.loop.shuttingDown = true ∨ r.queue = []) ∧
    (r.pc = .call → r.queue ≠ []) ∧
    (r.pc = .ended → r.loop.shuttingDown = true)

end NoGuiEventLoop

/-! ## Caster: configuration, sources and sink inputs (caster.cpp) -/

namespace Caster

/-- The `Caster::StreamFormat` enumeration. -/
inductive StreamFormat where
  | Mp4
  | MpegTs
  | Mp3
deriving DecidableEq, Repr

/-- The `Caster::VideoOrientation` enumeration. -/
inductive VideoOrientation where
  | Auto
  | Portrait
  | InvertedPortrait
  | Landscape
  | InvertedLandscape
deriving DecidableEq, Repr

/-- The `Caster::VideoEncoder` enumeration. -/
inductive VideoEncoder where
  | Auto
  | X264
  | Nvenc
  | V4l2
deriving DecidableEq, Repr

/-- The values of `Caster::OptionsFlags` that caster.cpp and kamkast.cpp name. -/
inductive OptionsFlags where
  | V4l2VideoSources
  | DroidCamRawVideoSources
  | X11CaptureVideoSources
  | LipstickCaptureVideoSources
  | OnlyNiceVideoFormats
  | AllPaAudioSources
  | MuteAudioSource
deriving DecidableEq, Repr

/-- The members of `Caster::Config` that caster.cpp and kamkast.cpp read and write (the record
is declared in caster.hpp, which is not among the sources). The `float` member `audioVolume`
holds the rational that a finite `float` denotes; `options` lists the flags that are set. -/
structure Config where
  streamFormat : StreamFormat
  videoSource : List Char
  audioSource : List Char
  videoOrientation : VideoOrientation
  audioVolume : ℚ
  streamAuthor : List Char
  streamTitle : List Char
  videoEncoder : VideoEncoder
  options : List OptionsFlags
deriving DecidableEq, Repr

/-- The `Caster::configValid` function; `videoProps` and `audioProps` are the keys of the maps
`m_videoProps` and `m_audioProps`, the names of the detected sources. -/
def configValid (videoProps audioProps : List (List Char)) (config : Config) : Bool :=
  if !config.videoSource.isEmpty && videoProps.count config.videoSource == 0 then false
  else if !config.audioSource.isEmpty && audioProps.count config.audioSource == 0 then false
  else if config.videoSource.isEmpty && config.audioSource.isEmpty then false
  else if config.videoOrientation != .Auto && config.videoOrientation != .Landscape &&
      config.videoOrientation != .InvertedLandscape && config.videoOrientation != .Portrait &&
      config.videoOrientation != .InvertedPortrait then false
  else if config.videoEncoder != .Auto && config.videoEncoder != .Nvenc &&
      config.videoEncoder != .V4l2 && config.videoEncoder != .X264 then false
  else if config.streamFormat != .Mp4 && config.streamFormat != .MpegTs &&
      config.streamFormat != .Mp3 then false
  else if config.streamFormat == .Mp3 && !config.videoSource.isEmpty then false
  else if decide (config.audioVolume < 0) || decide (config.audioVolume > 10) then false
  else if config.streamAuthor.isEmpty then false
  else if config.streamTitle.isEmpty then false
  else true

/-- The `Caster::PaSinkInput` record, with the members that caster.cpp prints. -/
structure PaSinkInput where
  idx : Nat
  name : List Char := []
  clientIdx : Nat := 0
  sinkIdx : Nat := 0
  corked : Bool := false
  muted : Bool := false
  removed : Bool := false
deriving DecidableEq, Repr

/-- The `Caster::bestPaSinkInput` function; `paSinkInputs` holds the entries of the map
`m_paSinkInputs` in the order in which the map is iterated, `connectedPaSinkInput` is the
member `m_connectedPaSinkInput`. -/
def bestPaSinkInput (paSinkInputs : List (Nat × PaSinkInput)) (connectedPaSinkInput : Nat) :
    Option PaSinkInput :=
  let firstUsable :=
    (paSinkInputs.find? (fun it => !it.2.removed && !it.2.corked)).map Prod.snd
  match List.lookup connectedPaSinkInput paSinkInputs with
  | some si => if !si.removed && !si.corked then some si else firstUsable
  | none => firstUsable

/-- The `orientationToRot` function. -/
def orientationToRot : VideoOrientation → Int
  | .Auto => 0
  | .Landscape => 0
  | .Portrait => 90
  | .InvertedLandscape => 180
  | .InvertedPortrait => 270

/-- The `Caster::setVideoStreamRotation` operation. The output video stream is kept as the
rotation of the display matrix in its side data, `none` while it has no side data; `o` is the
orientation in the properties of the video source and `allocOk` tells whether
`av_stream_new_side_data` succeeds. The result is the side data afterwards, or the text of
the exception. -/
def setVideoStreamRotation (requestedOrientation o : VideoOrientation) (sideData : Option Int)
    (allocOk : Bool) : Except (List Char) (Option Int) :=
  let rotation : Int :=
    if requestedOrientation = .Auto ∨ requestedOrientation = o then 0
    else (orientationToRot requestedOrientation + orientationToRot o) % 360
  if rotation = 0 then .ok sideData
  else if sideData.isNone && !allocOk then .error "av_stream_new_side_data error".toList
  else .ok (some rotation)

/-- The `name` and `friendlyName` of a detected video source: the two members of
`VideoSourceInternalProps` that `videoSources` reads, and the record `VideoSourceProps` that it
returns. -/
structure VideoSourceProps where
  name : List Char
  friendlyName : List Char := []
deriving DecidableEq, Repr

/-- The `name` and `friendlyName` of a detected audio source: the two members of
`AudioSourceInternalProps` that `audioSources` reads, and the record `AudioSourceProps` that it
returns. -/
structure AudioSourceProps where
  name : List Char
  friendlyName : List Char := []
deriving DecidableEq, Repr

/-- The comparison `sortByName`; `name` reads the member `name` of a `Dev`. Strings compare as
`std::string` does, lexicographically by character code. -/
def sortByName {Dev : Type} (name : Dev → List Char) (rhs lhs : Dev) : Bool :=
  decide (name lhs > name rhs)

/-- The library function `std::sort(first, last, comp)`, realised as an insertion sort: each
element is put before the first element that `comp` does not order before it. -/
def stdSort {α : Type} (comp : α → α → Bool) (l : List α) : List α :=
  l.insertionSort (fun a b => comp b a = false)

/-- The `Caster::videoSources` function; `props` holds the entries of the map that
`detectVideoSources()` returns. -/
def videoSources (props : List (List Char × VideoSourceProps)) : List VideoSourceProps :=
  stdSort (sortByName VideoSourceProps.name)
    (props.map (fun p => { name := p.2.name, friendlyName := p.2.friendlyName }))

/-- The `Caster::audioSources` function; `props` holds the entries of the map that
`detectPaSources()` returns. -/
def audioSources (props : List (List Char × AudioSourceProps)) : List AudioSourceProps :=
  stdSort (sortByName AudioSourceProps.name)
    (props.map (fun p => { name := p.2.name, friendlyName := p.2.friendlyName }))

end Caster

/-! ## Caster: video geometry (caster.cpp) -/

/-- Rounding of a real to the nearest integer, a half to the even neighbour. -/
def roundHalfEven (y : ℚ) : Int :=
  let f := ⌊y⌋
  if y - f < 1 / 2 then f
  else if 1 / 2 < y - f then f + 1
  else if f % 2 = 0 then f
  else f + 1

/-- The `double` nearest to the real `x` (53 significant bits, a half to the even neighbour);
the exponent range of the format is not modelled. -/
def roundDouble (x : ℚ) : ℚ :=
  if x = 0 then 0
  else
    let ulp : ℚ := 2 ^ (Int.log 2 |x| - 52)
    roundHalfEven (x / ulp) * ulp

/-- The product of two `double` values. -/
def mulDouble (a b : ℚ) : ℚ := roundDouble (a * b)

/-- The quotient of two `double` values. -/
def divDouble (a b : ℚ) : ℚ := roundDouble (a / b)

namespace Caster

/-- The `Caster::Dim` record: two `uint32_t` members. -/
structure Dim where
  width : Nat
  height : Nat
deriving DecidableEq, Repr

/-- The `Caster::VideoTrans` enumeration, with the values that caster.cpp names. -/
inductive VideoTrans where
  | Off
  | Scale
  | Vflip
  | Frame169
  | Frame169Rot90
  | Frame169Rot180
  | Frame169Rot270
  | Frame169Vflip
  | Frame169VflipRot90
  | Frame169VflipRot180
  | Frame169VflipRot270
deriving DecidableEq, Repr

/-- The `Caster::VideoScale` enumeration. -/
inductive VideoScale where
  | Off
  | Down25
  | Down50
  | Down75
deriving DecidableEq, Repr

/-- The conversion of a non-negative integral `double` to `uint32_t`. Up to `2 ^ 32 - 1` the
value is kept. Beyond that the conversion is undefined in C++; the value is taken modulo
`2 ^ 32`, the low half of the 64-bit conversion that x86-64 compilers emit. Whatever a platform
yields there is a `uint32_t`, a value below `2 ^ 32`. -/
def toUint32 (x : Nat) : Nat := x % 2 ^ 32

/-- The `Caster::computeTransDim` function. The members of `dim` are `uint32_t` values. The
arithmetic is that of `double`: the factors 1.0, 0.75, 0.5 and 0.25 are exact, every product
and the quotient `16.0 / 9.0` are rounded. Every result of `std::ceil` is converted to
`uint32_t`. -/
def computeTransDim (dim : Dim) (trans : VideoTrans) (scale : VideoScale) : Dim :=
  let factor : ℚ :=
    match scale with
    | .Off => 1
    | .Down25 => 3 / 4
    | .Down50 => 1 / 2
    | .Down75 => 1 / 4
  let outDim : Dim :=
    match trans with
    | .Off | .Vflip | .Scale =>
      { width := toUint32 ⌈mulDouble dim.width factor⌉₊,
        height := toUint32 ⌈mulDouble dim.height factor⌉₊ }
    | .Frame169 | .Frame169Rot90 | .Frame169Rot180 | .Frame169Rot270 | .Frame169Vflip
    | .Frame169VflipRot90 | .Frame169VflipRot180 | .Frame169VflipRot270 =>
      let height := toUint32 ⌈mulDouble (max dim.width dim.height : Nat) factor⌉₊
      { height := height, width := toUint32 ⌈mulDouble (divDouble 16 9) height⌉₊ }
  let outDim := { outDim with height := outDim.height - outDim.height % 2 }
  { outDim with width := outDim.width - outDim.width % 2 }

/-- The scale factor that the specification gives for a `VideoScale`: Off = 1, Down25 = 0.75,
Down50 = 0.5, Down75 = 0.25. -/
def specScaleFactor : VideoScale → ℚ
  | .Off => 1
  | .Down25 => 0.75
  | .Down50 => 0.5
  | .Down75 => 0.25

/-- The specification's `even(x) = x - (x mod 2)`. -/
def specEven (x : Nat) : Nat := x - x % 2

/-- The output dimension that the specification states, in exact arithmetic: for Off, Scale and
Vflip `(even(ceil(w*f)), even(ceil(h*f)))`, for every Frame169 variant height `even(H)` and
width `even(ceil(16*H/9))` with `H = ceil(max(w,h)*f)`. -/
def specTransDim (dim : Dim) (trans : VideoTrans) (scale : VideoScale) : Dim :=
  let f := specScaleFactor scale
  match trans with
  | .Off | .Scale | .Vflip =>
    { width := specEven ⌈(dim.width : ℚ) * f⌉₊, height := specEven ⌈(dim.height : ℚ) * f⌉₊ }
  | _ =>
    let H := ⌈((max dim.width dim.height : Nat) : ℚ) * f⌉₊
    { width := specEven ⌈(16 * (H : ℚ) / 9)⌉₊, height := specEven H }

end Caster

/-! ## Kamkast (kamkast.hpp, kamkast.cpp) -/

/-- The `Kamkast::HttpRequestType` enumeration. -/
inductive HttpRequestType where
  | Unknown
  | Invalid
  | WebUi
  | Stream
  | Ctrl
deriving DecidableEq, Repr

/-- The constant `Kamkast::m_streamUrlPath`. -/
def streamUrlPath : List Char := "/stream".toList

/-- The constant `Kamkast::m_ctrlUrlPath`. -/
def ctrlUrlPath : List Char := "/ctrl".toList

/-- The array `infoStr` of `Kamkast::handleCtrlRequest`, without its terminating zero. -/
def infoStr : List Char := "/info".toList

/-- The value `sizeof(infoStr)`: the five characters and the terminating zero. -/
def sizeofInfoStr : Nat := 6

/-- The `Kamkast::determineRequestType` function. -/
def determineRequestType (settings : Settings) (url : List Char) : HttpRequestType :=
  if (find url settings.urlPath).isNone then .Invalid
  else if url == settings.urlPath then .WebUi
  else if url == settings.urlPath ++ streamUrlPath then .Stream
  else if (rfind url (settings.urlPath ++ ctrlUrlPath) 0).isSome then .Ctrl
  else .Unknown

/-- The status that `Kamkast::handleCtrlRequest` returns. -/
def handleCtrlRequestStatus (settings : Settings) (url : List Char) : Nat :=
  if (rfind url infoStr (settings.urlPath.length + sizeofInfoStr)).isNone then 404 else 200

/-- The status that the connection handler installed by `Kamkast::startServer` returns for the
request URL `url`; `handleWebRequest` and `handleStreamRequest` always return 200. -/
def connectionHandlerStatus (settings : Settings) (url : List Char) : Nat :=
  let turl := trimmed url '/'
  match determineRequestType settings turl with
  | .Invalid => 404
  | .WebUi => if settings.disableWebUi then 404 else 200
  | .Stream => 200
  | .Ctrl => if settings.disableCtrlApi then 404 else handleCtrlRequestStatus settings turl
  | .Unknown => 404

/-- A caster held in `m_caster`, with the connection id that its two handlers captured. -/
structure BoundCaster where
  connId : Nat
  caster : Caster
deriving DecidableEq, Repr

/-- What the loop object is told through its `notify...` functions. -/
inductive Notification where
  | serverStarted
  | serverEnded
  | castingStarted (connId : Option Nat)
  | castingEnded
deriving DecidableEq, Repr

/-- What the environment decides when a caster is created for a stream request: whether the
constructor returns without throwing, and whether `start()` gets to `Started`. -/
structure CasterEnv where
  constructs : Bool := true
  starts : Bool := true
deriving DecidableEq, Repr

/-- The members of `Kamkast`; `notifications` is the history of the `notify...` calls made on
the loop object. The events waiting in the loop (its local queue followed by `m_queue`) are
kept as the one list `loop.queue`. -/
structure Kamkast where
  settings : Settings := {}
  loop : NoGuiEventLoop := {}
  castingConnId : Option Nat := none
  caster : Option BoundCaster := none
  server : Option HttpServer := none
  notifications : List Notification := []
deriving DecidableEq, Repr

namespace Kamkast

/-- The `audioOnlyFormat` function. -/
def audioOnlyFormat (format : Caster.StreamFormat) : Bool :=
  match format with
  | .Mp4 => false
  | .MpegTs => false
  | .Mp3 => true

/-- The configuration that `Kamkast::startCaster` builds from the settings of the request and
hands to the constructor of the caster; `config` is the default-constructed `Caster::Config`
(its member initialisers are in caster.hpp, which is not among the sources) and `appName` the
build constant `APP_NAME`. -/
def startCasterConfig (config : Caster.Config) (appName : List Char) (settings : Settings) :
    Caster.Config :=
  let config := { config with streamAuthor := appName }
  let config := { config with videoSource := settings.videoSourceName }
  let config := { config with audioSource := settings.audioSourceName }
  let config := { config with audioVolume := settings.audioVolume }
  let config := { config with videoEncoder :=
    match settings.videoEncoder with
    | some .Auto => .Auto
    | some .Nvenc => .Nvenc
    | some .V4l2 => .V4l2
    | some .X264 => .X264
    | none => .Auto }
  let config := { config with streamFormat :=
    match settings.streamFormat with
    | some .Mp4 => .Mp4
    | some .MpegTs => .MpegTs
    | some .Mp3 => .Mp3
    | none => .Mp4 }
  let config := { config with videoOrientation :=
    match settings.videoOrientation with
    | some .Auto => .Auto
    | some .Landscape => .Landscape
    | some .InvertedLandscape => .InvertedLandscape
    | some .Portrait => .Portrait
    | some .InvertedPortrait => .InvertedPortrait
    | none => .Auto }
  let config :=
    if settings.audioSourceMuted then
      { config with options := config.options ++ [.MuteAudioSource] }
    else config
  let config :=
    if audioOnlyFormat config.streamFormat && !config.videoSource.isEmpty then
      { config with videoSource := [] }
    else config
  let config :=
    if !config.videoSource.isEmpty then
      { config with options := config.options ++
          [.V4l2VideoSources, .DroidCamRawVideoSources, .X11CaptureVideoSources,
            .LipstickCaptureVideoSources, .OnlyNiceVideoFormats] }
    else config
  if !config.audioSource.isEmpty then
    { config with options := config.options ++ [.AllPaAudioSources] }
  else config

/-- The `Kamkast::enqueueEvent` operation. -/
def enqueueEvent (k : Kamkast) (event : Event.Pack) : Kamkast :=
  { k with loop := k.loop.enqueue event }

/-- The `Kamkast::shutdown` operation. -/
def shutdown (k : Kamkast) : Kamkast := { k with loop := k.loop.shutdown }

/-- The state changed handler that `Kamkast::startCaster` gives to the caster. -/
def stateChangedHandler (k : Kamkast) (connId : Nat) (state : Caster.State) : Kamkast :=
  if state = .Started then k.enqueueEvent { type := .CasterStarted, connId := some connId }
  else if state = .Terminating then
    (k.enqueueEvent { type := .CasterEnded, connId := some connId }).enqueueEvent
      { type := .StopCaster }
  else k

/-- The handler calls made by one operation of the caster, in order. -/
def stateChanges (k : Kamkast) (connId : Nat) (states : List Caster.State) : Kamkast :=
  states.foldl (fun k state => k.stateChangedHandler connId state) k

/-- The call `m_server->dropConnection(connId)`. -/
def dropConnection (k : Kamkast) (connId : Nat) : Kamkast :=
  { k with server := k.server.map (fun srv => srv.dropConnection connId) }

/-- The call `m_caster.reset()`: the destructor of the caster, if there is one. -/
def resetCaster (k : Kamkast) : Kamkast :=
  match k.caster with
  | none => k
  | some bound => ({ k with caster := none } : Kamkast).stateChanges bound.connId bound.caster.destroy.2

/-- The `Kamkast::stopCaster` operation. -/
def stopCaster (k : Kamkast) : Kamkast :=
  match k.caster with
  | none => k
  | some _ =>
    let k1 := match k.castingConnId with
      | some connId => k.dropConnection connId
      | none => k
    k1.resetCaster.enqueueEvent { type := .CasterEnded }

/-- The `Kamkast::startCaster` operation. The `emplace` ends a caster still held, then
constructs; `Caster::start` catches its own `runtime_error`, so the second `catch` is not
entered. -/
def startCaster (k : Kamkast) (connId : Nat) (env : CasterEnv) : Kamkast :=
  let k0 := k.resetCaster
  if !env.constructs then k0.dropConnection connId
  else
    let r0 := Caster.construct true
    let k1 := ({ k0 with caster := some ⟨connId, r0.1⟩ } : Kamkast).stateChanges connId r0.2
    let r1 := r0.1.start env.starts
    let k2 := ({ k1 with caster := some ⟨connId, r1.1⟩ } : Kamkast).stateChanges connId r1.2
    { k2 with castingConnId := some connId }

/-- The `Kamkast::handleStreamRequest` operation: the status and the two events it enqueues;
`settings` are the settings after `updateSettingsFromUrlParams`. -/
def handleStreamRequest (k : Kamkast) (settings : Settings) (id : Nat) : Nat × Kamkast :=
  (200, (k.enqueueEvent { type := .StopCaster }).enqueueEvent
    { type := .StartCaster, connId := some id, settings := some settings })

/-- The connection removed handler installed by `Kamkast::startServer`. -/
def connectionRemovedHandler (k : Kamkast) (id : Nat) : Kamkast :=
  match k.caster with
  | some bound =>
    if some id = k.castingConnId && !bound.caster.terminating then
      k.enqueueEvent { type := .StopCaster, connId := some id }
    else k
  | none => k

/-- The `Kamkast::notifyCastingStarted` operation. -/
def notifyCastingStarted (k : Kamkast) (connId : Option Nat) : Kamkast :=
  if k.server.isNone || k.caster.isNone then k
  else { k with notifications := k.notifications ++ [.castingStarted connId] }

/-- The `Kamkast::notifyCastingEnded` operation. -/
def notifyCastingEnded (k : Kamkast) : Kamkast :=
  if k.server.isNone then k
  else { k with notifications := k.notifications ++ [.castingEnded] }

/-- The `Kamkast::notifyServerStarted` operation. -/
def notifyServerStarted (k : Kamkast) : Kamkast :=
  if k.server.isNone then k
  else { k with notifications := k.notifications ++ [.serverStarted] }

/-- The `Kamkast::notifyServerEnded` operation. -/
def notifyServerEnded (k : Kamkast) : Kamkast :=
  { k with notifications := k.notifications ++ [.serverEnded] }

/-- The `Kamkast::startServer` operation when the server starts. -/
def startServer (k : Kamkast) : Kamkast := { k with server := some {} }

/-- The `Kamkast::stopServer` operation. -/
def stopServer (k : Kamkast) : Kamkast := ({ k with server := none } : Kamkast).resetCaster

/-- The `Kamkast::handleEvent` operation. A `StartCaster` event carries a connection id; one
without is given to `stopCaster` only. -/
def handleEvent (k : Kamkast) (event : Event.Pack) (env : CasterEnv) : Kamkast :=
  match event.type with
  | .StartServer => k.startServer.notifyServerStarted
  | .StartCaster =>
    match event.connId with
    | some connId => k.stopCaster.startCaster connId env
    | none => k.stopCaster
  | .StopCaster => k.stopCaster
  | .StopServer => k.stopCaster.stopServer.notifyServerEnded.shutdown
  | .CasterStarted => k.notifyCastingStarted event.connId
  | .CasterEnded => k.notifyCastingEnded

/-- One turn of the event loop: the oldest waiting event is taken and handled; `none` when the
loop is shutting down or nothing waits. `env` tells what happens to a caster created for a
connection. -/
def handleNext (k : Kamkast) (env : Nat → CasterEnv) : Option Kamkast :=
  if k.loop.shuttingDown then none
  else
    match k.loop.queue with
    | [] => none
    | event :: rest =>
      some (({ k with loop := { k.loop with queue := rest } } : Kamkast).handleEvent event
        (env (event.connId.getD 0)))

/-- At most `fuel` turns of the event loop. -/
def runLoop (env : Nat → CasterEnv) : Nat → Kamkast → Kamkast
  | 0, k => k
  | fuel + 1, k =>
    match k.handleNext env with
    | none => k
    | some k' => runLoop env fuel k'

end Kamkast

/-! ## Caster: camera direction (caster.cpp) -/

namespace Caster

/-- The `Caster::SensorDirection` enumeration: caster.cpp names `Back` and `Front` and prints
every other value as "unknown". -/
inductive SensorDirection where
  | Unknown
  | Front
  | Back
deriving DecidableEq, Repr

/-- The members of `Caster::VideoSourceInternalProps` that `switchVideoDirection` reads. -/
structure VideoSourceInternalProps where
  name : List Char
  sensorDirection : SensorDirection := .Unknown
deriving DecidableEq, Repr

/-- The members of `Caster` that `switchVideoDirection` and `restartVideoCapture` read and
write: `m_config.videoSource`, `m_state`, `m_restartRequested` and `m_restarting`. -/
structure Capture where
  videoSource : List Char
  state : State := .Started
  restartRequested : Bool := false
  restarting : Bool := false
deriving DecidableEq, Repr

/-- The `Caster::restartVideoCapture` operation. -/
def restartVideoCapture (c : Capture) : Capture :=
  if c.state != .Started || c.state == .Terminating || c.restartRequested || c.restarting then c
  else { c with restartRequested := true }

/-- The `Caster::switchVideoDirection` operation; `videoProps` holds the entries of the map
`m_videoProps` in iteration order and `props` is what `videoProps()` returns, the properties of
the video source in use (the accessor is declared in caster.hpp, which is not among the
sources). -/
def switchVideoDirection (videoProps : List (List Char × VideoSourceInternalProps))
    (props : VideoSourceInternalProps) (c : Capture) : Capture :=
  let dir : SensorDirection := if props.sensorDirection = .Front then .Back else .Front
  match videoProps.find? (fun p => p.2.sensorDirection == dir) with
  | none => c
  | some _ => restartVideoCapture { c with videoSource := props.name }

end Caster

/-! ## The program entry (main.cpp, options.hpp) -/

namespace Options

/-- The `Options::Command` enumeration. -/
inductive Command where
  | None
  | Help
  | ListSources
  | ListAudioSources
  | ListVideoSources
deriving DecidableEq, Repr

end Options

/-- What the calls made by `main` do in one run; each either returns or throws a
`std::exception` with the given text. `options` is the construction of `Options` with
`command()`, `tables` the printing of an informational command, `settings` is
`options.settings()`, `kamkast` covers the logger set-up and the constructor of `Kamkast`, and
`start` is `kamkast.start()`, which returns when the event loop ends. -/
structure MainRun where
  options : Except (List Char) Options.Command := .ok .None
  tables : Except (List Char) Unit := .ok ()
  settings : Except (List Char) Settings := .ok {}
  kamkast : Except (List Char) Unit := .ok ()
  start : Except (List Char) Unit := .ok ()

/-- The `processOpts` function: the settings for the command `None`, nothing after an
informational command, or the text of the exception thrown. -/
def processOpts (run : MainRun) : Except (List Char) (Option Settings) :=
  match run.options with
  | .error what => .error what
  | .ok .None =>
    match run.settings with
    | .error what => .error what
    | .ok settings => .ok (some settings)
  | .ok _ =>
    match run.tables with
    | .error what => .error what
    | .ok _ => .ok none

/-- The `main` function: the exit code it returns and the lines it prints on `stderr`. -/
def main (run : MainRun) : Int × List (List Char) :=
  let caught (what : List Char) : Int × List (List Char) :=
    (0, ["Error: ".toList ++ what])
  match processOpts run with
  | .error what => caught what
  | .ok none => (0, [])
  | .ok (some _) =>
    match run.kamkast with
    | .error what => caught what
    | .ok _ =>
      match run.start with
      | .error what => caught what
      | .ok _ => (0, [])

/-! ## Concrete states used to instantiate the theorems -/

/-- A running application: connection 1 is being served by a caster in state `Started`, and
connection 2 has just been accepted. -/
def exampleCasting : Kamkast :=
  { settings := { urlPath := "abc".toList }
    castingConnId := some 1
    caster := some ⟨1, { state := .Started }⟩
    server := some { nextConnectionId := 3,
                     connections := [{ id := 1, mhdConn := 71 }, { id := 2, mhdConn := 72 }] } }

/-- A server with a suspended connection 1 and a running connection 3. -/
def exampleServer : HttpServer :=
  { nextConnectionId := 4
    connections :=
      [{ id := 1, mhdConn := 71, suspended := true, suspendTime := 1000, mhdSuspended := true },
       { id := 3, mhdConn := 73, buf := { hardMax := 8, data := [1, 2] } }] }

/-- A muxing thread at 30 frames per second with the video time base `AVRational{1, 30}` that
`startAv` assigns, and 1024-sample audio frames at 44100 Hz. -/
def exampleMuxingStart : AvState := Caster.muxingStart 30 ⟨1, 30⟩ 1024 ⟨1, 44100⟩ ⟨1, 44100⟩

/-- Three video frames that arrive 10 ms apart, one call each. -/
def exampleFastRounds : List Caster.MuxRound :=
  [{ video := some { now := 1000000 } }, { video := some { now := 1010000 } },
   { video := some { now := 1020000 } }]

/-- Five rounds with video frames 40 ms apart, the first a key frame and the third one replayed
during a restart, with audio passes in between; the last write fails and ends the thread. -/
def examplePacedRounds : List Caster.MuxRound :=
  [{ video := some { now := 1000000, read := .packet false false true },
     audio := some [{ now := 1000100 }, { now := 1000200 }, { now := 1000300, outcome := .noRawPkt }] },
   { video := some { now := 1040000 }, audio := some [{ now := 1040100, outcome := .notReady }] },
   { video := some { now := 1050000, read := .noFrame }, audio := some [{ now := 1050100 }] },
   { video := some { now := 1080000, restart := true }, audio := none },
   { video := some { now := 1120000, writeFails := true }, audio := some [{ now := 1120100 }] }]

/-- A muxing thread at 30 frames per second on a DroidCam source of which two samples, 40 ms
apart, were counted before the thread started. -/
def exampleDroidCamStart : AvState :=
  Caster.muxingStartDroidCam 30 ⟨1, 30⟩ 1024 ⟨1, 44100⟩ ⟨1, 44100⟩ [920000, 960000]

/-- A muxing thread at 30 frames per second on a DroidCam source of which two samples, 9 ms
apart, were counted before the thread started: the real frame duration is 9000. -/
def exampleEarlySamples : AvState :=
  Caster.muxingStartDroidCam 30 ⟨1, 30⟩ 1024 ⟨1, 44100⟩ ⟨1, 44100⟩ [1000000, 1009000]

/-- Three video frames, the first 1 ms after the last early sample, the others 40 ms apart. -/
def exampleEarlyRounds : List Caster.MuxRound :=
  [{ video := some { now := 1010000 } }, { video := some { now := 1050000 } },
   { video := some { now := 1090000 } }]

/-- An interleaving around the event loop: two events arrive, the loop hands over the first, a
third arrives meanwhile, and the loop is shut down before the second is handed over. -/
def exampleLoopSteps : List NoGuiEventLoop.Step :=
  [.enqueue { type := .StartServer }, .enqueue { type := .StopCaster }, .loop, .loop, .loop,
   .loop, .enqueue { type := .StartCaster, connId := some 2 }, .shutdown, .loop]

/-- An interleaving in which the signal handler calls `shutdown` between the test of the inner
`while` and the handler call: one event arrives, the loop takes it into its local queue and
passes the test, and then the signal comes. -/
def exampleShutdownRace : List NoGuiEventLoop.Step :=
  [.enqueue { type := .StartServer }, .loop, .loop, .loop, .shutdown]

/-- An interleaving without shutdown: two `enqueue` calls of other threads pass their tests,
the second pushes first, and a third event arrives while the loop hands over the first
batch. -/
def exampleBusySteps : List NoGuiEventLoop.Step :=
  [.enqueueTest { type := .StartServer }, .enqueueTest { type := .StopCaster }, .enqueuePush 1,
   .loop, .loop, .enqueuePush 0, .loop, .loop, .enqueue { type := .StopServer }]

/-- A sequence of calls that keeps connection 1 in the table. -/
def exampleOps : List ServerOp :=
  [.pushData 1 [9, 9], .removeGhostConnections 6000000000, .contentReader 1 4 true 6000000001,
   .notifyStarted 75, .notifyClosed 73]

/-- Settings that pass `Settings::check`: url path "abc", port 9099, the test video source,
default audio volume 1. -/
def exampleSettings : Settings :=
  { urlPath := "abc".toList, port := 9099, audioVolume := 1, videoSourceName := "test".toList,
    streamFormat := some .Mp4, videoOrientation := some .Auto, videoEncoder := some .Auto }

/-- A default-constructed caster configuration: no option flag set, volume 1, a non-empty
stream title. -/
def exampleConfig : Caster.Config :=
  { streamFormat := .Mp4, videoSource := [], audioSource := [], videoOrientation := .Auto,
    audioVolume := 1, streamAuthor := [], streamTitle := "Stream".toList, videoEncoder := .Auto,
    options := [] }

/-- The time stamping state at 30 frames per second after a first frame at 0.9 s and a second
frame 100 ms later. -/
def exampleSlowFrame : AvState :=
  Caster.updateVideoSampleStats
    (Caster.updateVideoSampleStats (Caster.initAvVideoDurations {} 30) 900000) 1000000

/-- A reading of decimal integers, the only numbers that `saveToFile` writes, standing for
`std::stof`. -/
def exampleStof (str : List Char) : Option ℚ := (Settings.stoi str).map (fun n => (n : ℚ))

/-- Valid settings of a run started with `--debug`. -/
def exampleDebugSettings : Settings := { exampleSettings with debug := true }

/-- The options `--config-file kamkast.conf --url-path abc`, the others at their defaults. -/
def exampleOptions : Settings.ParseResult :=
  { configFile := "kamkast.conf".toList, urlPath := "abc".toList }

/-- A config file whose section `General` holds only the key `video-encoder`, with the
spelling `h265`. -/
def exampleBadIni : Settings.IniStructure :=
  [("General".toList, [("video-encoder".toList, "h265".toList)])]

/-- The audio side of a caster without video: an empty audio buffer, 4096-byte frames, the
PulseAudio stream present, the volume neither 0 nor boosted. -/
def exampleAudioSide : AudioSide :=
  { buf := { hardMax := 65536, data := [] }, frameSize := 4096, videoEnabled := false }

/-- A run of a caster with video and audio: captured bytes arrive, three video frames are
muxed, and the loop of `muxAudio` makes five passes. -/
def exampleAudioSteps : List AudioStep :=
  [.paPush (List.replicate 5000 7), .video { now := 1000000 }, .audio { now := 1000100 },
   .video { now := 1040000 }, .audio { now := 1040100 }, .audio { now := 1040200 },
   .video { now := 1080000 }, .audio { now := 1080100, encode := .notReady },
   .audio { now := 1080200 }]

/-- A run of a caster without video in which the wall clock is set back by a tenth of a
second between two passes of the loop of `muxAudio`: one frame of captured bytes arrives, the
first pass muxes it, and the second pass reads the earlier time. -/
def exampleClockBack : List AudioStep :=
  [.paPush (List.replicate 4096 7), .audio { now := 1000000 }, .audio { now := 900000 }]

/-! # Theorems -/

/-! ## HttpServer -/

namespace HttpServer

theorem find_map_id (l : List ConnectionCtx) (f : ConnectionCtx → ConnectionCtx)
    (hf : ∀ c, (f c).id = c.id) (id : Nat) :
    (l.map f).find? (fun c => c.id == id) = (l.find? (fun c => c.id == id)).map f := by
  induction l with
  | nil => rfl
  | cons a t ih =>
    by_cases h : a.id = id
    · have hb : (a.id == id) = true := by simp [h]
      simp [List.find?_cons, hf, hb]
    · have hb : (a.id == id) = false := by simp [h]
      simp [List.find?_cons, hf, hb, ih]

theorem connectionCtx_id {srv : HttpServer} {id : Nat} {ctx : ConnectionCtx}
    (h : srv.connectionCtx id = some ctx) : ctx.id = id := by
  have := List.find?_some h
  simpa using this

theorem connectionCtx_setCtx (srv : HttpServer) (id0 : Nat) (ctx0 : ConnectionCtx)
    (h0 : ctx0.id = id0) (id : Nat) :
    (srv.setCtx id0 ctx0).connectionCtx id =
      (srv.connectionCtx id).map (fun c => if c.id == id0 then ctx0 else c) := by
  unfold setCtx connectionCtx
  apply find_map_id
  intro c
  by_cases h : c.id = id0
  · simp [h, h0]
  · simp [h]

theorem resumeConnection_id (ctx : ConnectionCtx) : (resumeConnection ctx).id = ctx.id := by
  unfold resumeConnection
  split <;> rfl

theorem resumeConnection_removed (ctx : ConnectionCtx) :
    (resumeConnection ctx).removed = ctx.removed := by
  unfold resumeConnection
  split <;> rfl

theorem resumeConnection_suspended (ctx : ConnectionCtx) :
    (resumeConnection ctx).suspended = false := by
  unfold resumeConnection
  cases h : ctx.suspended <;> simp [h]

theorem pushDataInternal_id (ctx : ConnectionCtx) (data : List Nat) :
    (pushDataInternal ctx data).2.id = ctx.id := by
  unfold pushDataInternal
  split
  · rfl
  · simp [resumeConnection_id]

/-- C2: `pushData(id, bytes)` on a server that is not shutting down, for a connection that is in
the table and not removed, returns exactly the number of bytes and leaves the connection not
suspended; when the server is shutting down or the table has no such connection it returns none
and the server is unchanged. -/
theorem pushData_contract (srv : HttpServer) (id : Nat) (data : List Nat) :
    (srv.shutdownRequested = false →
      ∀ ctx, srv.connectionCtx id = some ctx → ctx.removed = false →
        (srv.pushData id data).1 = some data.length ∧
        ∃ ctx', (srv.pushData id data).2.connectionCtx id = some ctx' ∧
          ctx'.suspended = false) ∧
    ((srv.shutdownRequested = true ∨ srv.connectionCtx id = none) →
      srv.pushData id data = (none, srv)) := by
  constructor
  · intro hs ctx hctx hrem
    have hid := connectionCtx_id hctx
    have hpid := pushDataInternal_id ctx data
    refine ⟨?_, ?_⟩
    · simp [pushData, hs, hctx, pushDataInternal, hrem]
    · refine ⟨(pushDataInternal ctx data).2, ?_, ?_⟩
      · simp only [pushData, hs, hctx, Bool.false_eq_true, if_false]
        rw [connectionCtx_setCtx _ _ _ (by rw [hpid, hid]), hctx]
        simp [hid]
      · simp [pushDataInternal, hrem, resumeConnection_suspended]
  · rintro (hs | hnone)
    · simp [pushData, hs]
    · simp [pushData, hnone]

theorem tdiv_million_ge (x : Int) :
    Int.tdiv x 1000000 ≥ maxSuspendTime ↔ maxSuspendTime * 1000000 ≤ x := by
  unfold maxSuspendTime
  rcases le_or_lt 0 x with h | h
  · rw [Int.tdiv_eq_ediv h (by norm_num)]
    omega
  · have hle : Int.tdiv x 1000000 ≤ 0 := by
      have h1 : Int.tdiv (-(-x)) 1000000 = - Int.tdiv (-x) 1000000 := Int.neg_tdiv _ _
      rw [neg_neg] at h1
      rw [h1, Int.tdiv_eq_ediv (by omega) (by norm_num)]
      omega
    omega

/-- The C2 contract on `exampleServer`: three bytes pushed to the suspended connection 1 are
all accepted and the connection is resumed; there is no connection 2, and nothing changes. -/
theorem pushData_contract_witness :
    (exampleServer.pushData 1 [10, 20, 30]).1 = some 3 ∧
    (∃ ctx', (exampleServer.pushData 1 [10, 20, 30]).2.connectionCtx 1 = some ctx' ∧
      ctx'.suspended = false) ∧
    exampleServer.pushData 2 [10] = (none, exampleServer) :=
  ⟨((pushData_contract exampleServer 1 [10, 20, 30]).1 rfl _ rfl rfl).1,
   ((pushData_contract exampleServer 1 [10, 20, 30]).1 rfl _ rfl rfl).2,
   (pushData_contract exampleServer 2 [10]).2 (Or.inr rfl)⟩

/-- C4: one run of `removeGhostConnections` at time `now` sets `removed` and resumes (clears
`suspended` and the framework's suspension) exactly for the connections that are suspended, not
yet removed and suspended for at least `maxSuspendTime` = 5000 ms; every other connection, like
the rest of the server, is left as it was. -/
theorem removeGhostConnections_exact (srv : HttpServer) (now : Int) :
    srv.removeGhostConnections now =
      { srv with
        connections := srv.connections.map (fun ctx =>
          if ctx.suspended = true ∧ ctx.removed = false ∧
              maxSuspendTime * 1000000 ≤ now - ctx.suspendTime
          then { ctx with removed := true, suspended := false, mhdSuspended := false }
          else ctx) } := by
  unfold removeGhostConnections
  congr 1
  apply List.map_congr_left
  intro ctx _
  unfold removeGhost
  have key := tdiv_million_ge (now - ctx.suspendTime)
  by_cases hd : maxSuspendTime * 1000000 ≤ now - ctx.suspendTime
  · have hd' := key.mpr hd
    cases hr : ctx.removed <;> cases hs : ctx.suspended <;>
      simp [hd, hd', resumeConnection, hs]
  · have hd' : ¬ (Int.tdiv (now - ctx.suspendTime) 1000000 ≥ maxSuspendTime) :=
      fun h => hd (key.mp h)
    cases hr : ctx.removed <;> cases hs : ctx.suspended <;>
      simp [hd, hd', resumeConnection, hs]

theorem find_filter_ne (l : List ConnectionCtx) {id id0 : Nat} (h : id ≠ id0) :
    (l.filter (fun c => !(c.id == id0))).find? (fun c => c.id == id) =
      l.find? (fun c => c.id == id) := by
  induction l with
  | nil => rfl
  | cons a t ih =>
    by_cases h1 : a.id = id0
    · subst h1
      have hb : (a.id == id) = false := by
        simp only [beq_eq_false_iff_ne, ne_eq]
        intro h2
        exact h h2.symm
      simp [List.filter_cons, List.find?_cons, hb, ih]
    · simp only [List.filter_cons, h1, beq_iff_eq, not_false_eq_true, Bool.not_eq_true',
        beq_eq_false_iff_ne, ne_eq, if_true, List.find?_cons, ih]

theorem find_filter_same (l : List ConnectionCtx) (id : Nat) :
    (l.filter (fun c => !(c.id == id))).find? (fun c => c.id == id) = none := by
  rw [List.find?_eq_none]
  intro c hc
  have := (List.mem_filter.mp hc).2
  simpa using this

theorem removeGhost_id (now : Int) (ctx : ConnectionCtx) : (removeGhost now ctx).id = ctx.id := by
  unfold removeGhost
  split
  · split
    · exact resumeConnection_id _
    · rfl
  · rfl

theorem removeGhost_removed (now : Int) (ctx : ConnectionCtx) (h : ctx.removed = true) :
    removeGhost now ctx = ctx := by
  simp [removeGhost, h]

theorem pushDataInternal_removed (ctx : ConnectionCtx) (data : List Nat)
    (h : ctx.removed = true) : pushDataInternal ctx data = (none, ctx) := by
  simp [pushDataInternal, h]

theorem contentReader_removed (sd : Bool) (ctx : ConnectionCtx) (max : Nat) (lock : Bool)
    (now : Int) (h : ctx.removed = true) :
    mhdContentReaderCallback sd ctx max lock now = (-1, ctx) := by
  simp [mhdContentReaderCallback, h]

theorem connectionCtx_dropConnection (srv : HttpServer) (id0 : Nat) (c0 : ConnectionCtx)
    (h0 : srv.connectionCtx id0 = some c0) (id : Nat) :
    (srv.dropConnection id0).connectionCtx id =
      (srv.connectionCtx id).map (fun c => if c.id == id0 then
        { c0 with removed := true,
                  mhdSuspended := if c0.suspended then false else c0.mhdSuspended } else c) := by
  simp only [dropConnection, h0]
  have hid : c0.id = id0 := connectionCtx_id h0
  exact connectionCtx_setCtx srv id0
    { c0 with removed := true,
              mhdSuspended := if c0.suspended then false else c0.mhdSuspended }
    hid id

/-- The context registered under `id` exists and carries the removed mark. -/
theorem step_keeps_removed (srv : HttpServer) (id : Nat) (op : ServerOp)
    (h : ∃ ctx, srv.connectionCtx id = some ctx ∧ ctx.removed = true)
    (hs : ((srv.step op).connectionCtx id).isSome) :
    ∃ ctx, (srv.step op).connectionCtx id = some ctx ∧ ctx.removed = true := by
  obtain ⟨ctx, hctx, hrem⟩ := h
  have hid := connectionCtx_id hctx
  cases op with
  | pushData id0 data =>
    simp only [step, pushData]
    split
    · exact ⟨ctx, hctx, hrem⟩
    · cases h0 : srv.connectionCtx id0 with
      | none => exact ⟨ctx, hctx, hrem⟩
      | some c0 =>
        simp only
        rw [connectionCtx_setCtx _ _ _ (by rw [pushDataInternal_id, connectionCtx_id h0]), hctx]
        by_cases he : ctx.id = id0
        · have : c0 = ctx := by
            rw [← he, hid, hctx] at h0
            exact (Option.some.inj h0).symm
          subst this
          refine ⟨(pushDataInternal c0 data).2, by simp [he], ?_⟩
          rw [pushDataInternal_removed _ _ hrem]
          exact hrem
        · exact ⟨ctx, by simp [he], hrem⟩
  | contentReader id0 max lock now =>
    simp only [step]
    cases h0 : srv.connectionCtx id0 with
    | none => exact ⟨ctx, hctx, hrem⟩
    | some c0 =>
      simp only
      by_cases he : ctx.id = id0
      · have : c0 = ctx := by
          rw [← he, hid, hctx] at h0
          exact (Option.some.inj h0).symm
        subst this
        rw [contentReader_removed _ _ _ _ _ hrem]
        rw [connectionCtx_setCtx _ _ _ he, hctx]
        exact ⟨c0, by simp [he], hrem⟩
      · have hc0 := connectionCtx_id h0
        have hrid : (mhdContentReaderCallback srv.shutdownRequested c0 max lock now).2.id = id0 := by
          unfold mhdContentReaderCallback
          split
          · exact hc0
          · split
            · exact hc0
            · split
              · unfold suspendConnection
                split <;> exact hc0
              · exact hc0
        rw [connectionCtx_setCtx _ _ _ hrid, hctx]
        exact ⟨ctx, by simp [he], hrem⟩
  | dropConnection id0 =>
    simp only [step]
    cases h0 : srv.connectionCtx id0 with
    | none =>
      refine ⟨ctx, ?_, hrem⟩
      simp only [dropConnection, h0, hctx]
    | some c0 =>
      rw [connectionCtx_dropConnection _ _ _ h0, hctx]
      by_cases he : ctx.id = id0
      · have hb : (ctx.id == id0) = true := by simp [he]
        simp only [Option.map_some', hb, if_true]
        exact ⟨_, rfl, rfl⟩
      · exact ⟨ctx, by simp [he], hrem⟩
  | removeGhostConnections now =>
    simp only [step, removeGhostConnections, connectionCtx]
    rw [find_map_id _ _ (removeGhost_id now)]
    unfold connectionCtx at hctx
    rw [hctx]
    exact ⟨removeGhost now ctx, rfl, by rw [removeGhost_removed _ _ hrem]; exact hrem⟩
  | notifyStarted connection =>
    simp only [step, notifyStarted]
    split
    · exact ⟨ctx, hctx, hrem⟩
    · unfold addMhdConnection
      split
      · exact ⟨ctx, hctx, hrem⟩
      · split
        · exact ⟨ctx, hctx, hrem⟩
        · refine ⟨ctx, ?_, hrem⟩
          unfold connectionCtx at hctx ⊢
          simp [List.find?_append, hctx]
  | notifyClosed connection =>
    simp only [step, notifyClosed] at hs ⊢
    cases h1 : srv.connectionIdFromMhd connection with
    | none => exact ⟨ctx, by simp only [hctx], hrem⟩
    | some id0 =>
      simp only [h1, removeConnection] at hs ⊢
      cases h2 : srv.connectionCtx id0 with
      | none => exact ⟨ctx, by simp only [hctx], hrem⟩
      | some c0 =>
        simp only [h2] at hs ⊢
        by_cases he : id = id0
        · subst he
          simp only [connectionCtx, find_filter_same] at hs
          simp at hs
        · refine ⟨ctx, ?_, hrem⟩
          unfold connectionCtx at hctx ⊢
          simp only [find_filter_ne _ he, hctx]
  | shutdown =>
    simp only [step, shutdown, connectionCtx]
    rw [find_map_id _ _ resumeConnection_id]
    unfold connectionCtx at hctx
    rw [hctx]
    exact ⟨resumeConnection ctx, rfl, by rw [resumeConnection_removed]; exact hrem⟩

theorem run_cons (srv : HttpServer) (op : ServerOp) (ops : List ServerOp) :
    srv.run (op :: ops) = (srv.step op).run ops := rfl

theorem run_keeps_removed (id : Nat) (ops : List ServerOp) :
    ∀ (srv : HttpServer), (∃ ctx, srv.connectionCtx id = some ctx ∧ ctx.removed = true) →
      (∀ k, k ≤ ops.length → ((srv.run (ops.take k)).connectionCtx id).isSome) →
      ∃ ctx, (srv.run ops).connectionCtx id = some ctx ∧ ctx.removed = true := by
  induction ops with
  | nil => intro srv h _; exact h
  | cons op t ih =>
    intro srv h hstay
    rw [run_cons]
    apply ih
    · apply step_keeps_removed _ _ _ h
      have := hstay 1 (by simp)
      simpa [run] using this
    · intro k hk
      have := hstay (k + 1) (by simpa using hk)
      simpa [run_cons] using this

theorem dropConnection_marks (srv : HttpServer) (id : Nat)
    (hex : (srv.connectionCtx id).isSome) :
    ∃ ctx, (srv.dropConnection id).connectionCtx id = some ctx ∧ ctx.removed = true := by
  obtain ⟨c0, h0⟩ := Option.isSome_iff_exists.mp hex
  have hid := connectionCtx_id h0
  rw [connectionCtx_dropConnection _ _ _ h0, h0]
  have hb : (c0.id == id) = true := by simp [hid]
  simp only [Option.map_some', hb, if_true]
  exact ⟨_, rfl, rfl⟩

/-- C3: after `dropConnection(id)` on a connection of the table, whatever calls the server then
receives, as long as the connection stays in the table (it is there after every one of them),
`pushData(id, ...)` returns none and the content-reader callback of the connection returns -1. -/
theorem dropConnection_sticky (srv : HttpServer) (id : Nat) (ops : List ServerOp)
    (hex : (srv.connectionCtx id).isSome = true)
    (hstay : ∀ k, k ≤ ops.length →
      (((srv.dropConnection id).run (ops.take k)).connectionCtx id).isSome = true) :
    (∀ data, (((srv.dropConnection id).run ops).pushData id data).1 = none) ∧
    (∀ ctx, ((srv.dropConnection id).run ops).connectionCtx id = some ctx →
      ∀ max lockAcquired now,
        (mhdContentReaderCallback ((srv.dropConnection id).run ops).shutdownRequested ctx max
          lockAcquired now).1 = -1) := by
  obtain ⟨ctx, hctx, hrem⟩ :=
    run_keeps_removed id ops (srv.dropConnection id) (dropConnection_marks srv id hex) hstay
  constructor
  · intro data
    unfold pushData
    split
    · rfl
    · simp [hctx, pushDataInternal_removed _ _ hrem]
  · intro c hc max lock now
    rw [hctx] at hc
    cases hc
    rw [contentReader_removed _ _ _ _ _ hrem]

/-- The C3 statement on `exampleServer`: connection 1 is dropped, five calls follow that keep it
in the table, and a push to it is refused and its reader reports the end of the stream. -/
theorem dropConnection_sticky_witness :
    (exampleServer.connectionCtx 1).isSome = true ∧
    (∀ data, (((exampleServer.dropConnection 1).run exampleOps).pushData 1 data).1 = none) ∧
    (∀ ctx, ((exampleServer.dropConnection 1).run exampleOps).connectionCtx 1 = some ctx →
      ∀ max lockAcquired now,
        (mhdContentReaderCallback
          ((exampleServer.dropConnection 1).run exampleOps).shutdownRequested ctx max
          lockAcquired now).1 = -1) :=
  ⟨rfl, dropConnection_sticky exampleServer 1 exampleOps rfl (by
    intro k hk
    have hk' : k ≤ 5 := hk
    interval_cases k <;> rfl)⟩

end HttpServer

/-! ## Caster: life cycle -/

namespace Caster

/-- C8: with a state-changed handler installed, `setState(s)` calls the handler exactly once,
with argument `s`, when `s` differs from the current state, and not at all when `s` is the
current state; either way the state afterwards is `s`. -/
theorem setState_handler (c : Caster) (s : State) (h : c.hasStateChangedHandler = true) :
    (c.setState s).1.state = s ∧
    (s ≠ c.state → (c.setState s).2 = [s]) ∧
    (s = c.state → (c.setState s).2 = []) := by
  unfold setState
  by_cases hs : c.state = s
  · simp [hs]
  · have hs' : ¬ s = c.state := fun e => hs e.symm
    simp [hs, hs', h]

/-- The C8 statement at a caster in state `Inited`: `setState(Started)` makes one handler call
with `Started`, and a second `setState(Started)` makes none. -/
theorem setState_handler_witness :
    ((({ state := .Inited } : Caster).setState .Started).1.state = .Started ∧
      (({ state := .Inited } : Caster).setState .Started).2 = [.Started]) ∧
    (({ state := .Started } : Caster).setState .Started).2 = [] :=
  ⟨⟨(setState_handler { state := .Inited } .Started rfl).1,
    (setState_handler { state := .Inited } .Started rfl).2.1 (by decide)⟩,
   (setState_handler { state := .Started } .Started rfl).2.2 rfl⟩

/-- C7, the failing interleaving: the constructor's `initAv`, then `start()` up to the creation
of the worker threads, then a worker thread's `reportError()`, then the `setState(Started)` that
ends `start()`. The caster is `Terminating` after the fourth step and `Started` after the
fifth. -/
theorem terminating_left_by_start :
    lifeTrace {} [.initAv, .startEnter, .startSpawn, .workerError, .startFinish] =
      some [.Initing, .Inited, .Starting, .Starting, .Terminating, .Started] := by
  decide

/-- Every step of a constructed caster other than the `setState(Started)` that ends `start()`
leaves a caster that is `Terminating` in that state. -/
theorem terminating_kept (l l' : Life) (st : LifeStep) (h : lifeStep l st = some l')
    (hc : l.constructed = true) (ht : l.caster.state = .Terminating)
    (hst : st ≠ .startFinish) : l'.caster.state = .Terminating := by
  cases st with
  | startFinish => exact absurd rfl hst
  | initAv =>
    simp [lifeStep, hc] at h
  | startEnter =>
    simp only [lifeStep] at h
    split at h
    · exact absurd h (by simp)
    · split at h
      · cases h; exact ht
      · rename_i hne
        rw [ht] at hne
        exact absurd hne (by decide)
  | startSpawn =>
    simp only [lifeStep] at h
    split at h
    · cases h; exact ht
    · exact absurd h (by simp)
  | startCatch =>
    simp only [lifeStep] at h
    split at h
    · cases h
      simp [reportError, setState, ht]
    · exact absurd h (by simp)
  | workerError =>
    simp only [lifeStep] at h
    split at h
    · cases h
      simp [reportError, setState, ht]
    · exact absurd h (by simp)
  | destructor =>
    simp only [lifeStep] at h
    split at h
    · exact absurd h (by simp)
    · cases h
      simp [destroy, setState, ht]

/-! ## Caster: time stamps -/

theorem av_rescale_nonneg {a b c : Int} (ha : 0 ≤ a) (hb : 0 ≤ b) (hc : 0 < c) :
    0 ≤ av_rescale a b c := by
  unfold av_rescale
  rw [if_neg (by omega), if_neg (by omega)]
  exact Int.ediv_nonneg
    (add_nonneg (mul_nonneg ha hb) (Int.ediv_nonneg hc.le (by norm_num))) hc.le

theorem rescaleFromUsec_nonneg {d : Int} {tb : AVRational} (hd : 0 ≤ d) (hn : 0 < tb.num)
    (hden : 0 < tb.den) : 0 ≤ rescaleFromUsec d tb := by
  unfold rescaleFromUsec av_rescale_q
  apply av_rescale_nonneg hd
  · simp only [one_mul]; exact hden.le
  · simp only []; omega

theorem rescaleToUsec_nonneg {t : Int} {tb : AVRational} (ht : 0 ≤ t) (hn : 0 < tb.num)
    (hden : 0 < tb.den) : 0 ≤ rescaleToUsec t tb := by
  unfold rescaleToUsec av_rescale_q
  apply av_rescale_nonneg ht
  · simp only []; omega
  · simp only [one_mul]; exact hden

theorem stampVideo_eq (s : AvState) (now : Int) :
    ∃ d, (0 ≤ s.videoRealFrameDuration → 0 ≤ d) ∧
      (d = s.videoRealFrameDuration ∨ (0 < s.videoTimeLastFrame ∧ d = now - s.videoTimeLastFrame)) ∧
      stampVideo s now =
        ({ s with
            videoRealFrameDuration := d
            videoTimeLastFrame := now
            nextVideoPts := s.nextVideoPts + rescaleFromUsec d s.outVideoTimeBase },
         { streamIndex := videoStreamIndex, pts := s.nextVideoPts, dts := s.nextVideoPts,
           duration := rescaleFromUsec d s.outVideoTimeBase }) := by
  unfold stampVideo updateVideoSampleStats
  by_cases h1 : s.videoTimeLastFrame > 0
  · by_cases h2 : now - s.videoTimeLastFrame ≥ Int.tdiv s.videoRealFrameDuration 4
    · refine ⟨now - s.videoTimeLastFrame, ?_, Or.inr ⟨h1, rfl⟩, ?_⟩
      · intro h0
        have := Int.tdiv_nonneg h0 (by norm_num : (0 : Int) ≤ 4)
        omega
      · simp [h1, h2]
    · refine ⟨s.videoRealFrameDuration, id, Or.inl rfl, ?_⟩
      simp [h1, h2]
  · refine ⟨s.videoRealFrameDuration, id, Or.inl rfl, ?_⟩
    simp [h1]

theorem writeVideo_eq (s0 : AvState) (c : VideoCall) :
    ∃ d, (0 ≤ s0.videoRealFrameDuration → 0 ≤ d) ∧
      (d = s0.videoRealFrameDuration ∨
        (0 < s0.videoTimeLastFrame ∧ d = c.now - s0.videoTimeLastFrame)) ∧
      (writeVideo s0 c).state =
        { s0 with
            videoRealFrameDuration := d
            videoTimeLastFrame := c.now
            nextVideoPts := s0.nextVideoPts + rescaleFromUsec d s0.outVideoTimeBase } ∧
      (writeVideo s0 c).written =
        [⟨c.now, { streamIndex := videoStreamIndex, pts := s0.nextVideoPts,
                   dts := s0.nextVideoPts,
                   duration := rescaleFromUsec d s0.outVideoTimeBase }⟩] := by
  obtain ⟨d, h0, h1, h2⟩ := stampVideo_eq s0 c.now
  refine ⟨d, h0, h1, ?_, ?_⟩
  · simp only [writeVideo, h2]
  · simp only [writeVideo, h2]

theorem muxVideo_cases (s : AvState) (c : VideoCall) :
    ((muxVideo s c).written = [] ∧ (muxVideo s c).state = s) ∨
    ∃ (d : Int) (k : Bool), (0 ≤ s.videoRealFrameDuration → 0 ≤ d) ∧
      (d = s.videoRealFrameDuration ∨
        (0 < s.videoTimeLastFrame ∧ d = c.now - s.videoTimeLastFrame)) ∧
      (muxVideo s c).state =
        { s with
            hasKeyVideoPkt := k
            videoRealFrameDuration := d
            videoTimeLastFrame := c.now
            nextVideoPts := s.nextVideoPts + rescaleFromUsec d s.outVideoTimeBase } ∧
      (muxVideo s c).written =
        [⟨c.now, { streamIndex := videoStreamIndex, pts := s.nextVideoPts,
                   dts := s.nextVideoPts,
                   duration := rescaleFromUsec d s.outVideoTimeBase }⟩] := by
  have key : ∀ s0 : AvState, s0 = s ∨ s0 = { s with hasKeyVideoPkt := true } →
      ∃ (d : Int) (k : Bool), (0 ≤ s.videoRealFrameDuration → 0 ≤ d) ∧
        (d = s.videoRealFrameDuration ∨
          (0 < s.videoTimeLastFrame ∧ d = c.now - s.videoTimeLastFrame)) ∧
        (writeVideo s0 c).state =
          { s with
              hasKeyVideoPkt := k
              videoRealFrameDuration := d
              videoTimeLastFrame := c.now
              nextVideoPts := s.nextVideoPts + rescaleFromUsec d s.outVideoTimeBase } ∧
        (writeVideo s0 c).written =
          [⟨c.now, { streamIndex := videoStreamIndex, pts := s.nextVideoPts,
                     dts := s.nextVideoPts,
                     duration := rescaleFromUsec d s.outVideoTimeBase }⟩] := by
    intro s0 hs0
    obtain ⟨d, hd0, hd1, hst, hwr⟩ := writeVideo_eq s0 c
    rcases hs0 with rfl | rfl
    · exact ⟨d, s0.hasKeyVideoPkt, hd0, hd1, hst, hwr⟩
    · exact ⟨d, true, hd0, hd1, hst, hwr⟩
  unfold muxVideo
  split
  · split
    · exact Or.inl ⟨rfl, rfl⟩
    · split
      · exact Or.inl ⟨rfl, rfl⟩
      · exact Or.inr (key s (Or.inl rfl))
  · split
    · exact Or.inl ⟨rfl, rfl⟩
    · exact Or.inl ⟨rfl, rfl⟩
    · split
      · exact Or.inl ⟨rfl, rfl⟩
      · split
        · exact Or.inl ⟨rfl, rfl⟩
        · refine Or.inr (key _ ?_)
          split
          · exact Or.inr rfl
          · exact Or.inl rfl

theorem muxAudio_spec : ∀ (its : List AudioIter) (s : AvState),
    ∃ n t, (muxAudio s its).state = { s with nextAudioPts := n, audioTimeLastFrame := t } ∧
      (∀ w ∈ (muxAudio s its).written, w.pkt.streamIndex = audioStreamIndex ∧
        w.pkt.dts = w.pkt.pts ∧ w.pkt.duration = s.audioPktDuration) ∧
      (0 ≤ s.audioPktDuration →
        s.nextAudioPts ≤ n ∧
        (∀ w ∈ (muxAudio s its).written, s.nextAudioPts ≤ w.pkt.pts ∧ w.pkt.pts ≤ n) ∧
        (muxAudio s its).written.Pairwise (fun a b => a.pkt.pts ≤ b.pkt.pts)) := by
  intro its
  induction its with
  | nil =>
    intro s
    exact ⟨s.nextAudioPts, s.audioTimeLastFrame, rfl, by simp [muxAudio],
      fun _ => by simp [muxAudio]⟩
  | cons it rest ih =>
    intro s
    unfold muxAudio
    split
    · exact ⟨s.nextAudioPts, s.audioTimeLastFrame, rfl, by simp, fun _ => by simp⟩
    · exact ⟨s.nextAudioPts, s.audioTimeLastFrame, rfl, by simp, fun _ => by simp⟩
    · exact ⟨s.nextAudioPts, s.audioTimeLastFrame, rfl, by simp, fun _ => by simp⟩
    · by_cases hw : it.writeFails = true
      · simp only [hw, if_true]
        refine ⟨(stampAudio s it.now).1.nextAudioPts, (stampAudio s it.now).1.audioTimeLastFrame,
          rfl, ?_, ?_⟩
        · intro w hw
          simp only [List.mem_singleton] at hw
          subst hw
          exact ⟨rfl, rfl, rfl⟩
        · intro h0
          simp only [stampAudio, List.mem_singleton, forall_eq, List.pairwise_cons,
            List.not_mem_nil, false_implies, implies_true, List.Pairwise.nil, and_self, and_true]
          omega
      · simp only [hw, Bool.false_eq_true, if_false]
        obtain ⟨n, t, hs2, hall, hord⟩ := ih (stampAudio s it.now).1
        refine ⟨n, t, ?_, ?_, ?_⟩
        · rw [hs2]; rfl
        · intro w hw
          rcases List.mem_cons.mp hw with rfl | hw
          · exact ⟨rfl, rfl, rfl⟩
          · exact hall w hw
        · intro h0
          obtain ⟨h1, h2, h3⟩ := hord h0
          simp only [stampAudio] at h1 h2
          refine ⟨by omega, ?_, ?_⟩
          · intro w hw
            rcases List.mem_cons.mp hw with rfl | hw
            · simp only [stampAudio]; omega
            · have := h2 w hw
              omega
          · refine List.Pairwise.cons ?_ h3
            intro w hw
            have := h2 w hw
            simp only [stampAudio]
            omega

theorem roundVideo_cases (s : AvState) (v : Option VideoCall) :
    ((roundVideo s v).written = [] ∧ (roundVideo s v).state = s) ∨
    ∃ (c : VideoCall) (d : Int) (k : Bool), (0 ≤ s.videoRealFrameDuration → 0 ≤ d) ∧
      (d = s.videoRealFrameDuration ∨
        (0 < s.videoTimeLastFrame ∧ d = c.now - s.videoTimeLastFrame)) ∧
      (roundVideo s v).state =
        { s with
            hasKeyVideoPkt := k
            videoRealFrameDuration := d
            videoTimeLastFrame := c.now
            nextVideoPts := s.nextVideoPts + rescaleFromUsec d s.outVideoTimeBase } ∧
      (roundVideo s v).written =
        [⟨c.now, { streamIndex := videoStreamIndex, pts := s.nextVideoPts,
                   dts := s.nextVideoPts,
                   duration := rescaleFromUsec d s.outVideoTimeBase }⟩] := by
  cases v with
  | none => exact Or.inl ⟨rfl, rfl⟩
  | some c =>
    rcases muxVideo_cases s c with h | ⟨d, k, h0, h1, h2, h3⟩
    · exact Or.inl h
    · exact Or.inr ⟨c, d, k, h0, h1, h2, h3⟩

theorem roundVideo_facts (s : AvState) (v : Option VideoCall)
    (h0 : 0 ≤ s.videoRealFrameDuration) (hn : 0 < s.outVideoTimeBase.num)
    (hd : 0 < s.outVideoTimeBase.den) :
    (roundVideo s v).state.outVideoTimeBase = s.outVideoTimeBase ∧
    0 ≤ (roundVideo s v).state.videoRealFrameDuration ∧
    (roundVideo s v).state.audioPktDuration = s.audioPktDuration ∧
    (roundVideo s v).state.nextAudioPts = s.nextAudioPts ∧
    s.nextVideoPts ≤ (roundVideo s v).state.nextVideoPts ∧
    (∀ w ∈ (roundVideo s v).written, w.pkt.streamIndex = videoStreamIndex ∧
      w.pkt.dts = w.pkt.pts ∧ 0 ≤ w.pkt.duration ∧ s.nextVideoPts ≤ w.pkt.pts ∧
      w.pkt.pts ≤ (roundVideo s v).state.nextVideoPts) ∧
    (roundVideo s v).written.Pairwise (fun a b => a.pkt.pts ≤ b.pkt.pts) := by
  rcases roundVideo_cases s v with ⟨hw, hs⟩ | ⟨c, d, k, hd0, _, hs, hw⟩
  · rw [hw, hs]
    simp [h0]
  · have hdur := rescaleFromUsec_nonneg (hd0 h0) hn hd
    rw [hw, hs]
    refine ⟨rfl, hd0 h0, rfl, rfl, ?_, ?_, ?_⟩
    · simp only []; omega
    · intro w hw
      simp only [List.mem_singleton] at hw
      subst hw
      refine ⟨rfl, rfl, hdur, le_refl _, ?_⟩
      simp only []; omega
    · simp

theorem roundAudio_cases (s1 : AvState) (a : Option (List AudioIter)) :
    (∃ n t, (roundAudio s1 a).state =
      { s1 with nextAudioPts := n, audioTimeLastFrame := t }) ∧
    ofStream (roundAudio s1 a).written videoStreamIndex = [] := by
  cases a with
  | none => exact ⟨⟨s1.nextAudioPts, s1.audioTimeLastFrame, rfl⟩, rfl⟩
  | some its =>
    obtain ⟨n, t, hs, hall, _⟩ := muxAudio_spec its s1
    refine ⟨⟨n, t, hs⟩, ?_⟩
    unfold ofStream
    rw [List.filter_eq_nil_iff]
    intro w hw
    rw [(hall w hw).1]
    decide

theorem roundAudio_facts (s1 : AvState) (a : Option (List AudioIter))
    (h0 : 0 ≤ s1.audioPktDuration) :
    (roundAudio s1 a).state.outVideoTimeBase = s1.outVideoTimeBase ∧
    (roundAudio s1 a).state.videoRealFrameDuration = s1.videoRealFrameDuration ∧
    (roundAudio s1 a).state.audioPktDuration = s1.audioPktDuration ∧
    (roundAudio s1 a).state.nextVideoPts = s1.nextVideoPts ∧
    s1.nextAudioPts ≤ (roundAudio s1 a).state.nextAudioPts ∧
    (∀ w ∈ (roundAudio s1 a).written, w.pkt.streamIndex = audioStreamIndex ∧
      w.pkt.dts = w.pkt.pts ∧ 0 ≤ w.pkt.duration ∧ s1.nextAudioPts ≤ w.pkt.pts ∧
      w.pkt.pts ≤ (roundAudio s1 a).state.nextAudioPts) ∧
    (roundAudio s1 a).written.Pairwise (fun a b => a.pkt.pts ≤ b.pkt.pts) := by
  cases a with
  | none => simp [roundAudio]
  | some its =>
    obtain ⟨n, t, hs, hall, hord⟩ := muxAudio_spec its s1
    obtain ⟨h1, h2, h3⟩ := hord h0
    have hst : (roundAudio s1 (some its)).state =
        { s1 with nextAudioPts := n, audioTimeLastFrame := t } := hs
    have hwr : (roundAudio s1 (some its)).written = (muxAudio s1 its).written := rfl
    rw [hst, hwr]
    refine ⟨rfl, rfl, rfl, rfl, h1, ?_, h3⟩
    intro w hw
    obtain ⟨e1, e2, e3⟩ := hall w hw
    exact ⟨e1, e2, by rw [e3]; exact h0, h2 w hw⟩

theorem muxingThread_sublist (s : AvState) (r : MuxRound) (rest : List MuxRound) :
    (muxingThread s (r :: rest)).Sublist
      ((roundVideo s r.video).written ++
        (roundAudio (roundVideo s r.video).state r.audio).written ++
        muxingThread (roundAudio (roundVideo s r.video).state r.audio).state rest) := by
  rw [muxingThread]
  split
  · rw [List.append_assoc]
    exact List.sublist_append_left _ _
  · split
    · exact List.sublist_append_left _ _
    · exact List.Sublist.refl _

theorem muxingThread_sorted : ∀ (rounds : List MuxRound) (s : AvState),
    0 ≤ s.videoRealFrameDuration → 0 < s.outVideoTimeBase.num → 0 < s.outVideoTimeBase.den →
    0 ≤ s.audioPktDuration →
    (∀ w ∈ muxingThread s rounds, w.pkt.dts = w.pkt.pts ∧ 0 ≤ w.pkt.duration ∧
      ((w.pkt.streamIndex = videoStreamIndex ∧ s.nextVideoPts ≤ w.pkt.pts) ∨
       (w.pkt.streamIndex = audioStreamIndex ∧ s.nextAudioPts ≤ w.pkt.pts))) ∧
    (muxingThread s rounds).Pairwise
      (fun a b => a.pkt.streamIndex = b.pkt.streamIndex → a.pkt.pts ≤ b.pkt.pts) := by
  intro rounds
  induction rounds with
  | nil => intro s _ _ _ _; simp [muxingThread]
  | cons r rest ih =>
    intro s h0 hn hd ha
    have hsub := muxingThread_sublist s r rest
    obtain ⟨v1, v2, v3, v4, v5, v6, v7⟩ := roundVideo_facts s r.video h0 hn hd
    obtain ⟨a1, a2, a3, a4, a5, a6, a7⟩ :=
      roundAudio_facts (roundVideo s r.video).state r.audio (by rw [v3]; exact ha)
    obtain ⟨r1, r2⟩ := ih (roundAudio (roundVideo s r.video).state r.audio).state
      (by rw [a2]; exact v2) (by rw [a1, v1]; exact hn)
      (by rw [a1, v1]; exact hd) (by rw [a3, v3]; exact ha)
    have hvp : ∀ w ∈ (roundVideo s r.video).written, w.pkt.dts = w.pkt.pts ∧
        0 ≤ w.pkt.duration ∧
        ((w.pkt.streamIndex = videoStreamIndex ∧ s.nextVideoPts ≤ w.pkt.pts) ∨
         (w.pkt.streamIndex = audioStreamIndex ∧ s.nextAudioPts ≤ w.pkt.pts)) := by
      intro w hw
      obtain ⟨e1, e2, e3, e4, _⟩ := v6 w hw
      exact ⟨e2, e3, Or.inl ⟨e1, e4⟩⟩
    have weaken : ∀ l : List Written, l.Pairwise (fun a b => a.pkt.pts ≤ b.pkt.pts) →
        l.Pairwise
          (fun a b => a.pkt.streamIndex = b.pkt.streamIndex → a.pkt.pts ≤ b.pkt.pts) := by
      intro l hl
      refine List.Pairwise.imp ?_ hl
      intro a b h _
      exact h
    constructor
    · intro w hw
      have hw := hsub.subset hw
      rcases List.mem_append.mp hw with hw | hw
      · rcases List.mem_append.mp hw with hw | hw
        · exact hvp w hw
        · obtain ⟨e1, e2, e3, e4, _⟩ := a6 w hw
          exact ⟨e2, e3, Or.inr ⟨e1, by omega⟩⟩
      · obtain ⟨e1, e2, e3⟩ := r1 w hw
        refine ⟨e1, e2, ?_⟩
        rcases e3 with ⟨i, b⟩ | ⟨i, b⟩
        · exact Or.inl ⟨i, by omega⟩
        · exact Or.inr ⟨i, by omega⟩
    · refine List.Pairwise.sublist hsub ?_
      rw [List.pairwise_append]
      refine ⟨?_, r2, ?_⟩
      · rw [List.pairwise_append]
        refine ⟨weaken _ v7, weaken _ a7, ?_⟩
        intro x hx y hy hxy
        have := (v6 x hx).1
        have := (a6 y hy).1
        simp only [videoStreamIndex, audioStreamIndex] at *
        omega
      · intro x hx y hy hxy
        obtain ⟨_, _, e3⟩ := r1 y hy
        rcases List.mem_append.mp hx with hx | hx
        · obtain ⟨i1, _, _, _, i5⟩ := v6 x hx
          rcases e3 with ⟨i, b⟩ | ⟨i, b⟩
          · omega
          · simp only [videoStreamIndex, audioStreamIndex] at *
            omega
        · obtain ⟨i1, _, _, _, i5⟩ := a6 x hx
          rcases e3 with ⟨i, b⟩ | ⟨i, b⟩
          · simp only [videoStreamIndex, audioStreamIndex] at *
            omega
          · omega

/-- C6: from the start of the muxing thread, with a positive framerate, a non-negative audio
frame size and time bases whose numerator and denominator are positive, whatever the clock
readings and the outcomes of the library calls: every packet handed to `av_write_frame` has
`dts = pts` and a non-negative duration, and within the video stream and within the audio
stream the time stamps are non-decreasing in the order written. -/
theorem pts_nondecreasing (videoFramerate : Int) (videoTimeBase : AVRational)
    (frameSize : Int) (inTimeBase audioTimeBase : AVRational) (rounds : List MuxRound)
    (hfr : 0 < videoFramerate)
    (hv : 0 < videoTimeBase.num ∧ 0 < videoTimeBase.den)
    (hfs : 0 ≤ frameSize)
    (hin : 0 < inTimeBase.num ∧ 0 < inTimeBase.den)
    (hau : 0 < audioTimeBase.num ∧ 0 < audioTimeBase.den) :
    (∀ w ∈ muxingThread
        (muxingStart videoFramerate videoTimeBase frameSize inTimeBase audioTimeBase) rounds,
      w.pkt.dts = w.pkt.pts ∧ 0 ≤ w.pkt.duration) ∧
    (ofStream (muxingThread
        (muxingStart videoFramerate videoTimeBase frameSize inTimeBase audioTimeBase) rounds)
      videoStreamIndex).Pairwise (fun a b => a.pkt.pts ≤ b.pkt.pts) ∧
    (ofStream (muxingThread
        (muxingStart videoFramerate videoTimeBase frameSize inTimeBase audioTimeBase) rounds)
      audioStreamIndex).Pairwise (fun a b => a.pkt.pts ≤ b.pkt.pts) := by
  have hr : 0 ≤ (muxingStart videoFramerate videoTimeBase frameSize inTimeBase
      audioTimeBase).videoRealFrameDuration :=
    @rescaleToUsec_nonneg 1 ⟨1, videoFramerate⟩ (by norm_num) (by norm_num) hfr
  have hap : 0 ≤ (muxingStart videoFramerate videoTimeBase frameSize inTimeBase
      audioTimeBase).audioPktDuration :=
    rescaleFromUsec_nonneg (rescaleToUsec_nonneg hfs hin.1 hin.2) hau.1 hau.2
  obtain ⟨h1, h2⟩ := muxingThread_sorted rounds _ hr hv.1 hv.2 hap
  refine ⟨fun w hw => ⟨(h1 w hw).1, (h1 w hw).2.1⟩, ?_, ?_⟩
  · unfold ofStream
    refine (h2.sublist (List.filter_sublist _)).imp_of_mem ?_
    intro a b ha hb hab
    have ea := (List.mem_filter.mp ha).2
    have eb := (List.mem_filter.mp hb).2
    simp only [beq_iff_eq] at ea eb
    exact hab (ea.trans eb.symm)
  · unfold ofStream
    refine (h2.sublist (List.filter_sublist _)).imp_of_mem ?_
    intro a b ha hb hab
    have ea := (List.mem_filter.mp ha).2
    have eb := (List.mem_filter.mp hb).2
    simp only [beq_iff_eq] at ea eb
    exact hab (ea.trans eb.symm)

/-- The C6 statement for `examplePacedRounds` at 30 frames per second with 1024-sample audio
frames at 44100 Hz. -/
theorem pts_nondecreasing_witness :
    (∀ w ∈ muxingThread exampleMuxingStart examplePacedRounds,
      w.pkt.dts = w.pkt.pts ∧ 0 ≤ w.pkt.duration) ∧
    (ofStream (muxingThread exampleMuxingStart examplePacedRounds)
      videoStreamIndex).Pairwise (fun a b => a.pkt.pts ≤ b.pkt.pts) ∧
    (ofStream (muxingThread exampleMuxingStart examplePacedRounds)
      audioStreamIndex).Pairwise (fun a b => a.pkt.pts ≤ b.pkt.pts) :=
  pts_nondecreasing 30 ⟨1, 30⟩ 1024 ⟨1, 44100⟩ ⟨1, 44100⟩ examplePacedRounds
    (by decide) (by decide) (by decide) (by decide) (by decide)

/-- C5 as stated fails: at 30 frames per second, three frames that arrive 10 ms apart are
handed to `av_write_frame` with the time stamps 0, 1 and 1, so the video time stamps are not
strictly increasing. -/
theorem video_pts_repeats :
    (ofStream (muxingThread exampleMuxingStart exampleFastRounds) videoStreamIndex).map
        (fun w => w.pkt.pts) = [0, 1, 1] ∧
    ¬ (ofStream (muxingThread exampleMuxingStart exampleFastRounds)
        videoStreamIndex).Pairwise (fun a b => a.pkt.pts < b.pkt.pts) := by
  decide

theorem rescaleFromUsec_pos {d : Int} {tb : AVRational} (hn : 0 < tb.num) (hden : 0 < tb.den)
    (hd : 500000 * tb.num ≤ d * tb.den) : 1 ≤ rescaleFromUsec d tb := by
  have hd0 : 0 ≤ d := by
    by_contra hneg
    have : d * tb.den < 0 := mul_neg_of_neg_of_pos (by omega) hden
    omega
  unfold rescaleFromUsec av_rescale_q av_rescale
  simp only [one_mul]
  rw [if_neg (by omega), if_neg (by omega)]
  apply Int.le_ediv_of_mul_le (by omega)
  omega

theorem ofStream_append (l1 l2 : List Written) (i : Nat) :
    ofStream (l1 ++ l2) i = ofStream l1 i ++ ofStream l2 i := by
  simp [ofStream]

theorem ofStream_video_cons (s : AvState) (r : MuxRound) (rest : List MuxRound) :
    ofStream (muxingThread s (r :: rest)) videoStreamIndex =
        ofStream (roundVideo s r.video).written videoStreamIndex ∨
    ofStream (muxingThread s (r :: rest)) videoStreamIndex =
        ofStream (roundVideo s r.video).written videoStreamIndex ++
        ofStream (muxingThread (roundAudio (roundVideo s r.video).state r.audio).state rest)
          videoStreamIndex := by
  have hap := (roundAudio_cases (roundVideo s r.video).state r.audio).2
  rw [muxingThread]
  split
  · exact Or.inl rfl
  · split
    · left
      rw [ofStream_append, hap, List.append_nil]
    · right
      rw [ofStream_append, ofStream_append, hap, List.append_nil]

theorem muxingThread_strict : ∀ (rounds : List MuxRound) (s : AvState),
    0 < s.outVideoTimeBase.num → 0 < s.outVideoTimeBase.den →
    500000 * s.outVideoTimeBase.num ≤ s.videoRealFrameDuration * s.outVideoTimeBase.den →
    List.Chain
      (fun a b => 0 < a → 500000 * s.outVideoTimeBase.num ≤ (b - a) * s.outVideoTimeBase.den)
      s.videoTimeLastFrame
      ((ofStream (muxingThread s rounds) videoStreamIndex).map (fun w => w.now)) →
    (∀ w ∈ ofStream (muxingThread s rounds) videoStreamIndex, s.nextVideoPts ≤ w.pkt.pts) ∧
    (ofStream (muxingThread s rounds) videoStreamIndex).Pairwise
      (fun a b => a.pkt.pts < b.pkt.pts) := by
  intro rounds
  induction rounds with
  | nil => intro s _ _ _ _; simp [muxingThread, ofStream]
  | cons r rest ih =>
    intro s hn hd hdur
    obtain ⟨⟨n, t, hs2⟩, _⟩ := roundAudio_cases (roundVideo s r.video).state r.audio
    rcases roundVideo_cases s r.video with ⟨hw, hs⟩ | ⟨c, d, k, _, hd1, hs, hw⟩
    · have e1 : ofStream (roundVideo s r.video).written videoStreamIndex = [] := by
        rw [hw]; rfl
      rcases ofStream_video_cons s r rest with e | e
      · rw [e, e1]
        intro _
        simp
      · rw [e, e1, List.nil_append]
        intro hch
        rw [hs2, hs] at hch ⊢
        exact ih { s with nextAudioPts := n, audioTimeLastFrame := t } hn hd hdur hch
    · have e1 : ofStream (roundVideo s r.video).written videoStreamIndex =
          [⟨c.now, { streamIndex := videoStreamIndex, pts := s.nextVideoPts,
                     dts := s.nextVideoPts,
                     duration := rescaleFromUsec d s.outVideoTimeBase }⟩] := by
        rw [hw]; simp [ofStream]
      rcases ofStream_video_cons s r rest with e | e
      · rw [e, e1]
        intro _
        simp
      · rw [e, e1, hs2, hs]
        intro hch
        simp only [List.singleton_append, List.map_cons, List.chain_cons] at hch
        obtain ⟨hhead, htail⟩ := hch
        have hd' : 500000 * s.outVideoTimeBase.num ≤ d * s.outVideoTimeBase.den := by
          rcases hd1 with rfl | ⟨hpos, rfl⟩
          · exact hdur
          · exact hhead hpos
        have hone := rescaleFromUsec_pos hn hd hd'
        obtain ⟨r1, r2⟩ := ih
          { s with
            hasKeyVideoPkt := k
            videoRealFrameDuration := d
            videoTimeLastFrame := c.now
            nextVideoPts := s.nextVideoPts + rescaleFromUsec d s.outVideoTimeBase
            nextAudioPts := n
            audioTimeLastFrame := t } hn hd hd' htail
        simp only [List.singleton_append, List.mem_cons, List.pairwise_cons]
        refine ⟨?_, ?_, r2⟩
        · rintro w (rfl | hw)
          · exact le_refl _
          · have := r1 w hw
            simp only [] at this
            omega
        · intro w hw
          have := r1 w hw
          simp only [] at this ⊢
          omega

theorem initial_duration_half_tick (videoFramerate : Int) (hfr : 0 < videoFramerate)
    (hmax : videoFramerate ≤ 1000000) :
    500000 * 1 ≤ rescaleToUsec 1 ⟨1, videoFramerate⟩ * videoFramerate := by
  unfold rescaleToUsec av_rescale_q av_rescale
  simp only [one_mul]
  rw [if_neg (by omega), if_neg (by omega)]
  have h1 := Int.emod_add_ediv (1000000 + videoFramerate / 2) videoFramerate
  have h2 := Int.emod_nonneg (1000000 + videoFramerate / 2) (by omega : videoFramerate ≠ 0)
  have h3 := Int.emod_lt_of_pos (1000000 + videoFramerate / 2) hfr
  rw [mul_comm] at h1
  omega

/-- Why the real frame duration at the start of the muxing thread matters: on a DroidCam
source two early samples 9 ms apart leave the real frame duration 9000, less than half a tick
at 30 frames per second; frames that then come 1 ms, 41 ms and 81 ms after the last early
sample are handed over with the time stamps 0, 0 and 1. -/
theorem early_samples_pts_repeat :
    (exampleEarlySamples.videoTimeLastFrame, exampleEarlySamples.videoRealFrameDuration) =
        (1009000, 9000) ∧
      (ofStream (muxingThread exampleEarlySamples exampleEarlyRounds) videoStreamIndex).map
        (fun w => w.pkt.pts) = [0, 0, 1] := by
  decide

/-- C5, amended: from whatever state the muxing thread starts in (the state of `muxingStart`,
or for a DroidCam source the state that the early samples leave), with a positive video time
base, the time stamps of the video packets handed to `av_write_frame` by successive `muxVideo`
calls (replays during a restart included) are strictly increasing, provided the real frame
duration at the start is at least half a tick of the time base and each such packet follows
the frame counted before it (for the first packet the last early sample, if there was one) by
at least half a tick: `500000 * num ≤ gap * den` with the gap in microseconds. -/
theorem video_pts_strict (s : AvState) (rounds : List MuxRound)
    (hnum : 0 < s.outVideoTimeBase.num) (hden : 0 < s.outVideoTimeBase.den)
    (hdur : 500000 * s.outVideoTimeBase.num ≤
      s.videoRealFrameDuration * s.outVideoTimeBase.den)
    (hgap : List.Chain
      (fun a b => 0 < a → 500000 * s.outVideoTimeBase.num ≤ (b - a) * s.outVideoTimeBase.den)
      s.videoTimeLastFrame
      ((ofStream (muxingThread s rounds) videoStreamIndex).map (fun w => w.now))) :
    (ofStream (muxingThread s rounds) videoStreamIndex).Pairwise
      (fun a b => a.pkt.pts < b.pkt.pts) :=
  (muxingThread_strict rounds s hnum hden hdur hgap).2

theorem examplePaced_video :
    ofStream (muxingThread
        (muxingStart 30 ⟨1, 30⟩ 1024 ⟨1, 44100⟩ ⟨1, 44100⟩) examplePacedRounds)
      videoStreamIndex =
      [⟨1000000, ⟨0, 0, 0, 1⟩⟩, ⟨1040000, ⟨0, 1, 1, 1⟩⟩, ⟨1080000, ⟨0, 2, 2, 1⟩⟩,
       ⟨1120000, ⟨0, 3, 3, 1⟩⟩] := by
  decide

theorem exampleDroidCam_video :
    (exampleDroidCamStart.outVideoTimeBase, exampleDroidCamStart.videoTimeLastFrame,
        exampleDroidCamStart.videoRealFrameDuration) = (⟨1, 30⟩, 960000, 40000) ∧
      (ofStream (muxingThread exampleDroidCamStart examplePacedRounds) videoStreamIndex).map
        (fun w => w.now) = [1000000, 1040000, 1080000, 1120000] := by
  decide

/-- The amended C5 statement on a DroidCam source with two early samples 40 ms apart and on a
source without early samples: video frames 40 ms apart at 30 frames per second get strictly
increasing time stamps. -/
theorem video_pts_strict_witness :
    (ofStream (muxingThread exampleDroidCamStart examplePacedRounds)
      videoStreamIndex).Pairwise (fun a b => a.pkt.pts < b.pkt.pts) ∧
    (ofStream (muxingThread exampleMuxingStart examplePacedRounds)
      videoStreamIndex).Pairwise (fun a b => a.pkt.pts < b.pkt.pts) :=
  ⟨video_pts_strict exampleDroidCamStart examplePacedRounds (by decide) (by decide)
      (by decide)
      (by
        rw [exampleDroidCam_video.2]
        have h := exampleDroidCam_video.1
        simp only [Prod.mk.injEq] at h
        rw [h.1, h.2.1]
        simp [List.Chain]),
   video_pts_strict exampleMuxingStart examplePacedRounds (by decide) (by decide)
      (by decide)
      (by
        have e : exampleMuxingStart = muxingStart 30 ⟨1, 30⟩ 1024 ⟨1, 44100⟩ ⟨1, 44100⟩ := rfl
        rw [e, examplePaced_video]
        simp [List.Chain, muxingStart, initAvAudioDurations, initAvVideoDurations])⟩

end Caster

/-! ## NoGuiEventLoop -/

namespace NoGuiEventLoop

theorem step_invariant (r : Run) (st : Step) (h : loopInvariant r) :
    loopInvariant (step r st) := by
  obtain ⟨h1, h2, h3, h4, h5⟩ := h
  have hnsd : r.loop.shuttingDown = false → (r.pc = .outer → r.queue = []) ∧ r.pc ≠ .ended := by
    intro hsd
    refine ⟨fun hpc => ?_, fun hpc => ?_⟩
    · rcases h3 hpc with h | h
      · rw [hsd] at h; exact absurd h (by simp)
      · exact h
    · have := h5 hpc
      rw [hsd] at this
      exact absurd this (by simp)
  cases st with
  | enqueue event =>
    cases hsd : r.loop.shuttingDown
    · have e : step r (.enqueue event) =
          { r with loop := { r.loop with queue := r.loop.queue ++ [event] },
                   accepted := r.accepted ++ [event] } := by
        simp [step, enqueue, hsd]
      rw [e]
      refine ⟨?_, h2, fun hpc => Or.inr ((hnsd hsd).1 hpc), h4,
        fun hpc => absurd hpc (hnsd hsd).2⟩
      show r.handled ++ r.queue ++ (r.loop.queue ++ [event]) = r.accepted ++ [event]
      rw [← h1]
      simp
    · have e : step r (.enqueue event) = r := by
        simp [step, enqueue, hsd]
      rw [e]
      exact ⟨h1, h2, h3, h4, h5⟩
  | enqueueTest event =>
    cases hsd : r.loop.shuttingDown
    · have e : step r (.enqueueTest event) = { r with pending := r.pending ++ [event] } := by
        simp [step, hsd]
      rw [e]
      exact ⟨h1, h2, h3, h4, h5⟩
    · have e : step r (.enqueueTest event) = r := by
        simp [step, hsd]
      rw [e]
      exact ⟨h1, h2, h3, h4, h5⟩
  | enqueuePush i =>
    cases hp : r.pending.get? i with
    | none =>
      have e : step r (.enqueuePush i) = r := by
        simp only [step, hp]
      rw [e]
      exact ⟨h1, h2, h3, h4, h5⟩
    | some event =>
      have e : step r (.enqueuePush i) =
          { r with loop := { r.loop with queue := r.loop.queue ++ [event] },
                   pending := r.pending.eraseIdx i,
                   accepted := r.accepted ++ [event] } := by
        simp only [step, hp]
      rw [e]
      refine ⟨?_, h2, h3, h4, h5⟩
      show r.handled ++ r.queue ++ (r.loop.queue ++ [event]) = r.accepted ++ [event]
      rw [← h1]
      simp
  | shutdown =>
    exact ⟨h1, h2, fun _ => Or.inl rfl, h4, fun _ => rfl⟩
  | loop =>
    show loopInvariant (loopStep r)
    cases hpc : r.pc with
    | outer =>
      cases hsd : r.loop.shuttingDown
      · have e : loopStep r = { r with pc := .wait } := by simp [loopStep, hpc, hsd]
        rw [e]
        exact ⟨h1, fun _ => (hnsd hsd).1 hpc, fun h => Pc.noConfusion h,
          fun h => Pc.noConfusion h, fun h => Pc.noConfusion h⟩
      · have e : loopStep r = { r with pc := .ended } := by simp [loopStep, hpc, hsd]
        rw [e]
        exact ⟨h1, fun h => Pc.noConfusion h, fun h => Pc.noConfusion h,
          fun h => Pc.noConfusion h, fun _ => hsd⟩
    | wait =>
      have hq := h2 hpc
      by_cases hc : (r.loop.shuttingDown || !r.loop.queue.isEmpty) = true
      · have e : loopStep r =
            { r with loop := { r.loop with queue := r.queue }, queue := r.loop.queue,
                     pc := .inner } := by
          simp only [loopStep, hpc, hc, if_true]
        rw [e]
        refine ⟨?_, fun h => Pc.noConfusion h, fun h => Pc.noConfusion h,
          fun h => Pc.noConfusion h, fun h => Pc.noConfusion h⟩
        show r.handled ++ r.loop.queue ++ r.queue = r.accepted
        rw [← h1, hq]
        simp
      · have e : loopStep r = r := by
          simp only [loopStep, hpc]
          rw [if_neg hc]
        rw [e]
        exact ⟨h1, h2, h3, h4, h5⟩
    | inner =>
      cases hsd : r.loop.shuttingDown
      · cases hq : r.queue with
        | nil =>
          have e : loopStep r = { r with pc := .outer } := by simp [loopStep, hpc, hsd, hq]
          rw [e]
          exact ⟨h1, fun h => Pc.noConfusion h, fun _ => Or.inr hq,
            fun h => Pc.noConfusion h, fun h => Pc.noConfusion h⟩
        | cons event rest =>
          have e : loopStep r = { r with pc := .call } := by
            simp [loopStep, hpc, hsd, hq]
          rw [e]
          refine ⟨h1, fun h => Pc.noConfusion h, fun h => Pc.noConfusion h, fun _ => ?_,
            fun h => Pc.noConfusion h⟩
          show r.queue ≠ []
          rw [hq]
          exact List.cons_ne_nil _ _
      · have e : loopStep r = { r with pc := .outer } := by simp [loopStep, hpc, hsd]
        rw [e]
        exact ⟨h1, fun h => Pc.noConfusion h, fun _ => Or.inl hsd,
          fun h => Pc.noConfusion h, fun h => Pc.noConfusion h⟩
    | call =>
      cases hq : r.queue with
      | nil => exact absurd hq (h4 hpc)
      | cons event rest =>
        have e : loopStep r =
            { r with handled := r.handled ++ [event], queue := rest, pc := .inner } := by
          simp [loopStep, hpc, hq]
        rw [e]
        refine ⟨?_, fun h => Pc.noConfusion h, fun h => Pc.noConfusion h,
          fun h => Pc.noConfusion h, fun h => Pc.noConfusion h⟩
        show r.handled ++ [event] ++ rest ++ r.loop.queue = r.accepted
        rw [← h1, hq]
        simp
    | ended =>
      have e : loopStep r = r := by simp [loopStep, hpc]
      rw [e]
      exact ⟨h1, h2, h3, h4, h5⟩

theorem run_invariant (steps : List Step) : ∀ (r : Run),
    loopInvariant r → loopInvariant (run r steps) := by
  induction steps with
  | nil => intro r h; exact h
  | cons st rest ih =>
    intro r h
    exact ih (step r st) (step_invariant r st h)

/-- The fresh loop satisfies the invariant. -/
theorem fresh_invariant : loopInvariant {} :=
  ⟨rfl, fun _ => rfl, fun _ => Or.inr rfl, fun h => Pc.noConfusion h,
    fun h => Pc.noConfusion h⟩

/-- After a shutdown a step hands over nothing unless the loop stands between its inner test
and the handler call; there the next step of the loop hands over the front of the local
queue, and no step after it hands over anything. -/
theorem step_after_shutdown (r : Run) (st : Step) (h : r.loop.shuttingDown = true) :
    (step r st).loop.shuttingDown = true ∧
    (r.pc ≠ .call → (step r st).pc ≠ .call ∧ (step r st).handled = r.handled) ∧
    (r.pc = .call →
      ((step r st).pc = .call ∧ (step r st).handled = r.handled ∧
          (step r st).queue = r.queue) ∨
        ((step r st).pc ≠ .call ∧ (step r st).handled = r.handled ++ r.queue.take 1)) := by
  cases st with
  | enqueue event =>
    have e : step r (.enqueue event) = r := by simp [step, enqueue, h]
    rw [e]
    exact ⟨h, fun hpc => ⟨hpc, rfl⟩, fun hpc => Or.inl ⟨hpc, rfl, rfl⟩⟩
  | enqueueTest event =>
    have e : step r (.enqueueTest event) = r := by simp [step, h]
    rw [e]
    exact ⟨h, fun hpc => ⟨hpc, rfl⟩, fun hpc => Or.inl ⟨hpc, rfl, rfl⟩⟩
  | enqueuePush i =>
    cases hp : r.pending.get? i with
    | none =>
      have e : step r (.enqueuePush i) = r := by simp only [step, hp]
      rw [e]
      exact ⟨h, fun hpc => ⟨hpc, rfl⟩, fun hpc => Or.inl ⟨hpc, rfl, rfl⟩⟩
    | some event =>
      have e : step r (.enqueuePush i) =
          { r with loop := { r.loop with queue := r.loop.queue ++ [event] },
                   pending := r.pending.eraseIdx i,
                   accepted := r.accepted ++ [event] } := by
        simp only [step, hp]
      rw [e]
      exact ⟨h, fun hpc => ⟨hpc, rfl⟩, fun hpc => Or.inl ⟨hpc, rfl, rfl⟩⟩
  | shutdown =>
    exact ⟨rfl, fun hpc => ⟨hpc, rfl⟩, fun hpc => Or.inl ⟨hpc, rfl, rfl⟩⟩
  | loop =>
    show (loopStep r).loop.shuttingDown = true ∧
      (r.pc ≠ .call → (loopStep r).pc ≠ .call ∧ (loopStep r).handled = r.handled) ∧
      (r.pc = .call →
        ((loopStep r).pc = .call ∧ (loopStep r).handled = r.handled ∧
            (loopStep r).queue = r.queue) ∨
          ((loopStep r).pc ≠ .call ∧ (loopStep r).handled = r.handled ++ r.queue.take 1))
    cases hpc : r.pc with
    | outer =>
      have e : loopStep r = { r with pc := .ended } := by simp [loopStep, hpc, h]
      rw [e]
      exact ⟨h, fun _ => ⟨fun h => Pc.noConfusion h, rfl⟩, fun h => Pc.noConfusion h⟩
    | wait =>
      have e : loopStep r =
          { r with loop := { r.loop with queue := r.queue }, queue := r.loop.queue,
                   pc := .inner } := by
        simp [loopStep, hpc, h]
      rw [e]
      exact ⟨h, fun _ => ⟨fun h => Pc.noConfusion h, rfl⟩, fun h => Pc.noConfusion h⟩
    | inner =>
      have e : loopStep r = { r with pc := .outer } := by simp [loopStep, hpc, h]
      rw [e]
      exact ⟨h, fun _ => ⟨fun h => Pc.noConfusion h, rfl⟩, fun h => Pc.noConfusion h⟩
    | call =>
      cases hq : r.queue with
      | nil =>
        have e : loopStep r = { r with pc := .inner } := by simp [loopStep, hpc, hq]
        rw [e]
        refine ⟨h, fun hne => absurd rfl hne, fun _ => Or.inr ⟨fun h => Pc.noConfusion h, ?_⟩⟩
        simp
      | cons event rest =>
        have e : loopStep r =
            { r with handled := r.handled ++ [event], queue := rest, pc := .inner } := by
          simp [loopStep, hpc, hq]
        rw [e]
        refine ⟨h, fun hne => absurd rfl hne, fun _ => Or.inr ⟨fun h => Pc.noConfusion h, ?_⟩⟩
        simp
    | ended =>
      have e : loopStep r = r := by simp [loopStep, hpc]
      rw [e]
      exact ⟨h, fun _ => ⟨by rw [hpc]; exact fun h => Pc.noConfusion h, rfl⟩,
        fun h => Pc.noConfusion h⟩

/-- After a shutdown, with the loop not between its inner test and the handler call, nothing
more is handed over. -/
theorem run_after_shutdown (steps : List Step) : ∀ (r : Run), r.loop.shuttingDown = true →
    r.pc ≠ .call → (run r steps).handled = r.handled := by
  induction steps with
  | nil => intro r _ _; rfl
  | cons st rest ih =>
    intro r h hpc
    obtain ⟨g1, g2, _⟩ := step_after_shutdown r st h
    obtain ⟨g3, g4⟩ := g2 hpc
    exact (ih (step r st) g1 g3).trans g4

/-- After a shutdown at most one more event is handed over: the front of the local queue, when
the loop stands between its inner test and the handler call. -/
theorem run_after_shutdown_call (steps : List Step) : ∀ (r : Run),
    r.loop.shuttingDown = true → r.pc = .call →
    (run r steps).handled = r.handled ∨ (run r steps).handled = r.handled ++ r.queue.take 1 := by
  induction steps with
  | nil => intro r _ _; exact Or.inl rfl
  | cons st rest ih =>
    intro r h hpc
    obtain ⟨g1, _, g2⟩ := step_after_shutdown r st h
    rcases g2 hpc with ⟨g3, g4, g5⟩ | ⟨g3, g4⟩
    · rcases ih (step r st) g1 g3 with i | i
      · exact Or.inl (i.trans g4)
      · right
        show (run (step r st) rest).handled = r.handled ++ r.queue.take 1
        rw [i, g4, g5]
    · right
      show (run (step r st) rest).handled = r.handled ++ r.queue.take 1
      rw [run_after_shutdown rest (step r st) g1 g3, g4]

/-- A step of a loop that is not shut down and gets no event: it keeps the events pushed,
stays where it is once everything is handed over, and otherwise comes nearer to that. -/
theorem loopStep_progress (r : Run) (hinv : loopInvariant r)
    (hsd : r.loop.shuttingDown = false) :
    (loopStep r).loop.shuttingDown = false ∧ (loopStep r).accepted = r.accepted ∧
    (stepsToIdle r = 0 → loopStep r = r ∧ r.handled = r.accepted) ∧
    (stepsToIdle r ≠ 0 → stepsToIdle (loopStep r) < stepsToIdle r) := by
  obtain ⟨h1, h2, h3, h4, h5⟩ := hinv
  cases hpc : r.pc with
  | outer =>
    have e : loopStep r = { r with pc := .wait } := by simp [loopStep, hpc, hsd]
    rw [e]
    refine ⟨hsd, rfl, fun h0 => ?_, fun _ => ?_⟩
    · simp [stepsToIdle, hpc] at h0
    · simp only [stepsToIdle, hpc]
      omega
  | wait =>
    have hq := h2 hpc
    cases hm : r.loop.queue with
    | nil =>
      have e : loopStep r = r := by simp [loopStep, hpc, hsd, hm]
      rw [e]
      refine ⟨hsd, rfl, fun _ => ⟨rfl, ?_⟩, fun hne => ?_⟩
      · rw [← h1, hq, hm]
        simp
      · simp [stepsToIdle, hpc, hm] at hne
    | cons event rest =>
      have e : loopStep r =
          { r with loop := { r.loop with queue := r.queue }, queue := r.loop.queue,
                   pc := .inner } := by
        simp [loopStep, hpc, hsd, hm]
      rw [e]
      refine ⟨hsd, rfl, fun h0 => ?_, fun _ => ?_⟩
      · simp [stepsToIdle, hpc, hm] at h0
      · simp only [stepsToIdle, hpc, hq, hm, List.length_cons, List.length_nil]
        simp
  | inner =>
    cases hq : r.queue with
    | nil =>
      have e : loopStep r = { r with pc := .outer } := by simp [loopStep, hpc, hsd, hq]
      rw [e]
      refine ⟨hsd, rfl, fun h0 => ?_, fun _ => ?_⟩
      · simp [stepsToIdle, hpc] at h0
      · simp only [stepsToIdle, hpc, hq, List.length_nil]
        omega
    | cons event rest =>
      have e : loopStep r = { r with pc := .call } := by simp [loopStep, hpc, hsd, hq]
      rw [e]
      refine ⟨hsd, rfl, fun h0 => ?_, fun _ => ?_⟩
      · simp [stepsToIdle, hpc] at h0
      · simp only [stepsToIdle, hpc, hq, List.length_cons]
        omega
  | call =>
    cases hq : r.queue with
    | nil => exact absurd hq (h4 hpc)
    | cons event rest =>
      have e : loopStep r =
          { r with handled := r.handled ++ [event], queue := rest, pc := .inner } := by
        simp [loopStep, hpc, hq]
      rw [e]
      refine ⟨hsd, rfl, fun h0 => ?_, fun _ => ?_⟩
      · simp [stepsToIdle, hpc] at h0
      · simp only [stepsToIdle, hpc, hq, List.length_cons]
        omega
  | ended =>
    have := h5 hpc
    rw [hsd] at this
    exact absurd this (by simp)

/-- A loop that is not shut down and gets no further event hands over every event pushed
within `stepsToIdle` steps, and hands over nothing more after that. -/
theorem run_progress (n : Nat) : ∀ (r : Run), loopInvariant r →
    r.loop.shuttingDown = false → stepsToIdle r ≤ n →
    (run r (List.replicate n .loop)).handled = r.accepted := by
  induction n with
  | zero =>
    intro r hinv hsd hn
    exact ((loopStep_progress r hinv hsd).2.2.1 (by omega)).2
  | succ n ih =>
    intro r hinv hsd hn
    obtain ⟨g1, g2, g3, g4⟩ := loopStep_progress r hinv hsd
    have hinv2 : loopInvariant (loopStep r) := step_invariant r .loop hinv
    show (run (loopStep r) (List.replicate n .loop)).handled = r.accepted
    rw [← g2]
    refine ih (loopStep r) hinv2 g1 ?_
    by_cases h0 : stepsToIdle r = 0
    · rw [(g3 h0).1]
      omega
    · have := g4 h0
      omega

/-- The number of steps to idle is bounded by the number of events pushed. -/
theorem stepsToIdle_le (r : Run) (hinv : loopInvariant r) :
    stepsToIdle r ≤ 2 * r.accepted.length + 5 := by
  have h := congrArg List.length hinv.1
  simp only [List.length_append] at h
  unfold stepsToIdle
  cases r.pc <;> simp only <;> first | omega | (split_ifs <;> omega)

/-- C9 as stated fails: the signal handler calls `shutdown` after the loop has passed the test
of its inner `while` and before it calls the handler; the next step of the loop hands the
event over, after the shutdown. -/
theorem handled_after_shutdown :
    (run {} exampleShutdownRace).loop.shuttingDown = true ∧
      (run {} exampleShutdownRace).handled = [] ∧
      (run {} (exampleShutdownRace ++ [.loop])).handled = [{ type := .StartServer }] := by
  decide

/-- C9, amended: along every interleaving of `enqueue` calls (also split into test and push),
`shutdown` calls and steps of `loop()` from a fresh loop, the events given to the handler,
followed by those waiting in the local queue and in `m_queue`, are exactly the events pushed,
in the order pushed; so the handler gets them in that order, each at most once, also when
events arrive while a batch is handled. A loop that is not shut down hands over every event
pushed: after `2 * pushed + 5` further steps of `loop()` the events handed over are the events
pushed. Once `m_shuttingDown` is set, whatever follows, at most one further event is given to
the handler, the front of the local queue, and only if the loop had passed its inner test
before; otherwise none. An `enqueue` call that starts after the shutdown leaves the loop as it
is. -/
theorem loop_fifo (steps : List Step) (n : Nat) (r : Run) (more : List Step)
    (event : Event.Pack) :
    ((run {} steps).handled ++ (run {} steps).queue ++ (run {} steps).loop.queue =
        (run {} steps).accepted ∧
      (run {} steps).handled <+: (run {} steps).accepted) ∧
    ((run {} steps).loop.shuttingDown = false → 2 * (run {} steps).accepted.length + 5 ≤ n →
      (run (run {} steps) (List.replicate n .loop)).handled = (run {} steps).accepted) ∧
    (r.loop.shuttingDown = true →
      ((run r more).handled = r.handled ∨
        (r.pc = .call ∧ (run r more).handled = r.handled ++ r.queue.take 1)) ∧
      (r.pc ≠ .call → (run r more).handled = r.handled) ∧
      r.loop.enqueue event = r.loop ∧ step r (.enqueue event) = r ∧
      step r (.enqueueTest event) = r) := by
  have hinv := run_invariant steps {} fresh_invariant
  refine ⟨⟨hinv.1, ?_⟩, ?_, ?_⟩
  · refine ⟨(run {} steps).queue ++ (run {} steps).loop.queue, ?_⟩
    rw [← List.append_assoc]
    exact hinv.1
  · intro hsd hn
    exact run_progress n _ hinv hsd (le_trans (stepsToIdle_le _ hinv) hn)
  · intro hsd
    refine ⟨?_, fun hpc => run_after_shutdown more r hsd hpc, by simp [enqueue, hsd], ?_, ?_⟩
    · by_cases hpc : r.pc = .call
      · rcases run_after_shutdown_call more r hsd hpc with h | h
        · exact Or.inl h
        · exact Or.inr ⟨hpc, h⟩
      · exact Or.inl (run_after_shutdown more r hsd hpc)
    · simp [step, enqueue, hsd]
    · simp [step, hsd]

/-- The amended C9 statement on three interleavings. In `exampleBusySteps`, without shutdown,
eleven further steps of the loop hand over the three events in the order pushed. After
`exampleLoopSteps`, which ends past a shutdown with the loop at its outer test, further steps
hand over nothing and a further `enqueue` is dropped. After `exampleShutdownRace`, where the
shutdown came between the inner test and the handler call, one event is handed over. -/
theorem loop_fifo_witness :
    ((run {} exampleBusySteps).accepted =
        [{ type := .StopCaster }, { type := .StartServer }, { type := .StopServer }] ∧
      (run (run {} exampleBusySteps) (List.replicate 11 .loop)).handled =
        (run {} exampleBusySteps).accepted) ∧
    ((run (run {} exampleLoopSteps) [.loop, .enqueue { type := .StopServer }, .loop]).handled =
        (run {} exampleLoopSteps).handled ∧
      (run {} exampleLoopSteps).loop.enqueue { type := .StopServer } =
        (run {} exampleLoopSteps).loop) ∧
    ((run (run {} exampleShutdownRace) [.loop, .loop]).handled =
        (run {} exampleShutdownRace).handled ∨
      ((run {} exampleShutdownRace).pc = .call ∧
        (run (run {} exampleShutdownRace) [.loop, .loop]).handled =
          (run {} exampleShutdownRace).handled ++ (run {} exampleShutdownRace).queue.take 1)) :=
  ⟨⟨by decide,
      (loop_fifo exampleBusySteps 11 {} [] { type := .StopServer }).2.1 (by decide)
        (by decide)⟩,
    ⟨((loop_fifo [] 0 (run {} exampleLoopSteps)
        [.loop, .enqueue { type := .StopServer }, .loop] { type := .StopServer }).2.2
        (by decide)).2.1 (by decide),
      ((loop_fifo [] 0 (run {} exampleLoopSteps) [] { type := .StopServer }).2.2
        (by decide)).2.2.1⟩,
    ((loop_fifo [] 0 (run {} exampleShutdownRace) [.loop, .loop] { type := .StopServer }).2.2
      (by decide)).1⟩

end NoGuiEventLoop

/-! ## Kamkast -/

theorem rfind_isSome_occurs (s pat : List Char) (pos : Nat)
    (h : (rfind s pat pos).isSome = true) : ∃ i, pat <+: s.drop i := by
  obtain ⟨i, hi⟩ := Option.isSome_iff_exists.mp h
  have := List.find?_some hi
  exact ⟨i, List.isPrefixOf_iff_prefix.mp this⟩

theorem rfind_zero_isSome (s pat : List Char) (h : (rfind s pat 0).isSome = true) :
    pat <+: s := by
  obtain ⟨i, hi⟩ := rfind_isSome_occurs s pat 0 h
  obtain ⟨j, hj⟩ := Option.isSome_iff_exists.mp h
  have hmem := List.mem_of_find?_eq_some hj
  have hp := List.find?_some hj
  simp only [rfind, Nat.zero_min, zero_add, List.mem_reverse, List.mem_range] at hmem
  have hj0 : j = 0 := by omega
  subst hj0
  simpa using List.isPrefixOf_iff_prefix.mp hp

/-- C10, amended: the connection handler answers 200 or 404, and it answers with a status below
400 only if the URL with leading and trailing slashes and blanks trimmed is exactly url-path,
is exactly url-path + "/stream", or begins with url-path + "/ctrl" and contains "/info"; every
other URL gets 404. -/
theorem connectionHandlerStatus_paths (settings : Settings) (url : List Char) :
    (connectionHandlerStatus settings url = 200 ∨ connectionHandlerStatus settings url = 404) ∧
    (connectionHandlerStatus settings url < 400 →
      trimmed url '/' = settings.urlPath ∨
      trimmed url '/' = settings.urlPath ++ streamUrlPath ∨
      ((settings.urlPath ++ ctrlUrlPath) <+: trimmed url '/' ∧
        ∃ i, infoStr <+: (trimmed url '/').drop i)) := by
  unfold connectionHandlerStatus determineRequestType
  simp only []
  by_cases h1 : (find (trimmed url '/') settings.urlPath).isNone = true
  · simp [h1]
  · by_cases h2 : (trimmed url '/' == settings.urlPath) = true
    · have e2 : trimmed url '/' = settings.urlPath := by simpa using h2
      simp only [h1, h2, if_true]
      refine ⟨?_, fun _ => Or.inl e2⟩
      cases settings.disableWebUi <;> simp
    · by_cases h3 : (trimmed url '/' == settings.urlPath ++ streamUrlPath) = true
      · have e3 : trimmed url '/' = settings.urlPath ++ streamUrlPath := by simpa using h3
        simp only [h1, h2, h3, if_true]
        exact ⟨Or.inl rfl, fun _ => Or.inr (Or.inl e3)⟩
      · by_cases h4 : (rfind (trimmed url '/') (settings.urlPath ++ ctrlUrlPath) 0).isSome = true
        · simp only [h1, h2, h3, h4, if_true]
          have hp := rfind_zero_isSome _ _ h4
          unfold handleCtrlRequestStatus
          cases settings.disableCtrlApi
          · by_cases h5 : (rfind (trimmed url '/') infoStr
                (settings.urlPath.length + sizeofInfoStr)).isNone = true
            · simp [h5]
            · simp only [h5]
              refine ⟨Or.inl (by simp), fun _ => Or.inr (Or.inr ⟨hp, ?_⟩)⟩
              apply rfind_isSome_occurs _ _ (settings.urlPath.length + sizeofInfoStr)
              cases h6 : rfind (trimmed url '/') infoStr
                (settings.urlPath.length + sizeofInfoStr) with
              | none => simp [h6] at h5
              | some i => rfl
          · simp
        · simp [h1, h2, h3, h4]

/-- C10 as stated fails: with url-path "abc" the request "/abc/ctrl/info/extra" is answered
with 200, and its trimmed URL is none of "abc", "abc/stream" and "abc/ctrl/info". -/
theorem ctrl_info_extra_accepted :
    connectionHandlerStatus { urlPath := "abc".toList } "/abc/ctrl/info/extra".toList = 200 ∧
    trimmed "/abc/ctrl/info/extra".toList '/' ≠ "abc".toList ∧
    trimmed "/abc/ctrl/info/extra".toList '/' ≠ "abc".toList ++ "/stream".toList ∧
    trimmed "/abc/ctrl/info/extra".toList '/' ≠ "abc".toList ++ "/ctrl/info".toList := by
  decide

/-- The amended C10 statement at url-path "abc": "/abc/ctrl/info/extra" is answered with 200
and begins with "abc/ctrl" after trimming. -/
theorem connectionHandlerStatus_paths_witness :
    connectionHandlerStatus { urlPath := "abc".toList } "/abc/ctrl/info/extra".toList < 400 ∧
    ("abc".toList ++ ctrlUrlPath) <+: trimmed "/abc/ctrl/info/extra".toList '/' :=
  ⟨by decide,
   (((connectionHandlerStatus_paths { urlPath := "abc".toList }
      "/abc/ctrl/info/extra".toList).2 (by decide)).resolve_left (by decide)).resolve_left
      (by decide) |>.1⟩

namespace Kamkast

/-- C1, the failing run: connection 1 is served by a caster in state `Started` when the stream
request of connection 2 enqueues `StopCaster` and `StartCaster`. After two turns of the event
loop the caster of connection 2 is `Started` and is the active one; the `StopCaster` that the
state handler of the first caster enqueued while it was torn down is still waiting. After
seven more turns nothing waits, there is no active caster and connection 2 carries the removed
mark. -/
theorem preemption_ends_new_caster :
    ((runLoop (fun _ => {}) 2
        (exampleCasting.handleStreamRequest exampleCasting.settings 2).2).caster =
        some ⟨2, { state := .Started }⟩ ∧
      (runLoop (fun _ => {}) 2
        (exampleCasting.handleStreamRequest exampleCasting.settings 2).2).loop.queue.map
        (fun e => e.type) = [.CasterEnded, .StopCaster, .CasterEnded, .CasterStarted]) ∧
    (runLoop (fun _ => {}) 9
        (exampleCasting.handleStreamRequest exampleCasting.settings 2).2).loop.queue = [] ∧
    (runLoop (fun _ => {}) 9
        (exampleCasting.handleStreamRequest exampleCasting.settings 2).2).caster = none ∧
    ((runLoop (fun _ => {}) 9
        (exampleCasting.handleStreamRequest exampleCasting.settings 2).2).server.bind
        (fun srv => srv.connectionCtx 2)).map (fun ctx => ctx.removed) = some true := by
  decide

end Kamkast

/-! ## Settings -/

namespace Settings

/-- C20: for stream format, video orientation and video encoder, `fromStr (toStr x) = x` for
every enumeration value `x`, `toStr` yields exactly the wire spellings, and `fromStr` returns
`none` exactly for the strings that are not among these spellings. -/
theorem enum_fromStr_toStr (s : Settings) :
    ((∀ x, streamFormatFromStr (streamFormatToStr { s with streamFormat := some x }) = some x) ∧
      [StreamFormat.Mp4, .MpegTs, .Mp3].map
          (fun x => streamFormatToStr { s with streamFormat := some x })
        = ["mp4".toList, "mpegts".toList, "mp3".toList] ∧
      (∀ str, streamFormatFromStr str = none ↔
        str ∉ ["mp4".toList, "mpegts".toList, "mp3".toList])) ∧
    ((∀ x, videoOrientationFromStr
          (videoOrientationToStr { s with videoOrientation := some x }) = some x) ∧
      [VideoOrientation.Auto, .Landscape, .InvertedLandscape, .Portrait, .InvertedPortrait].map
          (fun x => videoOrientationToStr { s with videoOrientation := some x })
        = ["auto".toList, "landscape".toList, "inverted-landscape".toList, "portrait".toList,
            "inverted-portrait".toList] ∧
      (∀ str, videoOrientationFromStr str = none ↔
        str ∉ ["auto".toList, "landscape".toList, "inverted-landscape".toList,
          "portrait".toList, "inverted-portrait".toList])) ∧
    ((∀ x, videoEncoderFromStr (videoEncoderToStr { s with videoEncoder := some x }) = some x) ∧
      [VideoEncoder.Auto, .Nvenc, .V4l2, .X264].map
          (fun x => videoEncoderToStr { s with videoEncoder := some x })
        = ["auto".toList, "nvenc".toList, "v4l2".toList, "x264".toList] ∧
      (∀ str, videoEncoderFromStr str = none ↔
        str ∉ ["auto".toList, "nvenc".toList, "v4l2".toList, "x264".toList])) := by
  refine ⟨⟨?_, rfl, ?_⟩, ⟨?_, rfl, ?_⟩, ⟨?_, rfl, ?_⟩⟩
  · intro x; cases x <;> rfl
  · intro str
    unfold streamFormatFromStr
    split_ifs <;> simp_all
  · intro x; cases x <;> rfl
  · intro str
    unfold videoOrientationFromStr
    split_ifs <;> simp_all
  · intro x; cases x <;> rfl
  · intro str
    unfold videoEncoderFromStr
    split_ifs <;> simp_all

end Settings

/-! ## Caster: configuration, sources and sink inputs -/

namespace Caster

/-- C11: `configValid` accepts a configuration exactly when every non-empty video or audio
source name is among the detected sources, at least one of the two names is non-empty, the
stream format is not MP3 when a video source is set, the audio volume lies in the range from
0 to 10, and stream author and stream title are both non-empty. -/
theorem configValid_iff (videoProps audioProps : List (List Char)) (config : Config) :
    configValid videoProps audioProps config = true ↔
      ((config.videoSource ≠ [] → config.videoSource ∈ videoProps) ∧
        (config.audioSource ≠ [] → config.audioSource ∈ audioProps) ∧
        (config.videoSource ≠ [] ∨ config.audioSource ≠ []) ∧
        (config.videoSource ≠ [] → config.streamFormat ≠ .Mp3) ∧
        (0 ≤ config.audioVolume ∧ config.audioVolume ≤ 10) ∧
        config.streamAuthor ≠ [] ∧ config.streamTitle ≠ []) := by
  obtain ⟨fmt, vs, as, vo, vol, author, title, enc, opts⟩ := config
  have hvo : (vo != .Auto && vo != .Landscape && vo != .InvertedLandscape && vo != .Portrait &&
      vo != .InvertedPortrait) = false := by cases vo <;> rfl
  have henc : (enc != .Auto && enc != .Nvenc && enc != .V4l2 && enc != .X264) = false := by
    cases enc <;> rfl
  have hfmt : (fmt != .Mp4 && fmt != .MpegTs && fmt != .Mp3) = false := by cases fmt <;> rfl
  simp only [configValid, hvo, henc, hfmt]
  split_ifs with h1 h2 h3 h4 h5 h6 h7 <;> simp_all [List.count_eq_zero]
  · intro _ _ a b
    rcases h6 with h | h
    · exact absurd a (not_le.mpr h)
    · exact absurd b (not_le.mpr h)
  · refine ⟨?_, fun hv hf => hv (h5 hf)⟩
    by_cases hv : vs = []
    · exact Or.inr (h3 hv)
    · exact Or.inl hv

/-- An entry that `lookup` finds is an entry of the list. -/
theorem lookup_mem {k : Nat} {v : PaSinkInput} :
    ∀ {l : List (Nat × PaSinkInput)}, List.lookup k l = some v → (k, v) ∈ l
  | [], h => by simp at h
  | (k0, v0) :: l, h => by
    by_cases hk : k = k0
    · subst hk
      simp [List.lookup] at h
      simp [h]
    · have hb : (k == k0) = false := by simpa using hk
      simp only [List.lookup, hb] at h
      exact List.mem_cons_of_mem _ (lookup_mem h)

/-- What the loop of `bestPaSinkInput` returns is an entry of the map that is neither removed
nor corked, and it returns one whenever there is one. -/
theorem firstUsable_spec (l : List (Nat × PaSinkInput)) :
    (∀ si, (l.find? (fun it => !it.2.removed && !it.2.corked)).map Prod.snd = some si →
        ∃ it ∈ l, it.2 = si ∧ it.2.removed = false ∧ it.2.corked = false) ∧
      ((l.find? (fun it => !it.2.removed && !it.2.corked)).map Prod.snd = none →
        ∀ it ∈ l, ¬ (it.2.removed = false ∧ it.2.corked = false)) := by
  constructor
  · intro si h
    cases hf : l.find? (fun it => !it.2.removed && !it.2.corked) with
    | none => simp [hf] at h
    | some it =>
      simp only [hf, Option.map_some', Option.some.injEq] at h
      have hp := List.find?_some hf
      have hm := List.mem_of_find?_eq_some hf
      refine ⟨it, hm, h, ?_⟩
      simpa using hp
  · intro h it hit hu
    have hf : l.find? (fun it => !it.2.removed && !it.2.corked) = none := by
      simpa using h
    have := List.find?_eq_none.mp hf it hit
    simp [hu.1, hu.2] at this

/-- C12: `bestPaSinkInput` returns the connected sink input when it is in the map and neither
removed nor corked; otherwise, when some sink input is neither removed nor corked, it returns
such a sink input of the map; otherwise it returns none. A returned sink input is never
removed or corked. -/
theorem bestPaSinkInput_order (paSinkInputs : List (Nat × PaSinkInput))
    (connectedPaSinkInput : Nat) :
    (∀ si, List.lookup connectedPaSinkInput paSinkInputs = some si →
        si.removed = false → si.corked = false →
        bestPaSinkInput paSinkInputs connectedPaSinkInput = some si) ∧
      ((∀ si, List.lookup connectedPaSinkInput paSinkInputs = some si →
          ¬ (si.removed = false ∧ si.corked = false)) →
        (∃ it ∈ paSinkInputs, it.2.removed = false ∧ it.2.corked = false) →
        ∃ it ∈ paSinkInputs, (it.2.removed = false ∧ it.2.corked = false) ∧
          bestPaSinkInput paSinkInputs connectedPaSinkInput = some it.2) ∧
      ((∀ it ∈ paSinkInputs, ¬ (it.2.removed = false ∧ it.2.corked = false)) →
        bestPaSinkInput paSinkInputs connectedPaSinkInput = none) ∧
      (∀ si, bestPaSinkInput paSinkInputs connectedPaSinkInput = some si →
        si.removed = false ∧ si.corked = false) := by
  obtain ⟨hsome, hnone⟩ := firstUsable_spec paSinkInputs
  refine ⟨?_, ?_, ?_, ?_⟩
  · intro si h hr hc
    simp [bestPaSinkInput, h, hr, hc]
  · intro hconn hex
    have hbest : bestPaSinkInput paSinkInputs connectedPaSinkInput =
        (paSinkInputs.find? (fun it => !it.2.removed && !it.2.corked)).map Prod.snd := by
      cases hl : List.lookup connectedPaSinkInput paSinkInputs with
      | none => simp [bestPaSinkInput, hl]
      | some si =>
        have hn := hconn si hl
        have hb : (!si.removed && !si.corked) = false := by
          cases hr : si.removed <;> cases hc : si.corked <;> simp_all
        simp [bestPaSinkInput, hl, hb]
    rw [hbest]
    cases hf : (paSinkInputs.find? (fun it => !it.2.removed && !it.2.corked)).map Prod.snd with
    | none =>
      obtain ⟨it, hit, hu⟩ := hex
      exact absurd hu (hnone hf it hit)
    | some si =>
      obtain ⟨it, hit, he, hu⟩ := hsome si hf
      exact ⟨it, hit, hu, by rw [he]⟩
  · intro hall
    have hf : (paSinkInputs.find? (fun it => !it.2.removed && !it.2.corked)).map Prod.snd
        = none := by
      cases hf : (paSinkInputs.find? (fun it => !it.2.removed && !it.2.corked)).map Prod.snd with
      | none => rfl
      | some si =>
        obtain ⟨it, hit, _, hu⟩ := hsome si hf
        exact absurd hu (hall it hit)
    cases hl : List.lookup connectedPaSinkInput paSinkInputs with
    | none => simp only [bestPaSinkInput, hl, hf]
    | some si =>
      have hn := hall _ (lookup_mem hl)
      have hb : (!si.removed && !si.corked) = false := by
        cases hr : si.removed <;> cases hc : si.corked <;> simp_all
      simp only [bestPaSinkInput, hl, hb, hf]
      simp
  · intro si h
    cases hl : List.lookup connectedPaSinkInput paSinkInputs with
    | none =>
      simp only [bestPaSinkInput, hl] at h
      obtain ⟨it, _, he, hu⟩ := hsome si h
      rw [← he]; exact hu
    | some sj =>
      by_cases hb : (!sj.removed && !sj.corked) = true
      · simp only [bestPaSinkInput, hl, hb, if_true, Option.some.injEq] at h
        subst h
        simpa using hb
      · simp only [bestPaSinkInput, hl, hb] at h
        obtain ⟨it, _, he, hu⟩ := hsome si (by simpa using h)
        rw [← he]; exact hu

end Caster

namespace Caster

/-- C15, as the claim states it, fails: the requested orientation InvertedPortrait is not Auto
and differs from the native orientation Portrait, yet nothing is attached to the stream. -/
theorem rotation_zero_not_attached :
    VideoOrientation.InvertedPortrait ≠ VideoOrientation.Auto ∧
      VideoOrientation.InvertedPortrait ≠ VideoOrientation.Portrait ∧
      setVideoStreamRotation .InvertedPortrait .Portrait none true = .ok none :=
  ⟨by decide, by decide, rfl⟩

/-- C15, amended: `setVideoStreamRotation` attaches display-matrix side data with the rotation
`(rot requested + rot native) mod 360` exactly when the requested orientation is not Auto,
differs from the native one and that rotation is not 0; it then throws if the stream has no
side data and none can be allocated. In every other case the side data of the stream is left
as it was. The rotation is 0 for distinct orientations, the requested one not Auto, exactly
for Portrait with InvertedPortrait, InvertedPortrait with Portrait, and Landscape with a
native Auto. -/
theorem setVideoStreamRotation_attaches (requestedOrientation o : VideoOrientation)
    (sideData : Option Int) (allocOk : Bool) :
    (orientationToRot .Landscape = 0 ∧ orientationToRot .Portrait = 90 ∧
      orientationToRot .InvertedLandscape = 180 ∧ orientationToRot .InvertedPortrait = 270) ∧
    setVideoStreamRotation requestedOrientation o sideData allocOk =
      (if requestedOrientation ≠ .Auto ∧ requestedOrientation ≠ o ∧
          (orientationToRot requestedOrientation + orientationToRot o) % 360 ≠ 0 then
        if sideData = none ∧ allocOk = false then
          .error "av_stream_new_side_data error".toList
        else .ok (some ((orientationToRot requestedOrientation + orientationToRot o) % 360))
      else .ok sideData) ∧
    ((requestedOrientation ≠ .Auto ∧ requestedOrientation ≠ o ∧
        (orientationToRot requestedOrientation + orientationToRot o) % 360 = 0) ↔
      ((requestedOrientation = .Portrait ∧ o = .InvertedPortrait) ∨
        (requestedOrientation = .InvertedPortrait ∧ o = .Portrait) ∨
        (requestedOrientation = .Landscape ∧ o = .Auto))) := by
  refine ⟨by decide, ?_, ?_⟩
  · cases sideData <;> cases allocOk <;> cases requestedOrientation <;> cases o <;> rfl
  · cases requestedOrientation <;> cases o <;> decide

/-- C16, as the claim states it, fails: for the detected sources named "a" and "b" the list
that `videoSources` returns is "a", "b", whose first name is not greater than or equal to its
second. -/
theorem videoSources_not_descending :
    ¬ List.Chain' (fun x y : VideoSourceProps => x.name ≥ y.name)
      (videoSources [("b".toList, { name := "b".toList }), ("a".toList, { name := "a".toList })])
      := by
  have e : videoSources
      [("b".toList, { name := "b".toList }), ("a".toList, { name := "a".toList })] =
      [{ name := "a".toList }, { name := "b".toList }] := by decide
  rw [e]
  simp only [List.chain'_cons, List.chain'_singleton, and_true]
  decide

/-- Sorting with `sortByName` orders a list by non-decreasing name and keeps its entries. -/
theorem stdSort_sortByName {Dev : Type} (name : Dev → List Char) (l : List Dev) :
    List.Pairwise (fun x y => name x ≤ name y) (stdSort (sortByName name) l) ∧
      (stdSort (sortByName name) l).Perm l := by
  have hr : ∀ a b : Dev, (sortByName name b a = false) ↔ name a ≤ name b := by
    intro a b
    simp [sortByName]
  haveI : IsTotal Dev (fun a b => sortByName name b a = false) :=
    ⟨fun a b => by rw [hr, hr]; exact le_total _ _⟩
  haveI : IsTrans Dev (fun a b => sortByName name b a = false) :=
    ⟨fun a b c h1 h2 => by rw [hr] at *; exact le_trans h1 h2⟩
  constructor
  · have hs := List.sorted_insertionSort (fun a b : Dev => sortByName name b a = false) l
    exact List.Pairwise.imp (fun h => (hr _ _).mp h) hs
  · exact List.perm_insertionSort _ l

/-- C16, amended: the lists that `videoSources` and `audioSources` return are sorted by name in
ascending order: the name of an entry is less than or equal to the name of every later entry,
in particular of the adjacent one. Each list holds the detected sources, rearranged. -/
theorem sources_sorted_ascending (vprops : List (List Char × VideoSourceProps))
    (aprops : List (List Char × AudioSourceProps)) :
    (List.Pairwise (fun x y : VideoSourceProps => x.name ≤ y.name) (videoSources vprops) ∧
      List.Chain' (fun x y : VideoSourceProps => x.name ≤ y.name) (videoSources vprops) ∧
      (videoSources vprops).Perm (vprops.map Prod.snd)) ∧
    (List.Pairwise (fun x y : AudioSourceProps => x.name ≤ y.name) (audioSources aprops) ∧
      List.Chain' (fun x y : AudioSourceProps => x.name ≤ y.name) (audioSources aprops) ∧
      (audioSources aprops).Perm (aprops.map Prod.snd)) := by
  have hv := stdSort_sortByName VideoSourceProps.name
    (vprops.map (fun p => ({ name := p.2.name, friendlyName := p.2.friendlyName } :
      VideoSourceProps)))
  have ha := stdSort_sortByName AudioSourceProps.name
    (aprops.map (fun p => ({ name := p.2.name, friendlyName := p.2.friendlyName } :
      AudioSourceProps)))
  have ev : (vprops.map (fun p => ({ name := p.2.name, friendlyName := p.2.friendlyName } :
      VideoSourceProps))) = vprops.map Prod.snd := List.map_congr_left (fun p _ => rfl)
  have ea : (aprops.map (fun p => ({ name := p.2.name, friendlyName := p.2.friendlyName } :
      AudioSourceProps))) = aprops.map Prod.snd := List.map_congr_left (fun p _ => rfl)
  refine ⟨⟨hv.1, List.Pairwise.chain' hv.1, ?_⟩, ⟨ha.1, List.Pairwise.chain' ha.1, ?_⟩⟩
  · rw [← ev]; exact hv.2
  · rw [← ea]; exact ha.2

end Caster

/-! ## Settings: URL parameters and the audio volume -/

namespace Kamkast

/-- The audio volume of the caster configuration is the one of the settings. -/
theorem startCasterConfig_audioVolume (config : Caster.Config) (appName : List Char)
    (settings : Settings) :
    (startCasterConfig config appName settings).audioVolume = settings.audioVolume := by
  unfold startCasterConfig
  simp only
  split_ifs <;> rfl

/-- The caster configuration carries the mute flag only if the settings ask for it or the
default configuration has it. -/
theorem startCasterConfig_mute (config : Caster.Config) (appName : List Char)
    (settings : Settings) :
    Caster.OptionsFlags.MuteAudioSource ∈ (startCasterConfig config appName settings).options ↔
      (settings.audioSourceMuted = true ∨ Caster.OptionsFlags.MuteAudioSource ∈ config.options)
    := by
  unfold startCasterConfig
  simp only
  split_ifs <;> simp_all

end Kamkast

namespace Settings

/-- For a value that is not negative the conversion to `int` is the floor. -/
theorem floatToInt_floor (f : ℚ) (h : 0 ≤ f) : floatToInt f = ⌊f⌋ := by
  unfold floatToInt
  rw [Rat.floor_def, Int.tdiv_eq_ediv (Rat.num_nonneg.mpr h) (Int.ofNat_nonneg _)]

/-- What `updateFromStr` stores for an audio volume between 0 and 100. -/
theorem updateFromStr_audioVolume (s : Settings) (value : List Char) (f : ℚ) (h0 : 0 ≤ f)
    (h1 : f ≤ 100) :
    updateFromStr s audioVolumeOpt value (some f) = { s with audioVolume := ⌊f⌋ } := by
  have hne : audioVolumeOpt ≠ audioSourceNameOpt := by decide
  simp [updateFromStr, hne, h0, h1, floatToInt_floor f h0]

/-- C17: `updateFromStr` has no branch for `audio-source-muted`, although the name is among
`urlOpts`: the call leaves the settings as they were, whatever the value, so the truthy
spelling "true" leaves `audioSourceMuted` false and the caster configuration built from the
settings does not carry the mute flag. -/
theorem audio_source_muted_ignored :
    audioSourceMutedOpt ∈ urlOpts ∧ "true".toList ∈ onValues ∧
      (∀ (s : Settings) (value : List Char) (fvalue : Option ℚ),
        updateFromStr s audioSourceMutedOpt value fvalue = s) ∧
      (updateFromStr exampleSettings "audio-source-muted".toList "true".toList
        none).audioSourceMuted = false ∧
      Caster.OptionsFlags.MuteAudioSource ∉
        (Kamkast.startCasterConfig exampleConfig "Kamkast".toList
          (updateFromStr exampleSettings "audio-source-muted".toList "true".toList
            none)).options := by
  have hall : ∀ (s : Settings) (value : List Char) (fvalue : Option ℚ),
      updateFromStr s audioSourceMutedOpt value fvalue = s := by
    intro s value fvalue
    have h1 : audioSourceMutedOpt ≠ audioSourceNameOpt := by decide
    have h2 : audioSourceMutedOpt ≠ audioVolumeOpt := by decide
    have h3 : audioSourceMutedOpt ≠ videoSourceNameOpt := by decide
    have h4 : audioSourceMutedOpt ≠ streamFormatOpt := by decide
    have h5 : audioSourceMutedOpt ≠ videoOrientationOpt := by decide
    simp [updateFromStr, h1, h2, h3, h4, h5]
  have he : updateFromStr exampleSettings "audio-source-muted".toList "true".toList none =
      exampleSettings := hall _ _ _
  refine ⟨by decide, by decide, hall, ?_, ?_⟩
  · rw [he]; rfl
  · rw [he, Kamkast.startCasterConfig_mute]
    decide

/-- C18: `Settings` accepts the audio volume 50, which is outside the range from 0 to 10:
`check` returns without throwing, `updateFromStr` stores 50 for the URL value "50", and the
caster configuration built from such settings is one that `Caster::configValid` rejects. -/
theorem audio_volume_fifty_accepted :
    check (fun _ => true) { exampleSettings with audioVolume := 50 } =
        .ok { exampleSettings with audioVolume := 50 } ∧
      (updateFromStr exampleSettings audioVolumeOpt "50".toList (some 50)).audioVolume = 50 ∧
      Caster.configValid ["test".toList] []
        (Kamkast.startCasterConfig exampleConfig "Kamkast".toList
          (updateFromStr exampleSettings audioVolumeOpt "50".toList (some 50))) = false := by
  have he : updateFromStr exampleSettings audioVolumeOpt "50".toList (some 50) =
      { exampleSettings with audioVolume := 50 } := by
    rw [updateFromStr_audioVolume _ _ 50 (by norm_num) (by norm_num)]
    norm_num
  refine ⟨rfl, ?_, ?_⟩
  · rw [he]
  · rw [he]
    decide

/-- C19: a fractional audio gain is not preserved: for the URL value "0.5" `updateFromStr`
stores the audio volume 0 in the `int` member, and `startCaster` copies 0 into the caster
configuration; a caster with volume 0 is silent. -/
theorem fractional_volume_lost :
    (updateFromStr exampleSettings audioVolumeOpt "0.5".toList (some (1 / 2))).audioVolume = 0 ∧
      (Kamkast.startCasterConfig exampleConfig "Kamkast".toList
        (updateFromStr exampleSettings audioVolumeOpt "0.5".toList
          (some (1 / 2)))).audioVolume = 0 := by
  have he : updateFromStr exampleSettings audioVolumeOpt "0.5".toList (some (1 / 2)) =
      { exampleSettings with audioVolume := 0 } := by
    rw [updateFromStr_audioVolume _ _ (1 / 2) (by norm_num) (by norm_num)]
    norm_num
  refine ⟨by rw [he], ?_⟩
  rw [Kamkast.startCasterConfig_audioVolume, he]
  rfl

end Settings

/-! ## Caster: video geometry -/

/-- Rounding does not go below an integer that the argument reaches. -/
theorem le_roundHalfEven (m : ℤ) (y : ℚ) (h : (m : ℚ) ≤ y) : m ≤ roundHalfEven y := by
  have hf : m ≤ ⌊y⌋ := Int.le_floor.mpr h
  unfold roundHalfEven
  simp only
  split_ifs <;> omega

/-- Rounding does not go above an integer that the argument does not exceed. -/
theorem roundHalfEven_le (m : ℤ) (y : ℚ) (h : y ≤ (m : ℚ)) : roundHalfEven y ≤ m := by
  rcases eq_or_lt_of_le h with he | hlt
  · have hf : ⌊y⌋ = m := by rw [he]; exact Int.floor_intCast m
    have h0 : y - ((⌊y⌋ : ℤ) : ℚ) < 1 / 2 := by rw [hf, he]; norm_num
    unfold roundHalfEven
    simp only [h0, if_true]
    omega
  · have hf : ⌊y⌋ < m := Int.floor_lt.mpr hlt
    unfold roundHalfEven
    simp only
    split_ifs <;> omega

/-- An integer is rounded to itself. -/
theorem roundHalfEven_intCast (m : ℤ) : roundHalfEven (m : ℚ) = m :=
  le_antisymm (roundHalfEven_le m _ le_rfl) (le_roundHalfEven m _ le_rfl)

/-- A real whose quotient by its unit in the last place is an integer is a `double`. -/
theorem roundDouble_of_intCast (x : ℚ) (m : ℤ)
    (h : x / 2 ^ (Int.log 2 |x| - 52) = (m : ℚ)) : roundDouble x = x := by
  unfold roundDouble
  split_ifs with h0
  · exact h0.symm
  · simp only
    rw [h, roundHalfEven_intCast, ← h]
    have hp : (2 : ℚ) ^ (Int.log 2 |x| - 52) ≠ 0 := zpow_ne_zero _ (by norm_num)
    field_simp

/-- A quarter of a natural number below `2 ^ 50` is a `double`. -/
theorem roundDouble_quarters (n : ℕ) (hn : n < 2 ^ 50) : roundDouble ((n : ℚ) / 4) = (n : ℚ) / 4 := by
  rcases Nat.eq_zero_or_pos n with h0 | hpos
  · subst h0; simp [roundDouble]
  · have hx : (0 : ℚ) < (n : ℚ) / 4 := by positivity
    have habs : |(n : ℚ) / 4| = (n : ℚ) / 4 := abs_of_pos hx
    have hlt : (n : ℚ) / 4 < ((2 : ℕ) : ℚ) ^ (48 : ℤ) := by
      have h1 : (n : ℚ) < (2 : ℚ) ^ 50 := by exact_mod_cast hn
      have h2 : ((2 : ℕ) : ℚ) ^ (48 : ℤ) = (2 : ℚ) ^ 50 / 4 := by norm_num
      rw [h2]
      exact div_lt_div_of_pos_right h1 (by norm_num)
    have he : Int.log 2 ((n : ℚ) / 4) < 48 := (Int.lt_zpow_iff_log_lt (by norm_num) hx).mp hlt
    obtain ⟨t, ht⟩ : ∃ t : ℕ, (t : ℤ) = 50 - Int.log 2 ((n : ℚ) / 4) :=
      ⟨(50 - Int.log 2 ((n : ℚ) / 4)).toNat, Int.toNat_of_nonneg (by omega)⟩
    apply roundDouble_of_intCast _ ((n : ℤ) * 2 ^ t)
    rw [habs]
    have e1 : Int.log 2 ((n : ℚ) / 4) - 52 = -((t : ℤ) + 2) := by omega
    rw [e1, zpow_neg, zpow_add₀ (by norm_num : (2 : ℚ) ≠ 0), zpow_natCast]
    push_cast
    field_simp
    ring

/-- Rounding of a real that is less than a half above an integer. -/
theorem roundHalfEven_of_lt_half (m : ℤ) (y : ℚ) (h1 : (m : ℚ) ≤ y) (h2 : y < m + 1 / 2) :
    roundHalfEven y = m := by
  have hf : ⌊y⌋ = m := Int.floor_eq_iff.mpr ⟨h1, by linarith⟩
  unfold roundHalfEven
  simp only [hf]
  rw [if_pos (by linarith)]

/-- The `double` quotient `16.0 / 9.0`: the significand is `16 / 9` rounded down. -/
theorem divDouble_16_9 : divDouble 16 9 = 8006399337547548 / 4503599627370496 := by
  have hx : (0 : ℚ) < 16 / 9 := by norm_num
  have hlog : Int.log 2 |(16 : ℚ) / 9| = 0 := by
    rw [abs_of_pos hx]
    apply le_antisymm
    · have : Int.log 2 ((16 : ℚ) / 9) < 1 :=
        (Int.lt_zpow_iff_log_lt (by norm_num) hx).mp (by norm_num)
      omega
    · exact (Int.zpow_le_iff_le_log (by norm_num) hx).mp (by norm_num)
  unfold divDouble roundDouble
  rw [if_neg (by norm_num)]
  simp only [hlog]
  rw [roundHalfEven_of_lt_half 8006399337547548 _ (by norm_num) (by norm_num)]
  norm_num

/-- The ceiling of the `double` product of `16.0 / 9.0` and a 32-bit height is the ceiling of
the exact quotient `16 * H / 9`. -/
theorem ceil_mulDouble_16_9 (H : ℕ) (hH : H < 2 ^ 32) :
    ⌈mulDouble (divDouble 16 9) (H : ℚ)⌉₊ = (16 * H + 8) / 9 := by
  rcases Nat.eq_zero_or_pos H with h0 | hpos
  · subst h0; simp [mulDouble, roundDouble]
  · rw [divDouble_16_9]
    obtain ⟨x, hxdef⟩ : ∃ x : ℚ, x = 8006399337547548 / 4503599627370496 * (H : ℚ) := ⟨_, rfl⟩
    obtain ⟨K, hK⟩ : ∃ K : ℕ, K = (16 * H + 8) / 9 := ⟨_, rfl⟩
    rw [← hK]
    have hK1 : 16 * H ≤ 9 * K := by omega
    have hK2 : 9 * K ≤ 16 * H + 8 := by omega
    have hKpos : K ≠ 0 := by omega
    have hHq : (1 : ℚ) ≤ H := by exact_mod_cast hpos
    have hHq2 : (H : ℚ) < 4294967296 := by exact_mod_cast hH
    have hK1q : 16 * (H : ℚ) ≤ 9 * K := by exact_mod_cast hK1
    have hK2q : 9 * (K : ℚ) ≤ 16 * H + 8 := by exact_mod_cast hK2
    have hxpos : 0 < x := by rw [hxdef]; positivity
    have hxK : x ≤ K := by rw [hxdef]; linarith
    have hxK' : (K : ℚ) - 1 + 1 / 1048576 ≤ x := by rw [hxdef]; linarith
    have hlt : x < ((2 : ℕ) : ℚ) ^ (33 : ℤ) := by
      have h2 : ((2 : ℕ) : ℚ) ^ (33 : ℤ) = 8589934592 := by norm_num
      rw [h2, hxdef]; linarith
    have he : Int.log 2 x < 33 := (Int.lt_zpow_iff_log_lt (by norm_num) hxpos).mp hlt
    obtain ⟨t, ht⟩ : ∃ t : ℕ, (t : ℤ) = 32 - Int.log 2 x :=
      ⟨(32 - Int.log 2 x).toNat, Int.toNat_of_nonneg (by omega)⟩
    obtain ⟨P, hP⟩ : ∃ P : ℕ, P = 2 ^ (t + 20) := ⟨_, rfl⟩
    have hulp : (2 : ℚ) ^ (Int.log 2 |x| - 52) = 1 / (P : ℚ) := by
      rw [abs_of_pos hxpos]
      have e1 : Int.log 2 x - 52 = -(((t + 20 : ℕ)) : ℤ) := by push_cast; omega
      rw [e1, zpow_neg, zpow_natCast, hP]
      push_cast
      simp
    have hP1n : 1048576 ≤ P := by
      rw [hP]
      calc 1048576 = 2 ^ 20 := by norm_num
        _ ≤ 2 ^ (t + 20) := Nat.pow_le_pow_right (by norm_num) (by omega)
    have hP1 : (1048576 : ℚ) ≤ P := by exact_mod_cast hP1n
    have hPpos : (0 : ℚ) < P := by linarith
    have hquot : x / (1 / (P : ℚ)) = x * P := by field_simp
    have hr1 : roundHalfEven (x * P) ≤ (K : ℤ) * (P : ℤ) := by
      apply roundHalfEven_le
      push_cast
      exact mul_le_mul_of_nonneg_right hxK hPpos.le
    have hr2 : ((K : ℤ) - 1) * (P : ℤ) + 1 ≤ roundHalfEven (x * P) := by
      apply le_roundHalfEven
      push_cast
      have h3 := mul_le_mul_of_nonneg_right hxK' hPpos.le
      have e3 : ((K : ℚ) - 1 + 1 / 1048576) * P = ((K : ℚ) - 1) * P + P / 1048576 := by ring
      rw [e3] at h3
      linarith
    have hr1q : ((roundHalfEven (x * P) : ℤ) : ℚ) ≤ (K : ℚ) * P := by exact_mod_cast hr1
    have hr2q : ((K : ℚ) - 1) * P + 1 ≤ ((roundHalfEven (x * P) : ℤ) : ℚ) := by
      exact_mod_cast hr2
    unfold mulDouble roundDouble
    rw [← hxdef, if_neg hxpos.ne']
    simp only [hulp, hquot]
    rw [Nat.ceil_eq_iff hKpos, Nat.cast_pred (Nat.pos_of_ne_zero hKpos)]
    constructor
    · rw [mul_one_div, lt_div_iff₀ hPpos]
      linarith
    · rw [mul_one_div, div_le_iff₀ hPpos]
      exact hr1q

/-- The `double` product of a 32-bit dimension and a scale factor is exact. -/
theorem mulDouble_dim (w k : ℕ) (hw : w < 2 ^ 32) (hk : k ≤ 4) :
    mulDouble (w : ℚ) ((k : ℚ) / 4) = (w : ℚ) * ((k : ℚ) / 4) := by
  have hn : w * k < 2 ^ 50 := by
    calc w * k ≤ w * 4 := Nat.mul_le_mul_left _ hk
      _ < 2 ^ 32 * 4 := by omega
      _ ≤ 2 ^ 50 := by norm_num
  have h := roundDouble_quarters (w * k) hn
  unfold mulDouble
  have e : (w : ℚ) * ((k : ℚ) / 4) = ((w * k : ℕ) : ℚ) / 4 := by push_cast; ring
  rw [e, h]

/-- The ceiling of the exact quotient `16 * H / 9`. -/
theorem ceil_16_9 (H : ℕ) : ⌈(16 * (H : ℚ) / 9)⌉₊ = (16 * H + 8) / 9 := by
  rcases Nat.eq_zero_or_pos H with h0 | hpos
  · subst h0; simp
  · obtain ⟨K, hK⟩ : ∃ K : ℕ, K = (16 * H + 8) / 9 := ⟨_, rfl⟩
    rw [← hK]
    have hK1 : 16 * H ≤ 9 * K := by omega
    have hK2 : 9 * K ≤ 16 * H + 8 := by omega
    have hKpos : K ≠ 0 := by omega
    have hK1q : 16 * (H : ℚ) ≤ 9 * K := by exact_mod_cast hK1
    have hK2q : 9 * (K : ℚ) ≤ 16 * H + 8 := by exact_mod_cast hK2
    rw [Nat.ceil_eq_iff hKpos, Nat.cast_pred (Nat.pos_of_ne_zero hKpos)]
    constructor
    · rw [lt_div_iff₀ (by norm_num)]; linarith
    · rw [div_le_iff₀ (by norm_num)]; linarith

namespace Caster

/-- The scale factors are quarters. -/
theorem specScaleFactor_quarters (scale : VideoScale) :
    ∃ k : ℕ, k ≤ 4 ∧ 1 ≤ k ∧ specScaleFactor scale = (k : ℚ) / 4 := by
  cases scale
  · exact ⟨4, by norm_num, by norm_num, by norm_num [specScaleFactor]⟩
  · exact ⟨3, by norm_num, by norm_num, by norm_num [specScaleFactor]⟩
  · exact ⟨2, by norm_num, by norm_num, by norm_num [specScaleFactor]⟩
  · exact ⟨1, by norm_num, by norm_num, by norm_num [specScaleFactor]⟩

/-- A scaled dimension is not larger than the dimension. -/
theorem ceil_scaled_le (w : ℕ) (scale : VideoScale) :
    ⌈(w : ℚ) * specScaleFactor scale⌉₊ ≤ w := by
  obtain ⟨k, hk, _, hf⟩ := specScaleFactor_quarters scale
  rw [Nat.ceil_le, hf]
  have hkq : (k : ℚ) ≤ 4 := by exact_mod_cast hk
  have hw : (0 : ℚ) ≤ w := Nat.cast_nonneg w
  have e : (w : ℚ) * ((k : ℚ) / 4) = (w : ℚ) * k / 4 := by ring
  rw [e, div_le_iff₀ (by norm_num)]
  nlinarith

/-- A value in the range of `uint32_t` is kept by the conversion. -/
theorem toUint32_of_lt {x : ℕ} (h : x < 2 ^ 32) : toUint32 x = x := Nat.mod_eq_of_lt h

/-- The conversion yields a value in the range of `uint32_t`. -/
theorem toUint32_lt (x : ℕ) : toUint32 x < 2 ^ 32 := Nat.mod_lt x (by norm_num)

/-- For 32-bit dimensions for which the width that the specification states fits `uint32_t`,
the `double` arithmetic of `computeTransDim` gives the dimension that the specification states
in exact arithmetic. -/
theorem computeTransDim_eq_of_fit (dim : Dim) (hw : dim.width < 2 ^ 32)
    (hh : dim.height < 2 ^ 32) (trans : VideoTrans) (scale : VideoScale) :
    (specTransDim dim trans scale).width < 2 ^ 32 →
      computeTransDim dim trans scale = specTransDim dim trans scale := by
  have hfac : (match scale with
      | .Off => (1 : ℚ)
      | .Down25 => 3 / 4
      | .Down50 => 1 / 2
      | .Down75 => 1 / 4) = specScaleFactor scale := by
    cases scale <;> norm_num [specScaleFactor]
  unfold computeTransDim specTransDim
  simp only [hfac]
  obtain ⟨f, hfdef⟩ : ∃ f : ℚ, f = specScaleFactor scale := ⟨_, rfl⟩
  obtain ⟨k, hk, _, hf⟩ := specScaleFactor_quarters scale
  have hm : max dim.width dim.height < 2 ^ 32 := max_lt hw hh
  have e1 := mulDouble_dim dim.width k hw hk
  have e2 := mulDouble_dim dim.height k hh hk
  have e3 := mulDouble_dim (max dim.width dim.height) k hm hk
  have hH : ⌈((max dim.width dim.height : ℕ) : ℚ) * specScaleFactor scale⌉₊ < 2 ^ 32 :=
    lt_of_le_of_lt (ceil_scaled_le _ scale) hm
  have e4 := ceil_mulDouble_16_9 _ hH
  have e5 := ceil_16_9 ⌈((max dim.width dim.height : ℕ) : ℚ) * specScaleFactor scale⌉₊
  have u1 := toUint32_of_lt (lt_of_le_of_lt (ceil_scaled_le dim.width scale) hw)
  have u2 := toUint32_of_lt (lt_of_le_of_lt (ceil_scaled_le dim.height scale) hh)
  have u3 := toUint32_of_lt hH
  have u4 : specEven
        ((16 * ⌈((max dim.width dim.height : ℕ) : ℚ) * specScaleFactor scale⌉₊ + 8) / 9) <
        2 ^ 32 →
      toUint32
        ((16 * ⌈((max dim.width dim.height : ℕ) : ℚ) * specScaleFactor scale⌉₊ + 8) / 9) =
      (16 * ⌈((max dim.width dim.height : ℕ) : ℚ) * specScaleFactor scale⌉₊ + 8) / 9 := by
    intro h
    apply toUint32_of_lt
    unfold specEven at h
    omega
  rw [← hf] at e1 e2 e3
  rw [← hfdef] at e1 e2 e3 e4 e5 u1 u2 u3 u4 ⊢
  intro hfit
  cases trans <;> simp only [e5] at hfit <;>
    first
    | (simp only [e1, e2, u1, u2, specEven]; done)
    | simp only [e3, u3, e4, u4 hfit, e5, specEven]

/-- For dimensions below `2 ^ 31` the width that the specification states fits `uint32_t`, and
for the transforms Off, Scale and Vflip it does so for all 32-bit dimensions. -/
theorem specTransDim_fits (dim : Dim) (hw : dim.width < 2 ^ 32)
    (trans : VideoTrans) (scale : VideoScale)
    (h : (dim.width < 2 ^ 31 ∧ dim.height < 2 ^ 31) ∨
      trans = .Off ∨ trans = .Scale ∨ trans = .Vflip) :
    (specTransDim dim trans scale).width < 2 ^ 32 := by
  have c1 : ⌈(dim.width : ℚ) * specScaleFactor scale⌉₊ < 2 ^ 32 :=
    lt_of_le_of_lt (ceil_scaled_le dim.width scale) hw
  have e5 := ceil_16_9 ⌈((max dim.width dim.height : ℕ) : ℚ) * specScaleFactor scale⌉₊
  have c3 := ceil_scaled_le (max dim.width dim.height) scale
  have hplain : specEven ⌈(dim.width : ℚ) * specScaleFactor scale⌉₊ < 2 ^ 32 := by
    unfold specEven
    omega
  have hframe : (dim.width < 2 ^ 31 ∧ dim.height < 2 ^ 31) →
      specEven ((16 * ⌈((max dim.width dim.height : ℕ) : ℚ) * specScaleFactor scale⌉₊ + 8) / 9)
        < 2 ^ 32 := by
    intro h31
    have hm : max dim.width dim.height < 2 ^ 31 := max_lt h31.1 h31.2
    unfold specEven
    omega
  rcases h with h31 | ht | ht | ht
  · cases trans <;> simp only [specTransDim, e5] <;>
      first
      | exact hplain
      | exact hframe h31
  · subst ht
    exact hplain
  · subst ht
    exact hplain
  · subst ht
    exact hplain

/-- Every width that `computeTransDim` returns is a `uint32_t` value. -/
theorem computeTransDim_width_lt (dim : Dim) (trans : VideoTrans) (scale : VideoScale) :
    (computeTransDim dim trans scale).width < 2 ^ 32 := by
  unfold computeTransDim
  cases trans <;> exact lt_of_le_of_lt (Nat.sub_le _ _) (toUint32_lt _)

/-- For dimensions below `2 ^ 31` the `double` arithmetic of `computeTransDim` gives the
dimension that the specification states in exact arithmetic, and every result fits
`uint32_t`. -/
theorem computeTransDim_eq (dim : Dim) (hw31 : dim.width < 2 ^ 31)
    (hh31 : dim.height < 2 ^ 31) (trans : VideoTrans) (scale : VideoScale) :
    computeTransDim dim trans scale = specTransDim dim trans scale :=
  computeTransDim_eq_of_fit dim (lt_trans hw31 (by norm_num)) (lt_trans hh31 (by norm_num))
    trans scale
    (specTransDim_fits dim (lt_trans hw31 (by norm_num)) trans scale (Or.inl ⟨hw31, hh31⟩))

/-- What `computeTransDim` returns for the transform Frame169 on 32-bit dimensions: the width
is the exact `ceil(16 * H / 9)` converted to `uint32_t`. -/
theorem computeTransDim_frame169 (dim : Dim) (hw : dim.width < 2 ^ 32)
    (hh : dim.height < 2 ^ 32) (scale : VideoScale) :
    computeTransDim dim .Frame169 scale =
      { width := specEven (toUint32
          ((16 * ⌈((max dim.width dim.height : ℕ) : ℚ) * specScaleFactor scale⌉₊ + 8) / 9)),
        height := specEven ⌈((max dim.width dim.height : ℕ) : ℚ) * specScaleFactor scale⌉₊ } := by
  have hfac : (match scale with
      | .Off => (1 : ℚ)
      | .Down25 => 3 / 4
      | .Down50 => 1 / 2
      | .Down75 => 1 / 4) = specScaleFactor scale := by
    cases scale <;> norm_num [specScaleFactor]
  unfold computeTransDim
  simp only [hfac]
  obtain ⟨f, hfdef⟩ : ∃ f : ℚ, f = specScaleFactor scale := ⟨_, rfl⟩
  obtain ⟨k, hk, _, hf⟩ := specScaleFactor_quarters scale
  have hm : max dim.width dim.height < 2 ^ 32 := max_lt hw hh
  have e3 := mulDouble_dim (max dim.width dim.height) k hm hk
  have hH : ⌈((max dim.width dim.height : ℕ) : ℚ) * specScaleFactor scale⌉₊ < 2 ^ 32 :=
    lt_of_le_of_lt (ceil_scaled_le _ scale) hm
  have e4 := ceil_mulDouble_16_9 _ hH
  have u3 := toUint32_of_lt hH
  rw [← hf] at e3
  rw [← hfdef] at e3 e4 u3 ⊢
  simp only [e3, u3, e4, specEven]

end Caster

namespace Caster

/-- Rounding down to even leaves a non-zero value exactly for arguments from 2 on. -/
theorem specEven_ne_zero (x : ℕ) : specEven x ≠ 0 ↔ 2 ≤ x := by
  unfold specEven
  omega

/-- A ceiling is at least 2 exactly when the argument exceeds 1. -/
theorem two_le_ceil (a : ℚ) : 2 ≤ ⌈a⌉₊ ↔ 1 < a := by
  have h := @Nat.lt_ceil ℚ _ _ a 1
  rw [Nat.cast_one] at h
  rw [← h]
  omega

/-- C13 as stated fails: for a source 3 000 000 000 pixels wide the Frame169 width that the
claim states, `even(ceil(16 * 3000000000 / 9)) = 5333333334`, is beyond the range of the
`uint32_t` result, so no result of `computeTransDim` equals it; the conversion of the `double`
to `uint32_t` leaves another width (1038366038 when it wraps). -/
theorem frame169_width_overflow :
    (3000000000 < 2 ^ 32 ∧ 1080 < 2 ^ 32) ∧
      specTransDim ⟨3000000000, 1080⟩ .Frame169 .Off = ⟨5333333334, 3000000000⟩ ∧
      computeTransDim ⟨3000000000, 1080⟩ .Frame169 .Off = ⟨1038366038, 3000000000⟩ ∧
      (computeTransDim ⟨3000000000, 1080⟩ .Frame169 .Off).width < 2 ^ 32 ∧
      ¬ (specTransDim ⟨3000000000, 1080⟩ .Frame169 .Off).width < 2 ^ 32 := by
  have h1 : ⌈(((max 3000000000 1080 : ℕ)) : ℚ) * specScaleFactor .Off⌉₊ = 3000000000 := by
    norm_num [specScaleFactor]
  have hs : specTransDim ⟨3000000000, 1080⟩ .Frame169 .Off = ⟨5333333334, 3000000000⟩ := by
    simp only [specTransDim, h1, ceil_16_9]
    rfl
  have hc : computeTransDim ⟨3000000000, 1080⟩ .Frame169 .Off =
      ⟨1038366038, 3000000000⟩ := by
    rw [computeTransDim_frame169 _ (by norm_num) (by norm_num)]
    simp only [h1]
    rfl
  refine ⟨⟨by norm_num, by norm_num⟩, hs, hc, ?_, ?_⟩
  · rw [hc]
    norm_num
  · rw [hs]
    norm_num

/-- C13, amended: for every input `(w, h)` of 32-bit values, `computeTransDim`, whose
arithmetic is that of `double`, returns what the specification states in exact arithmetic, for
Off, Scale and Vflip `(even(ceil(w*f)), even(ceil(h*f)))`, for every Frame169 variant height
`even(H)` and width `even(ceil(16*H/9))` with `H = ceil(max(w,h)*f)`, where `f` is 1, 0.75, 0.5
or 0.25 and `even(x) = x - (x mod 2)`, exactly when the width so stated fits the `uint32_t`
result. It does for Off, Scale and Vflip, and for every transform when the width and the
height are below `2 ^ 31`. Both output dimensions are always even. -/
theorem computeTransDim_spec (dim : Dim) (hw : dim.width < 2 ^ 32) (hh : dim.height < 2 ^ 32)
    (trans : VideoTrans) (scale : VideoScale) :
    (computeTransDim dim trans scale = specTransDim dim trans scale ↔
        (specTransDim dim trans scale).width < 2 ^ 32) ∧
      ((dim.width < 2 ^ 31 ∧ dim.height < 2 ^ 31) ∨
          trans = .Off ∨ trans = .Scale ∨ trans = .Vflip →
        computeTransDim dim trans scale = specTransDim dim trans scale) ∧
      (computeTransDim dim trans scale).width % 2 = 0 ∧
      (computeTransDim dim trans scale).height % 2 = 0 := by
  refine ⟨⟨fun h => ?_, computeTransDim_eq_of_fit dim hw hh trans scale⟩, fun h => ?_, ?_, ?_⟩
  · rw [← h]
    exact computeTransDim_width_lt dim trans scale
  · exact computeTransDim_eq_of_fit dim hw hh trans scale
      (specTransDim_fits dim hw trans scale h)
  · unfold computeTransDim
    cases trans <;> simp only <;> omega
  · unfold computeTransDim
    cases trans <;> simp only <;> omega

/-- C13, amended, on a 1920x1080 source framed to 16:9 and scaled down by a half: the height is
`ceil(1920 * 0.5) = 960` and the width `ceil(16 * 960 / 9) = 1707` rounded down to 1706. -/
theorem computeTransDim_spec_witness :
    (1920 < 2 ^ 32 ∧ 1080 < 2 ^ 32) ∧
      computeTransDim ⟨1920, 1080⟩ .Frame169 .Down50 = ⟨1706, 960⟩ ∧
      specTransDim ⟨1920, 1080⟩ .Frame169 .Down50 = ⟨1706, 960⟩ := by
  have hs : specTransDim ⟨1920, 1080⟩ .Frame169 .Down50 = ⟨1706, 960⟩ := by
    have h1 : ⌈(((max 1920 1080 : ℕ)) : ℚ) * specScaleFactor .Down50⌉₊ = 960 := by
      norm_num [specScaleFactor]
    simp only [specTransDim, h1, ceil_16_9]
    rfl
  have h := computeTransDim_spec ⟨1920, 1080⟩ (by norm_num) (by norm_num) .Frame169 .Down50
  exact ⟨⟨by norm_num, by norm_num⟩,
    (h.2.1 (Or.inl ⟨by norm_num, by norm_num⟩)).trans hs, hs⟩

/-- C14, as the claim states it, fails: with scale Down75 a 4x4 source gives 0x0 for the plain
transforms and 2x0 for the Frame169 ones, never 2x2, and a 1x1 source, whose width and height
are positive, gives 0x0 already without scaling. -/
theorem down75_four_by_four_zero :
    computeTransDim ⟨4, 4⟩ .Scale .Down75 = ⟨0, 0⟩ ∧
      computeTransDim ⟨4, 4⟩ .Frame169 .Down75 = ⟨2, 0⟩ ∧
      computeTransDim ⟨1, 1⟩ .Off .Off = ⟨0, 0⟩ := by
  have h1 : ⌈(((4 : ℕ)) : ℚ) * specScaleFactor .Down75⌉₊ = 1 := by
    norm_num [specScaleFactor]
  have h2 : ⌈(((max 4 4 : ℕ)) : ℚ) * specScaleFactor .Down75⌉₊ = 1 := by
    norm_num [specScaleFactor]
  have h3 : ⌈(((1 : ℕ)) : ℚ) * specScaleFactor .Off⌉₊ = 1 := by
    norm_num [specScaleFactor]
  refine ⟨?_, ?_, ?_⟩
  · rw [computeTransDim_eq _ (by norm_num) (by norm_num)]
    simp only [specTransDim, h1]
    rfl
  · rw [computeTransDim_eq _ (by norm_num) (by norm_num)]
    simp only [specTransDim, h2, ceil_16_9]
    rfl
  · rw [computeTransDim_eq _ (by norm_num) (by norm_num)]
    simp only [specTransDim, h3]
    rfl

/-- C14, amended: for a width and a height below `2 ^ 31` `computeTransDim` returns a non-zero
width and a non-zero height exactly when the scaled dimensions exceed one pixel: `w*f > 1` and
`h*f > 1` for Off, Scale and Vflip, `max(w,h)*f > 1` for the Frame169 variants. In particular
no output dimension is zero for a source that is at least 5 pixels wide and high. -/
theorem computeTransDim_nonzero_iff (dim : Dim) (hw31 : dim.width < 2 ^ 31)
    (hh31 : dim.height < 2 ^ 31) (trans : VideoTrans) (scale : VideoScale) :
    ((trans = .Off ∨ trans = .Scale ∨ trans = .Vflip) →
      (((computeTransDim dim trans scale).width ≠ 0 ∧
          (computeTransDim dim trans scale).height ≠ 0) ↔
        (1 < (dim.width : ℚ) * specScaleFactor scale ∧
          1 < (dim.height : ℚ) * specScaleFactor scale))) ∧
    (¬ (trans = .Off ∨ trans = .Scale ∨ trans = .Vflip) →
      (((computeTransDim dim trans scale).width ≠ 0 ∧
          (computeTransDim dim trans scale).height ≠ 0) ↔
        1 < ((max dim.width dim.height : ℕ) : ℚ) * specScaleFactor scale)) ∧
    (5 ≤ dim.width → 5 ≤ dim.height →
      (computeTransDim dim trans scale).width ≠ 0 ∧
        (computeTransDim dim trans scale).height ≠ 0) := by
  rw [computeTransDim_eq dim hw31 hh31 trans scale]
  have hplain : (trans = .Off ∨ trans = .Scale ∨ trans = .Vflip) →
      (((specTransDim dim trans scale).width ≠ 0 ∧ (specTransDim dim trans scale).height ≠ 0) ↔
        (1 < (dim.width : ℚ) * specScaleFactor scale ∧
          1 < (dim.height : ℚ) * specScaleFactor scale)) := by
    intro ht
    rcases ht with ht | ht | ht <;> subst ht <;>
      simp only [specTransDim, specEven_ne_zero, two_le_ceil]
  have hframe : ¬ (trans = .Off ∨ trans = .Scale ∨ trans = .Vflip) →
      (((specTransDim dim trans scale).width ≠ 0 ∧ (specTransDim dim trans scale).height ≠ 0) ↔
        1 < ((max dim.width dim.height : ℕ) : ℚ) * specScaleFactor scale) := by
    intro ht
    have key : ∀ H : ℕ, (specEven ⌈(16 * (H : ℚ) / 9)⌉₊ ≠ 0 ∧ specEven H ≠ 0) ↔ 2 ≤ H := by
      intro H
      rw [ceil_16_9, specEven_ne_zero, specEven_ne_zero]
      omega
    cases trans
    case Off => exact absurd (Or.inl rfl) ht
    case Scale => exact absurd (Or.inr (Or.inl rfl)) ht
    case Vflip => exact absurd (Or.inr (Or.inr rfl)) ht
    all_goals simp only [specTransDim, key, two_le_ceil]
  refine ⟨hplain, hframe, ?_⟩
  intro h5w h5h
  obtain ⟨k, hk, hk1, hf⟩ := specScaleFactor_quarters scale
  have hkq : (1 : ℚ) ≤ k := by exact_mod_cast hk1
  have hwq : (5 : ℚ) ≤ dim.width := by exact_mod_cast h5w
  have hhq : (5 : ℚ) ≤ dim.height := by exact_mod_cast h5h
  have hmq : (5 : ℚ) ≤ ((max dim.width dim.height : ℕ) : ℚ) := by
    exact_mod_cast le_trans h5w (le_max_left _ _)
  have big : ∀ x : ℚ, 5 ≤ x → 1 < x * specScaleFactor scale := by
    intro x hx
    rw [hf]
    have : x * 1 ≤ x * (k : ℚ) := mul_le_mul_of_nonneg_left hkq (by linarith)
    have e : x * ((k : ℚ) / 4) = x * k / 4 := by ring
    rw [e, lt_div_iff₀ (by norm_num)]
    linarith
  by_cases ht : trans = .Off ∨ trans = .Scale ∨ trans = .Vflip
  · exact (hplain ht).mpr ⟨big _ hwq, big _ hhq⟩
  · exact (hframe ht).mpr (big _ hmq)

/-- C14, amended, on a 4x4 source: with Down75 the scaled dimension is exactly one pixel, so an
output dimension is zero; with Down50 both are non-zero. -/
theorem computeTransDim_nonzero_iff_witness :
    (4 < 2 ^ 31) ∧
      ¬ ((computeTransDim ⟨4, 4⟩ .Scale .Down75).width ≠ 0 ∧
        (computeTransDim ⟨4, 4⟩ .Scale .Down75).height ≠ 0) ∧
      ((computeTransDim ⟨4, 4⟩ .Scale .Down50).width ≠ 0 ∧
        (computeTransDim ⟨4, 4⟩ .Scale .Down50).height ≠ 0) := by
  refine ⟨by norm_num, ?_, ?_⟩
  · rw [(computeTransDim_nonzero_iff ⟨4, 4⟩ (by norm_num) (by norm_num) .Scale .Down75).1
      (Or.inr (Or.inl rfl))]
    norm_num [specScaleFactor]
  · rw [(computeTransDim_nonzero_iff ⟨4, 4⟩ (by norm_num) (by norm_num) .Scale .Down50).1
      (Or.inr (Or.inl rfl))]
    norm_num [specScaleFactor]

end Caster

namespace Caster

/-- C12 on a map with the sink inputs 7 (corked), 8 and 9 (removed): while 8 is connected it is
kept; while 7 is connected the usable sink input 8 is returned; of the sink inputs 7 and 9
alone none is returned. -/
theorem bestPaSinkInput_order_witness :
    bestPaSinkInput
        [(7, { idx := 7, corked := true }), (8, { idx := 8 }), (9, { idx := 9, removed := true })]
        8 = some { idx := 8 } ∧
      (∃ it ∈ [(7, ({ idx := 7, corked := true } : PaSinkInput)), (8, { idx := 8 }),
            (9, { idx := 9, removed := true })],
        (it.2.removed = false ∧ it.2.corked = false) ∧
          bestPaSinkInput
            [(7, { idx := 7, corked := true }), (8, { idx := 8 }),
              (9, { idx := 9, removed := true })] 7 = some it.2) ∧
      bestPaSinkInput [(7, { idx := 7, corked := true }), (9, { idx := 9, removed := true })] 7
        = none :=
  ⟨(bestPaSinkInput_order _ 8).1 { idx := 8 } rfl rfl rfl,
   (bestPaSinkInput_order _ 7).2.1 (by decide) ⟨(8, { idx := 8 }), by decide, by decide⟩,
   (bestPaSinkInput_order _ 7).2.2.1 (by decide)⟩

end Caster

/-! ## Strings: trimming -/

/-- Dropping from a list that does not start with a character to drop changes nothing. -/
theorem dropWhile_of_head_not {p : Char → Bool} :
    ∀ {l : List Char}, (∀ c, l.head? = some c → p c = false) → l.dropWhile p = l
  | [], _ => rfl
  | c :: l, h => by
    have hc : p c = false := h c rfl
    simp [List.dropWhile, hc]

/-- The first character that `dropWhile` leaves is not one to drop. -/
theorem head_dropWhile_false (p : Char → Bool) (l : List Char) :
    ∀ c, (l.dropWhile p).head? = some c → p c = false := by
  intro c hc
  have h := List.head?_dropWhile_not p l
  rw [hc] at h
  simpa using h

/-- The shape of `trimmed`: the characters to strip are dropped from the front, then from the
end of what is left. -/
theorem trimmed_eq (s : List Char) (ach : Char) :
    trimmed s ach =
      ((s.dropWhile (fun ch => !(!isspace ch && ch != ach))).reverse.dropWhile
        (fun ch => !(!isspace ch && ch != ach))).reverse := rfl

/-- C23: `trimmed` is idempotent, and `trimmed s ach` is `s` without its longest prefix of
characters that are whitespace or `ach` and without the longest such suffix of what is left:
`s` is the removed prefix, the trimmed string and the removed suffix put together, every
removed character is whitespace or `ach`, and the trimmed string neither begins nor ends with
such a character. -/
theorem trimmed_idempotent (s : List Char) (ach : Char) :
    trimmed (trimmed s ach) ach = trimmed s ach ∧
      (∃ pre suf : List Char, s = pre ++ trimmed s ach ++ suf ∧
        (∀ c ∈ pre, isspace c = true ∨ c = ach) ∧
        (∀ c ∈ suf, isspace c = true ∨ c = ach) ∧
        (trimmed s ach = [] → suf = [])) ∧
      (∀ c, (trimmed s ach).head? = some c → ¬ (isspace c = true ∨ c = ach)) ∧
      (∀ c, (trimmed s ach).getLast? = some c → ¬ (isspace c = true ∨ c = ach)) := by
  obtain ⟨p, hp⟩ : ∃ p : Char → Bool, p = (fun ch => !(!isspace ch && ch != ach)) := ⟨_, rfl⟩
  have hstrip : ∀ c, p c = true ↔ (isspace c = true ∨ c = ach) := by
    intro c
    rw [hp]
    cases h : isspace c <;> by_cases h2 : c = ach <;> simp [h, h2]
  have hstripf : ∀ c, p c = false → ¬ (isspace c = true ∨ c = ach) := by
    intro c hc h
    rw [(hstrip c).mpr h] at hc
    exact Bool.noConfusion hc
  obtain ⟨r, hr⟩ : ∃ r, r = s.dropWhile p := ⟨_, rfl⟩
  have ht : trimmed s ach = (r.reverse.dropWhile p).reverse := by
    rw [trimmed_eq, ← hp, ← hr]
  -- the rest is the trimmed string followed by the removed suffix
  have hsplit : r = (r.reverse.dropWhile p).reverse ++ (r.reverse.takeWhile p).reverse := by
    have h := List.takeWhile_append_dropWhile p r.reverse
    have h2 := congrArg List.reverse h
    rw [List.reverse_append, List.reverse_reverse] at h2
    exact h2.symm
  have hlast : ∀ c, (trimmed s ach).getLast? = some c → p c = false := by
    intro c hc
    rw [ht, List.getLast?_reverse] at hc
    exact head_dropWhile_false p _ c hc
  have hhead : ∀ c, (trimmed s ach).head? = some c → p c = false := by
    intro c hc
    apply head_dropWhile_false p s c
    rw [← hr, hsplit, ← ht]
    cases htr : trimmed s ach with
    | nil => rw [htr] at hc; simp at hc
    | cons a l => rw [htr] at hc; simpa using hc
  refine ⟨?_, ⟨s.takeWhile p, (r.reverse.takeWhile p).reverse, ?_, ?_, ?_, ?_⟩, ?_, ?_⟩
  · -- idempotence
    rw [trimmed_eq (trimmed s ach) ach, ← hp, dropWhile_of_head_not hhead, ht,
      List.reverse_reverse, List.dropWhile_idempotent]
  · rw [ht, List.append_assoc, ← hsplit, hr, List.takeWhile_append_dropWhile]
  · intro c hc
    exact (hstrip c).mp (List.mem_takeWhile_imp hc)
  · intro c hc
    exact (hstrip c).mp (List.mem_takeWhile_imp (List.mem_reverse.mp hc))
  · intro hnil
    rw [ht, List.reverse_eq_nil_iff, List.dropWhile_eq_nil_iff] at hnil
    have hall : ∀ x ∈ r, p x = true := fun x hx => hnil x (List.mem_reverse.mpr hx)
    have hrnil : r = [] := by
      cases hrc : r with
      | nil => rfl
      | cons a l =>
        have h1 := head_dropWhile_false p s a (by rw [← hr, hrc]; rfl)
        have h2 := hall a (by rw [hrc]; exact List.mem_cons_self _ _)
        rw [h1] at h2
        exact Bool.noConfusion h2
    rw [hrnil]
    rfl
  · intro c hc
    exact hstripf c (hhead c hc)
  · intro c hc
    exact hstripf c (hlast c hc)

/-! ## Caster: video sample statistics -/

namespace Caster

/-- C28 as stated fails: at 30 frames per second the nominal frame duration is 33333
microseconds. After a frame that came 100 ms after its predecessor, the next frame comes 10 ms
later: there is a previous frame and 10000 is at least a quarter of the nominal duration
(8333), yet the real frame duration stays 100000. -/
theorem quarter_of_real_duration :
    (initAvVideoDurations {} 30).videoRealFrameDuration = 33333 ∧
      exampleSlowFrame.videoTimeLastFrame > 0 ∧
      1010000 - exampleSlowFrame.videoTimeLastFrame ≥ 33333 / 4 ∧
      exampleSlowFrame.videoRealFrameDuration = 100000 ∧
      (updateVideoSampleStats exampleSlowFrame 1010000).videoRealFrameDuration = 100000 := by
  decide

/-- C28, amended: `updateVideoSampleStats now` replaces the real frame duration by the time
elapsed since the previous frame exactly when a previous frame exists (the last-frame time is
positive) and the elapsed time is at least a quarter, rounded towards zero, of the current
real frame duration; otherwise the real frame duration is unchanged. In every case the
last-frame time becomes `now` and nothing else changes. The real frame duration starts as the
nominal one, `rescaleToUsec 1 (1 / framerate)`. -/
theorem updateVideoSampleStats_spec (s : AvState) (now : Int) (videoFramerate : Int) :
    updateVideoSampleStats s now =
        { s with
          videoRealFrameDuration :=
            if s.videoTimeLastFrame > 0 ∧
                now - s.videoTimeLastFrame ≥ Int.tdiv s.videoRealFrameDuration 4 then
              now - s.videoTimeLastFrame
            else s.videoRealFrameDuration
          videoTimeLastFrame := now } ∧
      (initAvVideoDurations s videoFramerate).videoRealFrameDuration =
        rescaleToUsec 1 ⟨1, videoFramerate⟩ := by
  refine ⟨?_, rfl⟩
  unfold updateVideoSampleStats
  by_cases h1 : s.videoTimeLastFrame > 0
  · by_cases h2 : now - s.videoTimeLastFrame ≥ Int.tdiv s.videoRealFrameDuration 4
    · simp [h1, h2]
    · simp [h1, h2]
  · simp [h1]

end Caster

/-! ## Settings: the configuration file -/

namespace Settings

/-- A decimal digit character is a digit with its value, no blank and no sign. -/
theorem digitChar_good (k : ℕ) (h : k < 10) :
    (Nat.digitChar k).isDigit = true ∧ (Nat.digitChar k).toNat - '0'.toNat = k ∧
      isspace (Nat.digitChar k) = false ∧ Nat.digitChar k ≠ '-' ∧ Nat.digitChar k ≠ '+' := by
  interval_cases k <;> decide

/-- The digits that `Nat.toDigitsCore` puts in front of its accumulator. -/
theorem toDigitsCore_spec :
    ∀ (fuel n : ℕ) (ds : List Char), n < fuel →
      ∃ pre : List Char, Nat.toDigitsCore 10 fuel n ds = pre ++ ds ∧ pre ≠ [] ∧
        (∀ c ∈ pre, c.isDigit = true ∧ isspace c = false ∧ c ≠ '-' ∧ c ≠ '+') ∧
        pre.foldl (fun acc c => acc * 10 + (c.toNat - '0'.toNat)) 0 = n
  | 0, n, ds, h => absurd h (Nat.not_lt_zero n)
  | fuel + 1, n, ds, h => by
    have hd := digitChar_good (n % 10) (Nat.mod_lt n (by norm_num))
    by_cases h0 : n / 10 = 0
    · refine ⟨[Nat.digitChar (n % 10)], ?_, by simp, ?_, ?_⟩
      · simp [Nat.toDigitsCore, h0]
      · intro c hc
        rw [List.mem_singleton] at hc
        subst hc
        exact ⟨hd.1, hd.2.2.1, hd.2.2.2.1, hd.2.2.2.2⟩
      · simp only [List.foldl, zero_mul, zero_add, hd.2.1]
        omega
    · have hlt : n / 10 < fuel := by omega
      obtain ⟨pre, hpre, hne, hgood, hval⟩ :=
        toDigitsCore_spec fuel (n / 10) (Nat.digitChar (n % 10) :: ds) hlt
      refine ⟨pre ++ [Nat.digitChar (n % 10)], ?_, by simp, ?_, ?_⟩
      · simp [Nat.toDigitsCore, h0, hpre]
      · intro c hc
        rw [List.mem_append, List.mem_singleton] at hc
        rcases hc with hc | hc
        · exact hgood c hc
        · subst hc
          exact ⟨hd.1, hd.2.2.1, hd.2.2.2.1, hd.2.2.2.2⟩
      · rw [List.foldl_append, hval]
        simp only [List.foldl, hd.2.1]
        omega

/-- Reading back with `stoi` what `to_string` wrote for a number of the `int` range that is
not negative. -/
theorem stoi_to_string (n : Int) (h0 : 0 ≤ n) (h1 : n < 2 ^ 31) : stoi (to_string n) = some n := by
  obtain ⟨m, rfl⟩ := Int.eq_ofNat_of_zero_le h0
  have hstr : to_string (m : Int) = Nat.toDigitsCore 10 (m + 1) m [] := by
    simp [to_string, Nat.toDigits]
  obtain ⟨pre, hpre, hne, hgood, hval⟩ := toDigitsCore_spec (m + 1) m [] (Nat.lt_succ_self m)
  rw [List.append_nil] at hpre
  rw [hstr, hpre]
  obtain ⟨c, rest, rfl⟩ := List.exists_cons_of_ne_nil hne
  have hc := hgood c (List.mem_cons_self _ _)
  have hdrop : (c :: rest).dropWhile isspace = c :: rest := by
    simp [List.dropWhile, hc.2.1]
  have htake : (c :: rest).takeWhile Char.isDigit = c :: rest :=
    List.takeWhile_eq_self_iff.mpr (fun x hx => (hgood x hx).1)
  have hmatch : (match c :: rest with
      | '-' :: t => (true, t)
      | '+' :: t => (false, t)
      | _ => (false, c :: rest)) = (false, c :: rest) := by
    split
    · rename_i heq
      exact absurd (List.cons.inj heq).1 hc.2.2.1
    · rename_i heq
      exact absurd (List.cons.inj heq).1 hc.2.2.2
    · rfl
  unfold stoi
  simp only [hdrop, hmatch, htake, hval]
  have hm : m < 2147483648 := by
    norm_num at h1
    exact h1
  simp
  constructor <;> omega

/-- Reading back with `to_bool` what `saveToFile` wrote for a `bool`. -/
theorem to_bool_boolToString (b : Bool) : to_bool (boolToString b) = b := by
  cases b <;> decide

end Settings

namespace Settings

/-- What passing `check` tells about the settings checked. -/
theorem check_ok_facts (fileWrittable : List Char → Bool) (cfg s' : Settings)
    (h : check fileWrittable cfg = .ok s') :
    cfg.urlPath ≠ [] ∧ (0 ≤ cfg.port ∧ cfg.port ≤ 65535) ∧ cfg.videoEncoder ≠ none ∧
      cfg.streamFormat ≠ none ∧ cfg.videoOrientation ≠ none ∧
      (0 ≤ cfg.audioVolume ∧ cfg.audioVolume ≤ 100) := by
  unfold check at h
  dsimp only at h
  by_cases h1 : (trim cfg.urlPath '/').isEmpty = true
  · rw [if_pos h1] at h; cases h
  rw [if_neg h1] at h
  by_cases h2 : (decide (cfg.port < 0) || decide (cfg.port > 65535)) = true
  · rw [if_pos h2] at h; cases h
  rw [if_neg h2] at h
  by_cases h3 : cfg.videoEncoder.isNone = true
  · rw [if_pos h3] at h; cases h
  rw [if_neg h3] at h
  by_cases h4 : cfg.streamFormat.isNone = true
  · rw [if_pos h4] at h; cases h
  rw [if_neg h4] at h
  have h5 : ¬ ((decide (cfg.audioVolume < 0) || decide (cfg.audioVolume > 100)) = true) := by
    intro h5
    by_cases hv : trim cfg.videoSourceName '\x00' ∈ offValues <;>
      by_cases ha : trim cfg.audioSourceName '\x00' ∈ offValues <;>
      simp only [hv, ha, if_true, if_false, h5] at h <;> cases h
  have h6 : ¬ (cfg.videoOrientation.isNone = true) := by
    intro h6
    by_cases hv : trim cfg.videoSourceName '\x00' ∈ offValues <;>
      by_cases ha : trim cfg.audioSourceName '\x00' ∈ offValues <;>
      simp only [hv, ha, if_true, if_false, h5, h6] at h <;> cases h
  refine ⟨?_, ?_, ?_, ?_, ?_, ?_⟩
  · intro he
    apply h1
    rw [he]
    rfl
  · simp only [Bool.or_eq_true, decide_eq_true_eq, not_or, not_lt] at h2
    exact ⟨h2.1, by have := h2.2; omega⟩
  · intro he; rw [he] at h3; exact h3 rfl
  · intro he; rw [he] at h4; exact h4 rfl
  · intro he; rw [he] at h6; exact h6 rfl
  · simp only [Bool.or_eq_true, decide_eq_true_eq, not_or, not_lt] at h5
    exact ⟨h5.1, by have := h5.2; omega⟩

/-- With a video encoder, stream format or video orientation that is not set, `check` throws. -/
theorem check_error_of_none (fileWrittable : List Char → Bool) (s : Settings)
    (h : s.videoEncoder = none ∨ s.streamFormat = none ∨ s.videoOrientation = none) :
    ∃ e, check fileWrittable s = .error e := by
  cases hc : check fileWrittable s with
  | error e => exact ⟨e, rfl⟩
  | ok s' =>
    have hf := check_ok_facts fileWrittable s s' hc
    rcases h with h | h | h
    · exact absurd h hf.2.2.1
    · exact absurd h hf.2.2.2.1
    · exact absurd h hf.2.2.2.2.1

end Settings

namespace Settings

/-- The round trip of the three enumerations through the section. -/
theorem enum_round_trip (cfg : Settings) (h1 : cfg.videoEncoder ≠ none)
    (h2 : cfg.streamFormat ≠ none) (h3 : cfg.videoOrientation ≠ none) :
    videoEncoderFromStr (videoEncoderToStr cfg) = cfg.videoEncoder ∧
      streamFormatFromStr (streamFormatToStr cfg) = cfg.streamFormat ∧
      videoOrientationFromStr (videoOrientationToStr cfg) = cfg.videoOrientation := by
  refine ⟨?_, ?_, ?_⟩
  · cases h : cfg.videoEncoder with
    | none => exact absurd h h1
    | some x => cases x <;> simp [videoEncoderToStr, h] <;> rfl
  · cases h : cfg.streamFormat with
    | none => exact absurd h h2
    | some x => cases x <;> simp [streamFormatToStr, h] <;> rfl
  · cases h : cfg.videoOrientation with
    | none => exact absurd h h3
    | some x => cases x <;> simp [videoOrientationToStr, h] <;> rfl

/-- Loading the section that `saveToFile` wrote for valid settings `cfg` gives `cfg` in all
members that are saved; the members that are not saved keep the values of the settings that
load. -/
theorem loadFromFile_saveToFile_eq (cfg s0 : Settings) (randStr : List Char)
    (stof : List Char → Option ℚ) (fileWrittable : List Char → Bool)
    (hvalid : ∃ s', check fileWrittable cfg = .ok s')
    (hstof : ∀ n : ℕ, n ≤ 100 → stof (to_string (n : Int)) = some (n : ℚ)) :
    loadFromFile s0 (some (saveToFile cfg)) randStr stof =
      { cfg with
        debug := s0.debug, debugFile := s0.debugFile, gui := s0.gui
        configFile := s0.configFile, audioSourceMuted := s0.audioSourceMuted } := by
  obtain ⟨s', hs'⟩ := hvalid
  obtain ⟨hurl, hport, hve, hsf, hvo, hvol⟩ := check_ok_facts fileWrittable cfg s' hs'
  obtain ⟨e1, e2, e3⟩ := enum_round_trip cfg hve hsf hvo
  have eport : to_int (to_string cfg.port) = cfg.port := by
    rw [to_int, stoi_to_string cfg.port hport.1 (by have := hport.2; omega)]
    rfl
  have evol : floatToInt (to_float stof (to_string cfg.audioVolume)) = cfg.audioVolume := by
    obtain ⟨m, hm⟩ := Int.eq_ofNat_of_zero_le hvol.1
    have hm100 : m ≤ 100 := by have := hvol.2; omega
    rw [hm, to_float, hstof m hm100]
    simp [floatToInt]
  have eurl : (if cfg.urlPath.isEmpty = true then randStr else cfg.urlPath) = cfg.urlPath := by
    cases hu : cfg.urlPath with
    | nil => exact absurd hu hurl
    | cons a l => rfl
  have hlook : List.lookup sectionName (saveToFile cfg) = some (generalSection cfg) := rfl
  have f1 : fromSection (generalSection cfg) urlPathOpt id s0.urlPath = cfg.urlPath := rfl
  have f2 : fromSection (generalSection cfg) debugOpt to_bool s0.debug = s0.debug := rfl
  have f3 : fromSection (generalSection cfg) debugFileOpt id s0.debugFile = s0.debugFile := rfl
  have f4 : fromSection (generalSection cfg) guiOpt to_bool s0.gui = s0.gui := rfl
  have f5 : fromSection (generalSection cfg) addressOpt id s0.address = cfg.address := rfl
  have f6 : fromSection (generalSection cfg) ifnameOpt id s0.ifname = cfg.ifname := rfl
  have f7 : fromSection (generalSection cfg) portOpt to_int s0.port =
      to_int (to_string cfg.port) := rfl
  have f8 : fromSection (generalSection cfg) videoEncoderOpt videoEncoderFromStr
      s0.videoEncoder = videoEncoderFromStr (videoEncoderToStr cfg) := rfl
  have f9 : fromSection (generalSection cfg) (DEFAULT_OPT streamFormatOpt) streamFormatFromStr
      s0.streamFormat = streamFormatFromStr (streamFormatToStr cfg) := rfl
  have f10 : fromSection (generalSection cfg) (DEFAULT_OPT videoSourceNameOpt) id
      s0.videoSourceName = cfg.videoSourceName := rfl
  have f11 : fromSection (generalSection cfg) (DEFAULT_OPT audioSourceNameOpt) id
      s0.audioSourceName = cfg.audioSourceName := rfl
  have f12 : fromSection (generalSection cfg) (DEFAULT_OPT audioVolumeOpt)
      (fun str => floatToInt (to_float stof str)) s0.audioVolume =
      floatToInt (to_float stof (to_string cfg.audioVolume)) := rfl
  have f13 : fromSection (generalSection cfg) (DEFAULT_OPT videoOrientationOpt)
      videoOrientationFromStr s0.videoOrientation =
      videoOrientationFromStr (videoOrientationToStr cfg) := rfl
  have f14 : fromSection (generalSection cfg) ignoreUrlParamsOpt to_bool s0.ignoreUrlParams =
      to_bool (boolToString cfg.ignoreUrlParams) := rfl
  have f15 : fromSection (generalSection cfg) disableWebUiOpt to_bool s0.disableWebUi =
      to_bool (boolToString cfg.disableWebUi) := rfl
  have f16 : fromSection (generalSection cfg) disableCtrlApiOpt to_bool s0.disableCtrlApi =
      to_bool (boolToString cfg.disableCtrlApi) := rfl
  have f17 : fromSection (generalSection cfg) logRequestsOpt to_bool s0.logRequests =
      to_bool (boolToString cfg.logRequests) := rfl
  have f18 : fromSection (generalSection cfg) logFileOpt id s0.logFile = cfg.logFile := rfl
  unfold loadFromFile
  simp only [hlook, f1, f2, f3, f4, f5, f6, f7, f8, f9, f10, f11, f12, f13, f14, f15, f16, f17,
    f18, eurl, eport, evol, e1, e2, e3, to_bool_boolToString]

end Settings

namespace Settings

/-- The example reading of numbers reads what `to_string` writes. -/
theorem exampleStof_to_string (n : ℕ) (h : n ≤ 100) :
    exampleStof (to_string (n : Int)) = some (n : ℚ) := by
  unfold exampleStof
  rw [stoi_to_string (n : Int) (Int.ofNat_nonneg n) (by norm_num; omega)]
  simp

/-- C21 as stated fails: the valid settings of a run with `--debug` are saved, and loading the
saved section into the settings of a run with the default options does not give them back:
`debug` is not written to the file. -/
theorem debug_not_saved :
    check (fun _ => true) exampleDebugSettings = .ok exampleDebugSettings ∧
      loadFromFile (loadFromOpts {} "abcde".toList) (some (saveToFile exampleDebugSettings)) []
        exampleStof ≠ exampleDebugSettings := by
  refine ⟨rfl, ?_⟩
  intro h
  have hd := congrArg Settings.debug h
  exact Bool.noConfusion hd

/-- C21, amended: for valid settings `cfg` (settings that pass `check`), loading with
`loadFromFile` the section written by `saveToFile cfg` gives `cfg` in every member that is
written; `debug`, `debugFile`, `gui`, `configFile` and `audioSourceMuted` are not written and
keep the values of the settings that load. Loading into `cfg` itself gives `cfg`. The library
function `stof` is taken to read the decimal integers up to 100 exactly. -/
theorem config_round_trip (cfg s0 : Settings) (randStr : List Char)
    (stof : List Char → Option ℚ) (fileWrittable : List Char → Bool)
    (hvalid : ∃ s', check fileWrittable cfg = .ok s')
    (hstof : ∀ n : ℕ, n ≤ 100 → stof (to_string (n : Int)) = some (n : ℚ)) :
    loadFromFile s0 (some (saveToFile cfg)) randStr stof =
        { cfg with
          debug := s0.debug, debugFile := s0.debugFile, gui := s0.gui
          configFile := s0.configFile, audioSourceMuted := s0.audioSourceMuted } ∧
      loadFromFile cfg (some (saveToFile cfg)) randStr stof = cfg :=
  ⟨loadFromFile_saveToFile_eq cfg s0 randStr stof fileWrittable hvalid hstof,
   loadFromFile_saveToFile_eq cfg cfg randStr stof fileWrittable hvalid hstof⟩

/-- C21, amended, on the settings of a run with `--debug`: loaded into the settings of a run
with the default options they come back with `debug` off and are otherwise the same. -/
theorem config_round_trip_witness :
    loadFromFile (loadFromOpts {} "abcde".toList) (some (saveToFile exampleDebugSettings)) []
        exampleStof = { exampleDebugSettings with debug := false } ∧
      loadFromFile exampleDebugSettings (some (saveToFile exampleDebugSettings)) []
        exampleStof = exampleDebugSettings :=
  config_round_trip exampleDebugSettings (loadFromOpts {} "abcde".toList) [] exampleStof
    (fun _ => true) ⟨exampleDebugSettings, rfl⟩ exampleStof_to_string

end Settings

namespace Settings

/-- C22 as stated fails: with the command line giving the video encoder `auto`, a config file
that spells the video encoder `h265` makes the constructor of `Settings` throw; the setting
is not left at the command-line value. -/
theorem invalid_encoder_throws :
    (loadFromOpts exampleOptions "abcde".toList).videoEncoder = some .Auto ∧
      videoEncoderFromStr "h265".toList = none ∧
      construct exampleOptions (some exampleBadIni) "abcde".toList "fghij".toList exampleStof
        (fun _ => true) (fun _ => true) = .error "invalid option: video-encoder".toList :=
  ⟨rfl, rfl, rfl⟩

/-- C22, amended: when the config file is loaded and its section `General` holds a spelling
that is not valid for `video-encoder`, `default-stream-format` or
`default-video-orientation`, the setting is left empty by `loadFromFile`, whatever the command
line gave, and the constructor of `Settings` fails with the exception of `check`. -/
theorem construct_invalid_spelling (options : ParseResult) (ini : IniStructure)
    (sec : IniSection) (randStr randStr2 : List Char) (stof : List Char → Option ℚ)
    (fileWrittable fileReadable : List Char → Bool)
    (hfile : options.configFile ≠ [])
    (hsec : List.lookup sectionName ini = some sec)
    (hbad : (∃ v, List.lookup videoEncoderOpt sec = some v ∧ videoEncoderFromStr v = none) ∨
      (∃ v, List.lookup (DEFAULT_OPT streamFormatOpt) sec = some v ∧
        streamFormatFromStr v = none) ∨
      (∃ v, List.lookup (DEFAULT_OPT videoOrientationOpt) sec = some v ∧
        videoOrientationFromStr v = none)) :
    ((loadFromFile (loadFromOpts options randStr) (some ini) randStr2 stof).videoEncoder = none ∨
      (loadFromFile (loadFromOpts options randStr) (some ini) randStr2 stof).streamFormat = none ∨
      (loadFromFile (loadFromOpts options randStr) (some ini) randStr2 stof).videoOrientation
        = none) ∧
    ∃ e, construct options (some ini) randStr randStr2 stof fileWrittable fileReadable
      = .error e := by
  have hnone : (loadFromFile (loadFromOpts options randStr) (some ini) randStr2
        stof).videoEncoder = none ∨
      (loadFromFile (loadFromOpts options randStr) (some ini) randStr2 stof).streamFormat
        = none ∨
      (loadFromFile (loadFromOpts options randStr) (some ini) randStr2 stof).videoOrientation
        = none := by
    rcases hbad with ⟨v, hv, hn⟩ | ⟨v, hv, hn⟩ | ⟨v, hv, hn⟩
    · left
      simp only [loadFromFile, hsec, fromSection, hv, hn]
    · right; left
      simp only [loadFromFile, hsec, fromSection, hv, hn]
    · right; right
      simp only [loadFromFile, hsec, fromSection, hv, hn]
  refine ⟨hnone, ?_⟩
  obtain ⟨e, he⟩ := check_error_of_none fileWrittable _ hnone
  have hcf : (loadFromOpts options randStr).configFile.isEmpty = false := by
    cases hc : options.configFile with
    | nil => exact absurd hc hfile
    | cons a l => simp [loadFromOpts, hc]
  refine ⟨e, ?_⟩
  unfold construct
  simp only [hcf, Bool.not_false, if_true, he]

/-- C22, amended, on a config file that spells the video encoder `h265`: the constructor
fails. -/
theorem construct_invalid_spelling_witness :
    ∃ e, construct exampleOptions (some exampleBadIni) "abcde".toList "fghij".toList exampleStof
      (fun _ => true) (fun _ => true) = .error e :=
  (construct_invalid_spelling exampleOptions exampleBadIni
    [("video-encoder".toList, "h265".toList)] "abcde".toList "fghij".toList exampleStof
    (fun _ => true) (fun _ => true) (by decide) rfl
    (Or.inl ⟨"h265".toList, rfl, rfl⟩)).2

end Settings

/-! ## The program entry -/

/-- C24 as stated fails: when the validation of the settings fails with an exception, `main`
prints the line "Error: invalid option: url-path" and returns the exit code 0. -/
theorem main_returns_zero_after_error :
    main { settings := .error "invalid option: url-path".toList } =
      (0, ["Error: invalid option: url-path".toList]) := by
  rfl

/-- C24, amended: `main` returns the exit code 0 in every run. When the option parsing, an
informational command, the validation of the settings or the start-up of the server throws,
it prints the single line "Error: " followed by the text of the exception on `stderr`;
otherwise, on clean shutdown and after an informational command, it prints nothing there. -/
theorem main_exit_code (run : MainRun) :
    (main run).1 = 0 ∧
      ((∃ what, (main run).2 = ["Error: ".toList ++ what]) ∨ (main run).2 = []) ∧
      (∀ what, processOpts run = .error what → (main run).2 = ["Error: ".toList ++ what]) ∧
      (∀ settings what, processOpts run = .ok (some settings) → run.kamkast = .error what →
        (main run).2 = ["Error: ".toList ++ what]) ∧
      (∀ settings what, processOpts run = .ok (some settings) → run.kamkast = .ok () →
        run.start = .error what → (main run).2 = ["Error: ".toList ++ what]) ∧
      (processOpts run = .ok none → (main run).2 = []) ∧
      (∀ settings, processOpts run = .ok (some settings) → run.kamkast = .ok () →
        run.start = .ok () → (main run).2 = []) := by
  unfold main
  cases hp : processOpts run with
  | error what => simp
  | ok o =>
    cases o with
    | none => simp
    | some settings =>
      cases hk : run.kamkast with
      | error what => simp
      | ok u =>
        cases hs : run.start with
        | error what => simp
        | ok u2 => simp

/-- C24, amended, on three runs: a failing validation, the help command, and a clean
shutdown. -/
theorem main_exit_code_witness :
    main { settings := .error "invalid option: port".toList } =
        (0, ["Error: invalid option: port".toList]) ∧
      main { options := .ok .Help } = (0, []) ∧
      main {} = (0, []) :=
  ⟨Prod.ext (main_exit_code { settings := .error "invalid option: port".toList }).1
      ((main_exit_code { settings := .error "invalid option: port".toList }).2.2.1 _ rfl),
    Prod.ext (main_exit_code { options := .ok .Help }).1
      ((main_exit_code { options := .ok .Help }).2.2.2.2.2.1 rfl),
    Prod.ext (main_exit_code {}).1 ((main_exit_code {}).2.2.2.2.2.2 _ rfl rfl rfl)⟩

/-! ## Caster: camera direction -/

namespace Caster

/-- C29: `switchVideoDirection` assigns the name of the source in use, not the name of the
source it found. With the front camera in use and a back camera detected, the configured
video source is still "front", whose direction is Front, and the restart is requested. For
every input the configured source afterwards is the old one or the name of the source in
use. -/
theorem switchVideoDirection_keeps_source :
    switchVideoDirection
        [("back".toList, { name := "back".toList, sensorDirection := .Back }),
          ("front".toList, { name := "front".toList, sensorDirection := .Front })]
        { name := "front".toList, sensorDirection := .Front }
        { videoSource := "front".toList } =
      { videoSource := "front".toList, restartRequested := true } ∧
    (∀ (videoProps : List (List Char × VideoSourceInternalProps))
        (props : VideoSourceInternalProps) (c : Capture),
      (switchVideoDirection videoProps props c).videoSource = c.videoSource ∨
        (switchVideoDirection videoProps props c).videoSource = props.name) := by
  refine ⟨by decide, ?_⟩
  intro videoProps props c
  unfold switchVideoDirection restartVideoCapture
  simp only
  split
  · left; rfl
  · right
    split_ifs <;> rfl

end Caster

/-! ## Kamkast: the end of a caster -/

namespace Kamkast

/-- C25: stopping the caster of `exampleCasting`, which is in state `Started`, enqueues two
`CasterEnded` events: one by the state handler that the destructor of the caster calls and one
by `stopCaster` itself. This holds for a `StopCaster` event and for the preemption by a
`StartCaster` event alike. -/
theorem stopCaster_two_CasterEnded :
    ((exampleCasting.handleEvent { type := .StopCaster } {}).loop.queue.map
        (fun e => (e.type, e.connId))) =
      [(.CasterEnded, some 1), (.StopCaster, none), (.CasterEnded, none)] ∧
    (((exampleCasting.handleEvent { type := .StartCaster, connId := some 2 } {}).loop.queue.map
        (fun e => e.type)).count .CasterEnded) = 2 := by
  decide

end Kamkast

/-! ## HttpServer: the suspended flag -/

namespace HttpServer

/-- C30: after the content reader has suspended connection 3 of a server (its buffer is
empty) and the connection is dropped, the framework has resumed the connection but the flag
`suspended` is still set; the destructor of the server then resumes the connection a second
time, because `resumeConnection` tests the flag. -/
theorem dropConnection_leaves_flag :
    (((exampleServer.run [.contentReader 3 8 true 100, .contentReader 3 8 true 200,
        .dropConnection 3]).connectionCtx 3).map
        (fun ctx => (ctx.suspended, ctx.mhdSuspended))) = some (true, false) ∧
    (((exampleServer.run [.contentReader 3 8 true 100, .contentReader 3 8 true 200]).connectionCtx
        3).map (fun ctx => (ctx.suspended, ctx.mhdSuspended))) = some (true, true) ∧
    (∀ ctx : ConnectionCtx, ctx.suspended = true → ctx.mhdSuspended = false →
      resumeConnection ctx = { ctx with suspended := false }) := by
  refine ⟨by decide, by decide, ?_⟩
  intro ctx h1 h2
  cases ctx
  simp_all [resumeConnection]

end HttpServer

/-! ## Caster: reading raw audio -/

namespace Caster

/-- Padding an under-full buffer up to the frame size, when the frame fits the buffer. -/
theorem pushNull_data (b : DataBuffer) (n : ℕ) (hcap : n ≤ b.hardMax) (hlt : b.size < n) :
    (b.pushNullExactForce (n - b.size)).data = b.data ++ List.replicate (n - b.size) 0 ∧
      (b.data ++ List.replicate (n - b.size) 0).length = n := by
  have hlen : (b.data ++ List.replicate (n - b.size) 0).length = n := by
    simp only [List.length_append, List.length_replicate, DataBuffer.size] at *
    omega
  refine ⟨?_, hlen⟩
  simp only [DataBuffer.pushNullExactForce, DataBuffer.pushExactForce, hlen]
  have h0 : n - b.hardMax = 0 := by omega
  rw [h0, List.drop_zero]

/-- The cases of `readRawAudioPkt`, when the frame fits the buffer. -/
theorem readRawAudioPkt_eq (s : AvState) (a : AudioSide) (now : Int) (newPacketOk : Bool)
    (hcap : a.frameSize ≤ a.buf.hardMax) :
    readRawAudioPkt s a now newPacketOk =
      if rawAudioDelay s a now < -(2 * s.audioFrameDuration) then
        { buf := a.buf.discardExact a.frameSize, discardedAt := some a.buf.size }
      else if rawAudioDelay s a now < s.audioFrameDuration then { buf := a.buf }
      else if a.buf.size < a.frameSize then
        if a.paStream = false ∨ rawAudioDelay s a now > 2 * s.audioFrameDuration ∨
            a.audioMuted = true then
          if newPacketOk = true then
            { pkt := some (a.buf.data ++ List.replicate (a.frameSize - a.buf.size) 0),
              buf := { a.buf with data := [] } }
          else
            { buf := { a.buf with
                data := a.buf.data ++ List.replicate (a.frameSize - a.buf.size) 0 },
              threw := true }
        else { buf := a.buf }
      else if newPacketOk = true then
        { pkt := some (a.buf.data.take a.frameSize),
          buf := { a.buf with data := a.buf.data.drop a.frameSize } }
      else { buf := a.buf, threw := true } := by
  obtain ⟨δ, hδ⟩ : ∃ δ, δ = rawAudioDelay s a now := ⟨_, rfl⟩
  rw [← hδ]
  unfold readRawAudioPkt
  simp only [← hδ]
  by_cases h1 : δ < -(2 * s.audioFrameDuration)
  · simp only [h1, if_true]
  simp only [h1, if_false]
  by_cases h2 : δ < s.audioFrameDuration
  · simp only [h2, if_true]
  simp only [h2, if_false]
  by_cases hlt : a.buf.size < a.frameSize
  · have he : a.buf.hasEnoughData a.frameSize = false := by
      simp [DataBuffer.hasEnoughData, hlt]
    obtain ⟨hd, hl⟩ := pushNull_data a.buf a.frameSize hcap hlt
    have hbuf : a.buf.pushNullExactForce (a.frameSize - a.buf.size) =
        { a.buf with data := a.buf.data ++ List.replicate (a.frameSize - a.buf.size) 0 } := by
      simp only [DataBuffer.pushNullExactForce, DataBuffer.pushExactForce] at hd ⊢
      rw [hd]
    have htake : (a.buf.data ++ List.replicate (a.frameSize - a.buf.size) 0).take a.frameSize
        = a.buf.data ++ List.replicate (a.frameSize - a.buf.size) 0 :=
      List.take_of_length_le (le_of_eq hl)
    have hdrop : (a.buf.data ++ List.replicate (a.frameSize - a.buf.size) 0).drop a.frameSize
        = [] := List.drop_of_length_le (le_of_eq hl)
    simp only [he, hlt, Bool.not_false, if_true, hbuf, DataBuffer.pull, htake, hdrop]
    by_cases hps : a.paStream = false <;> by_cases hg : δ > 2 * s.audioFrameDuration <;>
      by_cases hm : a.audioMuted = true <;> cases hok : newPacketOk <;>
      simp [hps, hg, hm]
  · have hle : a.frameSize ≤ a.buf.size := Nat.le_of_not_lt hlt
    have he : a.buf.hasEnoughData a.frameSize = true := by
      simp [DataBuffer.hasEnoughData, hle]
    simp only [he, hlt, Bool.not_true, if_false, DataBuffer.pull]
    cases hok : newPacketOk <;> simp

/-- C26 as stated fails: without video and before the first audio frame (the last-frame time
is 0) the delay is the frame duration itself, not `now - (lastAudioTs + frameDur)`. At
`now` = 1 s the claim's delay, 976780, exceeds two frame durations, so the empty buffer would
be padded and a packet yielded; the function yields no packet and leaves the buffer empty. -/
theorem first_audio_frame_delay :
    exampleAudioSide.videoEnabled = false ∧
      1000000 - (exampleMuxingStart.audioTimeLastFrame + exampleMuxingStart.audioFrameDuration)
        > 2 * exampleMuxingStart.audioFrameDuration ∧
      rawAudioDelay exampleMuxingStart exampleAudioSide 1000000 = 23220 ∧
      readRawAudioPkt exampleMuxingStart exampleAudioSide 1000000 true =
        { buf := exampleAudioSide.buf } := by
  decide

/-- C26, amended: `readRawAudioPkt` decides by the delay, which is `videoPts - audioPts` in
microseconds when video is enabled and otherwise `now - (lastAudioTs + frameDur)`, or
`frameDur` itself while no audio frame has been stamped (`lastAudioTs = 0`). If
`delay < -2*frameDur` it discards one frame and yields no packet; else if `delay < frameDur`
it yields no packet and leaves the buffer unchanged; else, when the buffer holds fewer than
`frameSize` bytes, it pads with zero bytes up to exactly `frameSize` if the PA stream is
absent or `delay > 2*frameDur` or the volume is 0, and otherwise yields no packet and leaves
the buffer unchanged. Whenever it yields a packet, the packet holds exactly `frameSize` bytes,
taken from the front of the (padded) buffer. The frame is taken to fit the buffer. -/
theorem readRawAudioPkt_decides (s : AvState) (a : AudioSide) (now : Int) (newPacketOk : Bool)
    (hcap : a.frameSize ≤ a.buf.hardMax) :
    rawAudioDelay s a now =
        (if a.videoEnabled then
          rescaleToUsec s.nextVideoPts s.outVideoTimeBase -
            rescaleToUsec s.nextAudioPts s.outAudioTimeBase
        else if s.audioTimeLastFrame = 0 then s.audioFrameDuration
        else now - (s.audioTimeLastFrame + s.audioFrameDuration)) ∧
    (rawAudioDelay s a now < -(2 * s.audioFrameDuration) →
      readRawAudioPkt s a now newPacketOk =
        { buf := a.buf.discardExact a.frameSize, discardedAt := some a.buf.size }) ∧
    (¬ rawAudioDelay s a now < -(2 * s.audioFrameDuration) →
      rawAudioDelay s a now < s.audioFrameDuration →
      readRawAudioPkt s a now newPacketOk = { buf := a.buf }) ∧
    (¬ rawAudioDelay s a now < -(2 * s.audioFrameDuration) →
      ¬ rawAudioDelay s a now < s.audioFrameDuration →
      ((a.buf.size < a.frameSize →
          ¬ (a.paStream = false ∨ rawAudioDelay s a now > 2 * s.audioFrameDuration ∨
            a.audioMuted = true) →
          readRawAudioPkt s a now newPacketOk = { buf := a.buf }) ∧
        (a.buf.size < a.frameSize →
          (a.paStream = false ∨ rawAudioDelay s a now > 2 * s.audioFrameDuration ∨
            a.audioMuted = true) →
          newPacketOk = true →
          readRawAudioPkt s a now newPacketOk =
            { pkt := some (a.buf.data ++ List.replicate (a.frameSize - a.buf.size) 0),
              buf := { a.buf with data := [] } }) ∧
        (a.frameSize ≤ a.buf.size → newPacketOk = true →
          readRawAudioPkt s a now newPacketOk =
            { pkt := some (a.buf.data.take a.frameSize),
              buf := { a.buf with data := a.buf.data.drop a.frameSize } }))) ∧
    (∀ p, (readRawAudioPkt s a now newPacketOk).pkt = some p → p.length = a.frameSize) := by
  have hnf := readRawAudioPkt_eq s a now newPacketOk hcap
  refine ⟨?_, ?_, ?_, ?_, ?_⟩
  · unfold rawAudioDelay videoAudioDelay audioDelay
    rfl
  · intro h
    rw [hnf, if_pos h]
  · intro h1 h2
    rw [hnf, if_neg h1, if_pos h2]
  · intro h1 h2
    refine ⟨?_, ?_, ?_⟩
    · intro hlt hno
      rw [hnf, if_neg h1, if_neg h2, if_pos hlt, if_neg hno]
    · intro hlt hyes hok
      rw [hnf, if_neg h1, if_neg h2, if_pos hlt, if_pos hyes, if_pos hok]
    · intro hle hok
      rw [hnf, if_neg h1, if_neg h2, if_neg (Nat.not_lt.mpr hle), if_pos hok]
  · intro p hp
    rw [hnf] at hp
    split_ifs at hp with h1 h2 hlt hyes hok hok <;>
      simp only [Option.some.injEq, reduceCtorEq] at hp
    · rw [← hp]
      simp only [List.length_append, List.length_replicate, DataBuffer.size] at *
      omega
    · rw [← hp]
      simp only [List.length_take, DataBuffer.size] at *
      omega

/-- C26, amended, on a caster without video whose last audio frame was stamped 100 ms before
`now`: the delay, 76780, exceeds two frame durations, so the empty buffer is padded and the
packet holds 4096 zero bytes. -/
theorem readRawAudioPkt_decides_witness :
    exampleAudioSide.frameSize ≤ exampleAudioSide.buf.hardMax ∧
      readRawAudioPkt { exampleMuxingStart with audioTimeLastFrame := 900000 } exampleAudioSide
          1000000 true =
        { pkt := some (exampleAudioSide.buf.data ++
            List.replicate (exampleAudioSide.frameSize - exampleAudioSide.buf.size) 0),
          buf := { exampleAudioSide.buf with data := [] } } :=
  ⟨by decide,
    ((readRawAudioPkt_decides { exampleMuxingStart with audioTimeLastFrame := 900000 }
      exampleAudioSide 1000000 true (by decide)).2.2.2.1 (by decide) (by decide)).2.1
      (by decide) (by decide) rfl⟩

end Caster

/-! ## Caster: the audio buffer while the caster runs -/

namespace Caster

/-- The value of `rescaleToUsec` on a time stamp that is not negative. -/
theorem rescaleToUsec_eq {x : Int} {tb : AVRational} (hx : 0 ≤ x) (hn : 0 < tb.num)
    (hd : 0 < tb.den) :
    rescaleToUsec x tb = (x * (tb.num * 1000000) + tb.den / 2) / tb.den := by
  unfold rescaleToUsec av_rescale_q av_rescale
  have h1 : ¬ (tb.den ≤ 0 ∨ tb.num * 1000000 < 0) := by omega
  have h2 : ¬ x < 0 := by omega
  simp only [one_mul, h1, h2, if_false]

/-- The value of `rescaleFromUsec` on a duration that is not negative. -/
theorem rescaleFromUsec_eq {d : Int} {tb : AVRational} (hd0 : 0 ≤ d) (hn : 0 < tb.num)
    (hd : 0 < tb.den) :
    rescaleFromUsec d tb = (d * tb.den + (tb.num * 1000000) / 2) / (tb.num * 1000000) := by
  unfold rescaleFromUsec av_rescale_q av_rescale
  have h1 : ¬ (tb.num * 1000000 ≤ 0 ∨ tb.den < 0) := by omega
  have h2 : ¬ d < 0 := by omega
  simp only [one_mul, h1, h2, if_false]

/-- `rescaleToUsec` is monotone on time stamps that are not negative. -/
theorem rescaleToUsec_mono {x y : Int} {tb : AVRational} (hx : 0 ≤ x) (hxy : x ≤ y)
    (hn : 0 < tb.num) (hd : 0 < tb.den) : rescaleToUsec x tb ≤ rescaleToUsec y tb := by
  rw [rescaleToUsec_eq hx hn hd, rescaleToUsec_eq (le_trans hx hxy) hn hd]
  apply Int.ediv_le_ediv hd
  have hB : 0 ≤ tb.num * 1000000 := by omega
  have := Int.mul_le_mul_of_nonneg_right hxy hB
  omega

/-- Advancing an audio time stamp by the packet duration advances it by at most two frame
durations in microseconds. -/
theorem rescaleToUsec_add_pkt {a d : Int} {tb : AVRational} (ha : 0 ≤ a) (hd0 : 0 ≤ d)
    (hn : 0 < tb.num) (hd : 0 < tb.den) :
    rescaleToUsec (a + rescaleFromUsec d tb) tb ≤ rescaleToUsec a tb + 2 * d := by
  have hp0 : 0 ≤ rescaleFromUsec d tb := rescaleFromUsec_nonneg hd0 hn hd
  obtain ⟨p, hp⟩ : ∃ p, p = rescaleFromUsec d tb := ⟨_, rfl⟩
  obtain ⟨B, hB⟩ : ∃ B, B = tb.num * 1000000 := ⟨_, rfl⟩
  obtain ⟨C, hC⟩ : ∃ C, C = tb.den := ⟨_, rfl⟩
  have hBpos : 0 < B := by omega
  have hCpos : 0 < C := by omega
  rw [← hp] at hp0 ⊢
  rw [rescaleToUsec_eq (add_nonneg ha hp0) hn hd, rescaleToUsec_eq ha hn hd, ← hB, ← hC]
  have hpe : p = (d * C + B / 2) / B := by
    rw [hp, rescaleFromUsec_eq hd0 hn hd, ← hB, ← hC]
  have hpB : p * B ≤ d * C + B / 2 := by
    rw [hpe]
    exact Int.ediv_mul_le _ (ne_of_gt hBpos)
  have hdC : 0 ≤ d * C := mul_nonneg hd0 hCpos.le
  have hle : p * B ≤ 2 * d * C := by
    rcases eq_or_lt_of_le hp0 with h0 | hpos
    · rw [← h0]
      linarith
    · have h1 : B ≤ p * B := by nlinarith
      have h2 : 2 * (B / 2) ≤ B := by omega
      linarith
  have hkey : (a + p) * B + C / 2 ≤ (a * B + C / 2) + 2 * d * C := by linarith
  calc ((a + p) * B + C / 2) / C ≤ ((a * B + C / 2) + 2 * d * C) / C :=
        Int.ediv_le_ediv hCpos hkey
    _ = (a * B + C / 2) / C + 2 * d := Int.add_mul_ediv_right _ _ (ne_of_gt hCpos)

end Caster

namespace Caster

/-- When the delay is not below `-2 * frameDur`, `readRawAudioPkt` makes no call of
`discardExact`; when it yields a packet, the delay is at least `frameDur`. -/
theorem readRawAudioPkt_facts (s : AvState) (a : AudioSide) (now : Int) (newPacketOk : Bool) :
    (¬ rawAudioDelay s a now < -(2 * s.audioFrameDuration) →
      (readRawAudioPkt s a now newPacketOk).discardedAt = none) ∧
    ((readRawAudioPkt s a now newPacketOk).pkt ≠ none →
      s.audioFrameDuration ≤ rawAudioDelay s a now) := by
  obtain ⟨δ, hδ⟩ : ∃ δ, δ = rawAudioDelay s a now := ⟨_, rfl⟩
  rw [← hδ]
  unfold readRawAudioPkt
  simp only [← hδ]
  by_cases h1 : δ < -(2 * s.audioFrameDuration)
  · simp [h1]
  · by_cases h2 : δ < s.audioFrameDuration
    · simp [h1, h2]
    · simp only [h1, h2, if_false]
      refine ⟨fun _ => ?_, fun _ => le_of_not_lt h2⟩
      split_ifs <;> rfl

/-- The steps keep the audio side apart from the buffer. -/
theorem audioStep_side (st : AudioRun) (step : AudioStep) :
    (audioStep st step).side.videoEnabled = st.side.videoEnabled := by
  cases step with
  | paPush data => rfl
  | video c =>
    unfold audioStep
    split_ifs <;> rfl
  | audio p =>
    unfold audioStep
    simp only
    split_ifs
    · rfl
    · rfl
    · split
      · rfl
      · split <;> rfl

/-- Pushing captured bytes keeps the invariant. -/
theorem audioStep_paPush (st : AudioRun) (t : Int) (data : List Nat)
    (hinv : runInvariant st t) : runInvariant (audioStep st (.paPush data)) t := hinv

/-- A `muxVideo` call keeps the invariant. -/
theorem audioStep_video (st : AudioRun) (t : Int) (c : VideoCall)
    (hinv : runInvariant st t) : runInvariant (audioStep st (.video c)) t := by
  unfold audioStep
  by_cases he : st.ended = true
  · simp only [he, if_true]
    exact hinv
  simp only [he, Bool.false_eq_true, if_false]
  obtain ⟨h1, ⟨h2, h3⟩, ⟨h4, h5⟩, h6, h7, h8, h9, h10, h11, h12, h13⟩ := hinv
  rcases muxVideo_cases st.av c with ⟨_, hs⟩ | ⟨d, k, hd0, _, hs, _⟩
  · rw [hs]
    exact ⟨h1, ⟨h2, h3⟩, ⟨h4, h5⟩, h6, h7, h8, h9, h10, h11, h12, h13⟩
  · rw [hs]
    have hd : 0 ≤ d := hd0 h6
    have hr : 0 ≤ rescaleFromUsec d st.av.outVideoTimeBase := rescaleFromUsec_nonneg hd h2 h3
    refine ⟨h1, ⟨h2, h3⟩, ⟨h4, h5⟩, hd, h7, h8, add_nonneg h9 hr, h10, ?_, h12, h13⟩
    intro hv
    have h := h11 hv
    have hm := @rescaleToUsec_mono _ _ st.av.outVideoTimeBase h9
      (le_add_of_nonneg_right hr) h2 h3
    simp only [videoAudioDelay] at h ⊢
    omega

end Caster

namespace Caster

/-- The invariant stays when the clock reading grows. -/
theorem runInvariant_mono {st : AudioRun} {t u : Int} (hinv : runInvariant st t) (htu : t ≤ u) :
    runInvariant st u := by
  obtain ⟨h1, h2, h4, h6, h7, h8, h9, h10, h11, h12, h13⟩ := hinv
  exact ⟨h1, h2, h4, h6, h7, h8, h9, h10, h11, fun hv => by have := h12 hv; omega, by omega⟩

/-- The invariant reads only the time stamping state, the history of discards and whether
video is enabled. -/
theorem runInvariant_congr {st st1 : AudioRun} {t : Int} (hinv : runInvariant st t)
    (hav : st1.av = st.av) (hd : st1.discards = st.discards)
    (hv : st1.side.videoEnabled = st.side.videoEnabled) : runInvariant st1 t := by
  unfold runInvariant at hinv ⊢
  rw [hav, hd, hv]
  exact hinv

/-- With the invariant and a clock that has not gone back, the delay that `readRawAudioPkt`
computes is not below `-2 * frameDur`. -/
theorem rawAudioDelay_ge {st : AudioRun} {t : Int} (now : Int) (hinv : runInvariant st t)
    (hclock : st.side.videoEnabled = true ∨ t ≤ now) :
    ¬ rawAudioDelay st.av st.side now < -(2 * st.av.audioFrameDuration) := by
  obtain ⟨h1, h2, h4, h6, h7, h8, h9, h10, h11, h12, h13⟩ := hinv
  unfold rawAudioDelay
  by_cases hv : st.side.videoEnabled = true
  · have := h11 hv
    simp only [hv, if_true]
    omega
  · have hv2 : st.side.videoEnabled = false := by simpa using hv
    have ht : t ≤ now := by
      rcases hclock with h | h
      · exact absurd h hv
      · exact h
    have := h12 hv2
    simp only [hv2, Bool.false_eq_true, if_false, audioDelay]
    split_ifs <;> omega

/-- Stamping an audio packet, when the delay was at least `frameDur`, keeps the invariant. -/
theorem stampAudio_invariant {st st1 : AudioRun} {t : Int} (now : Int)
    (hinv : runInvariant st t) (hclock : st.side.videoEnabled = true ∨ t ≤ now)
    (hdelay : st.av.audioFrameDuration ≤ rawAudioDelay st.av st.side now)
    (hav : st1.av = (stampAudio st.av now).1) (hd : st1.discards = st.discards)
    (hv : st1.side.videoEnabled = st.side.videoEnabled) :
    runInvariant st1 (if st.side.videoEnabled then t else now) := by
  obtain ⟨h1, ⟨h2, h3⟩, ⟨h4, h5⟩, h6, h7, h8, h9, h10, h11, h12, h13⟩ := hinv
  have hp : 0 ≤ st.av.audioPktDuration := by
    rw [h8]
    exact rescaleFromUsec_nonneg h7 h4 h5
  unfold runInvariant
  rw [hav, hd, hv]
  simp only [stampAudio]
  refine ⟨h1, ⟨h2, h3⟩, ⟨h4, h5⟩, h6, h7, h8, h9, add_nonneg h10 hp, ?_, ?_, ?_⟩
  · intro hv1
    have hadd := @rescaleToUsec_add_pkt _ _ st.av.outAudioTimeBase h10 h7 h4 h5
    rw [← h8] at hadd
    simp only [rawAudioDelay, hv1, if_true, videoAudioDelay] at hdelay
    simp only [videoAudioDelay]
    omega
  · intro hv2
    have ht : t ≤ now := by
      rcases hclock with h | h
      · rw [hv2] at h
        exact absurd h (by decide)
      · exact h
    simp only [rawAudioDelay, hv2, Bool.false_eq_true, if_false, audioDelay] at hdelay
    simp only [hv2, Bool.false_eq_true, if_false]
    split_ifs at hdelay ⊢ <;> omega
  · by_cases hv1 : st.side.videoEnabled = true
    · simp only [hv1, if_true]
      exact h13
    · have ht : t ≤ now := by
        rcases hclock with h | h
        · exact absurd h hv1
        · exact h
      simp only [hv1, if_false]
      omega

/-- One pass of the loop of `muxAudio` keeps the invariant and makes no call of
`discardExact`, as long as video is enabled or the clock has not gone back. -/
theorem audioStep_audio (st : AudioRun) (t : Int) (p : AudioPass)
    (hinv : runInvariant st t) (hclock : st.side.videoEnabled = true ∨ t ≤ p.now) :
    runInvariant (audioStep st (.audio p)) (if st.side.videoEnabled then t else p.now) := by
  have htu : t ≤ (if st.side.videoEnabled then t else p.now) := by
    by_cases hv1 : st.side.videoEnabled = true
    · simp [hv1]
    · rcases hclock with h | h
      · exact absurd h hv1
      · simp only [hv1, if_false]
        exact h
  unfold audioStep
  by_cases he : st.ended = true
  · simp only [he, if_true]
    exact runInvariant_mono hinv htu
  simp only [he, Bool.false_eq_true, if_false]
  obtain ⟨hnone, hpkt⟩ := readRawAudioPkt_facts st.av st.side p.now p.newPacketOk
  have hnone2 := hnone (rawAudioDelay_ge p.now hinv hclock)
  generalize readRawAudioPkt st.av st.side p.now p.newPacketOk = r at hnone2 hpkt
  obtain ⟨pkt, buf, threw, dAt⟩ := r
  simp only at hnone2 hpkt
  subst hnone2
  cases threw
  · cases pkt with
    | none => exact runInvariant_mono (runInvariant_congr hinv rfl rfl rfl) htu
    | some x =>
      have hdelay := hpkt (by simp)
      cases hen : p.encode with
      | failed => exact runInvariant_mono (runInvariant_congr hinv rfl rfl rfl) htu
      | notReady => exact runInvariant_mono (runInvariant_congr hinv rfl rfl rfl) htu
      | packet => exact stampAudio_invariant p.now hinv hclock hdelay rfl rfl rfl
  · exact runInvariant_mono (runInvariant_congr hinv rfl rfl rfl) htu

end Caster

namespace Caster

/-- Zero microseconds in any positive time base is zero. -/
theorem rescaleToUsec_zero {tb : AVRational} (hn : 0 < tb.num) (hd : 0 < tb.den) :
    rescaleToUsec 0 tb = 0 := by
  rw [rescaleToUsec_eq le_rfl hn hd]
  simp only [zero_mul, zero_add]
  exact Int.ediv_eq_zero_of_lt (by omega) (by omega)

/-- The invariant holds when the muxing thread starts. -/
theorem muxingStart_invariant (videoFramerate frameSize : Int)
    (videoTimeBase inTimeBase audioTimeBase : AVRational) (side : AudioSide)
    (hfr : 0 < videoFramerate) (hfs : 0 ≤ frameSize)
    (hv : 0 < videoTimeBase.num ∧ 0 < videoTimeBase.den)
    (hi : 0 < inTimeBase.num ∧ 0 < inTimeBase.den)
    (ha : 0 < audioTimeBase.num ∧ 0 < audioTimeBase.den) :
    runInvariant
      { av := muxingStart videoFramerate videoTimeBase frameSize inTimeBase audioTimeBase,
        side := side } 0 := by
  have hd : 0 ≤ rescaleToUsec frameSize inTimeBase := rescaleToUsec_nonneg hfs hi.1 hi.2
  have hr : 0 ≤ rescaleToUsec 1 ⟨1, videoFramerate⟩ :=
    @rescaleToUsec_nonneg 1 ⟨1, videoFramerate⟩ Int.one_pos.le Int.one_pos hfr
  unfold runInvariant muxingStart initAvAudioDurations initAvVideoDurations
  refine ⟨rfl, hv, ha, hr, hd, rfl, le_rfl, le_rfl, fun _ => ?_, fun _ => ?_, le_rfl⟩
  · simp only [videoAudioDelay, rescaleToUsec_zero hv.1 hv.2, rescaleToUsec_zero ha.1 ha.2]
    omega
  · simp only
    omega

/-- Every step keeps the invariant, along a run with video or with a clock that never goes
back. -/
theorem audioRun_invariant (steps : List AudioStep) :
    ∀ (st : AudioRun) (t : Int), runInvariant st t →
      (st.side.videoEnabled = true ∨ clockMonotone t steps = true) →
      ∃ u, runInvariant (audioRun st steps) u := by
  induction steps with
  | nil => exact fun st t hinv _ => ⟨t, hinv⟩
  | cons step rest ih =>
    intro st t hinv hclock
    have hside := audioStep_side st step
    cases step with
    | paPush data =>
      refine ih _ t (audioStep_paPush st t data hinv) ?_
      rw [hside]
      exact hclock
    | video c =>
      refine ih _ t (audioStep_video st t c hinv) ?_
      rw [hside]
      exact hclock
    | audio p =>
      have hc : st.side.videoEnabled = true ∨ (t ≤ p.now ∧ clockMonotone p.now rest = true) := by
        rcases hclock with h | h
        · exact Or.inl h
        · simp only [clockMonotone, Bool.and_eq_true, decide_eq_true_eq] at h
          exact Or.inr h
      refine ih _ _ (audioStep_audio st t p hinv (hc.imp id And.left)) ?_
      rw [hside]
      rcases hc with h | h
      · exact Or.inl h
      · by_cases hv : st.side.videoEnabled = true
        · exact Or.inl hv
        · simp only [hv, if_false]
          exact Or.inr h.2

/-- The too-much-audio branch of `readRawAudioPkt` is never taken, and so `discardExact` is
never called, in a run from the start of the muxing thread with positive time bases, as long as
the caster has video or the clock readings of the passes of `muxAudio` start at zero or above
and never go back. -/
theorem discard_branch_dead (videoFramerate frameSize : Int)
    (videoTimeBase inTimeBase audioTimeBase : AVRational) (side : AudioSide)
    (steps : List AudioStep)
    (hfr : 0 < videoFramerate) (hfs : 0 ≤ frameSize)
    (hv : 0 < videoTimeBase.num ∧ 0 < videoTimeBase.den)
    (hi : 0 < inTimeBase.num ∧ 0 < inTimeBase.den)
    (ha : 0 < audioTimeBase.num ∧ 0 < audioTimeBase.den)
    (hclock : side.videoEnabled = true ∨ clockMonotone 0 steps = true) :
    (audioRun
      { av := muxingStart videoFramerate videoTimeBase frameSize inTimeBase audioTimeBase,
        side := side } steps).discards = [] := by
  obtain ⟨u, hu⟩ := audioRun_invariant steps _ 0
    (muxingStart_invariant videoFramerate frameSize videoTimeBase inTimeBase audioTimeBase side
      hfr hfs hv hi ha) hclock
  exact hu.1

/-- The run of `exampleAudioSteps` with video and the same run without video make no call of
`discardExact`. -/
theorem discard_branch_dead_example :
    (audioRun { av := exampleMuxingStart, side := { exampleAudioSide with videoEnabled := true } }
      exampleAudioSteps).discards = [] ∧
    (audioRun { av := exampleMuxingStart, side := exampleAudioSide } exampleAudioSteps).discards
      = [] :=
  ⟨discard_branch_dead 30 1024 ⟨1, 30⟩ ⟨1, 44100⟩ ⟨1, 44100⟩ _ exampleAudioSteps
      (by decide) (by decide) (by decide) (by decide) (by decide) (Or.inl rfl),
   discard_branch_dead 30 1024 ⟨1, 30⟩ ⟨1, 44100⟩ ⟨1, 44100⟩ _ exampleAudioSteps
      (by decide) (by decide) (by decide) (by decide) (by decide) (Or.inr (by decide))⟩

/-- A pass of the loop of `muxAudio` whose delay is below `-2 * frameDur` calls `discardExact`
with `frameSize` bytes, whatever the size of the audio buffer. -/
theorem audioStep_discards (st : AudioRun) (p : AudioPass) (he : st.ended = false)
    (h : rawAudioDelay st.av st.side p.now < -(2 * st.av.audioFrameDuration)) :
    (audioStep st (.audio p)).discards = st.discards ++ [(st.side.buf.size, st.side.frameSize)] := by
  have hr : readRawAudioPkt st.av st.side p.now p.newPacketOk =
      { buf := st.side.buf.discardExact st.side.frameSize,
        discardedAt := some st.side.buf.size } := by
    unfold readRawAudioPkt
    simp only [h, if_true]
  simp only [audioStep, he, Bool.false_eq_true, if_false, hr]

/-- A pass of the loop of `muxAudio` that finds a delay of at least `frameDur` and a whole
frame in the audio buffer pulls the frame and stamps a packet. -/
theorem audioStep_packet (st : AudioRun) (p : AudioPass) (he : st.ended = false)
    (h1 : ¬ rawAudioDelay st.av st.side p.now < -(2 * st.av.audioFrameDuration))
    (h2 : ¬ rawAudioDelay st.av st.side p.now < st.av.audioFrameDuration)
    (hen : st.side.buf.hasEnoughData st.side.frameSize = true)
    (hp : p.newPacketOk = true) (henc : p.encode = .packet) :
    audioStep st (.audio p) =
      { st with
        av := (stampAudio st.av p.now).1
        side := { st.side with buf := (st.side.buf.pull st.side.frameSize).2 }
        ended := p.writeFails } := by
  have hr : readRawAudioPkt st.av st.side p.now p.newPacketOk =
      { pkt := some (st.side.buf.pull st.side.frameSize).1,
        buf := (st.side.buf.pull st.side.frameSize).2 } := by
    unfold readRawAudioPkt
    simp only [h1, h2, if_false, hen, hp, Bool.not_true, Bool.false_eq_true]
  simp only [audioStep, he, Bool.false_eq_true, if_false, hr, henc]

/-- C27: the claim fails. In a caster without video whose clock is set back between two passes
of the loop of `muxAudio`, `readRawAudioPkt` takes its too-much-audio branch and calls
`discardExact` with 4096 bytes on an audio buffer that holds no byte: the branch is chosen by
the delay alone and the size of the buffer is not asked. -/
theorem discardExact_on_empty_buffer :
    (audioRun { av := exampleMuxingStart, side := exampleAudioSide } exampleClockBack).discards
      = [(0, 4096)] := by
  have hsize : ∀ b : DataBuffer, b.size = b.data.length := fun _ => rfl
  have hs2 := audioStep_packet
    (audioStep { av := exampleMuxingStart, side := exampleAudioSide }
      (.paPush (List.replicate 4096 7)))
    { now := 1000000 } rfl (by decide) (by decide)
    (by
      simp only [audioStep, DataBuffer.hasEnoughData, DataBuffer.pushExactForce, hsize,
        List.length_drop, List.length_append, List.length_replicate, exampleAudioSide]
      decide)
    rfl rfl
  have hs3 := audioStep_discards
    (audioStep
      (audioStep { av := exampleMuxingStart, side := exampleAudioSide }
        (.paPush (List.replicate 4096 7)))
      (.audio { now := 1000000 }))
    { now := 900000 } (by rw [hs2]) (by rw [hs2]; decide)
  simp only [audioRun, exampleClockBack, List.foldl_cons, List.foldl_nil]
  rw [hs3, hs2]
  simp only [audioStep, DataBuffer.pull, DataBuffer.pushExactForce, hsize,
    List.length_drop, List.length_append, List.length_replicate, exampleAudioSide]
  decide

end Caster

end KamkastModel
